import Mathlib

set_option linter.unusedVariables false

/-!
Verification development for the `angular-models` repository.

The embedding below translates `src/models.base.collection.js`
(`BaseCollectionClass`) into Lean: an ordered, identity-indexed collection
of mutable records with a Backbone-style bulk reconciliation operation
(`set`), plus `add`, `remove` and `sort`.

Records ("models", class `BaseModelClass`) are external collaborators of
this repository: only their interface (client identity `cid`, attribute
bag, change tracking, `toJSON`, validation) is assumed by the collection
code, so the record side is modelled from the spec where marked.

Mutable JS objects are embedded as explicit state: a `World` owns every
model object (keyed by its client identity `cid`, a `Nat`), and the
collection's ordered `models` array becomes a list of cids.  Event
`trigger` calls become an explicit event trace.  The key space of the
`_byId` index is split into client-identity keys and domain-identifier
keys (`MKey`); the spec itself (§9) leaves string collisions between the
two key spaces out of scope.
-/

/-- Attribute values carried by records (JS primitives). -/
abbrev Val := Int

/-- A raw attribute bag (a JS object literal): association list keyed by
field name.  A JS object cannot repeat a key, so reads take the first
occurrence. -/
abbrev Bag := List (String × Val)

/-- Property read on a bag. -/
def bagGet : Bag → String → Option Val
  | [], _ => none
  | kv :: rest, k => if kv.1 = k then some kv.2 else bagGet rest k

/-- Property write on a bag: overwrite the existing entry in place,
otherwise append (JS insertion order). -/
def bagSet : Bag → String → Val → Bag
  | [], k, v => [(k, v)]
  | kv :: rest, k, v => if kv.1 = k then (k, v) :: rest else kv :: bagSet rest k v

/-- Modelled from the spec: the single-record entity (`BaseModelClass`) is
not part of src/; spec §3 assumes a record with a stable client identity
(`cid`), a mutable attribute bag, and change detection (`changed` holds
the keys rewritten by the most recent attribute write).  `collFlag` is the
back-reference to the (single) owning collection. -/
structure Model where
  cid : Nat
  attrs : Bag
  changed : List String
  collFlag : Bool
  deriving DecidableEq, Repr

/-- Modelled from the spec: `Record#set` copies the given attributes onto
the record and records which keys actually changed value. -/
def modelSet (m : Model) (b : Bag) : Model :=
  { m with
    attrs := b.foldl (fun a kv => bagSet a kv.1 kv.2) m.attrs
    changed := (b.filter (fun kv => bagGet m.attrs kv.1 != some kv.2)).map (fun kv => kv.1) }

/-- The heap of model objects.  `nextCid` is the client-identity counter
(`_.uniqueId`); a fresh cid is allocated whenever a model object is
constructed. -/
structure World where
  store : List Model
  nextCid : Nat
  deriving DecidableEq, Repr

def storeFind : List Model → Nat → Option Model
  | [], _ => none
  | m :: rest, cid => if m.cid = cid then some m else storeFind rest cid

def findModel (w : World) (cid : Nat) : Option Model :=
  storeFind w.store cid

/-- The attribute bag of the model object `cid` (empty for a dangling
reference, which never occurs in consistent states). -/
def attrsOf (w : World) (cid : Nat) : Bag :=
  ((findModel w cid).map (fun m => m.attrs)).getD []

/-- In-place mutation of one model object. -/
def storeMap (w : World) (cid : Nat) (f : Model → Model) : World :=
  { w with store := w.store.map (fun m => if m.cid == cid then f m else m) }

/-- Key space of the `_byId` index: client identities and domain
identifiers live in one JS object; they are kept apart here (spec §9
declares cross-space string collisions undefined behaviour).  `undef` is
the JS `undefined` property key, written by `modelMap[id] = true` when a
batch entry has no domain identifier. -/
inductive MKey where
  | cid (c : Nat)
  | idK (v : Val)
  | undefK
  deriving DecidableEq, Repr

def byIdGet : List (MKey × Nat) → MKey → Option Nat
  | [], _ => none
  | p :: rest, k => if p.1 = k then some p.2 else byIdGet rest k

def byIdSet : List (MKey × Nat) → MKey → Nat → List (MKey × Nat)
  | [], k, v => [(k, v)]
  | p :: rest, k, v => if p.1 = k then (k, v) :: rest else p :: byIdSet rest k v

def byIdDel (l : List (MKey × Nat)) (k : MKey) : List (MKey × Nat) :=
  l.filter (fun p => decide (p.1 ≠ k))

/-- The collection's comparator (`models.base.collection.js` line 345-360
`sort`): a field name sorts ascending by that field via lodash `sortBy`; a
one-argument function is a sort-key extractor (also `sortBy`); a
two-argument function is a direct comparator passed to `Array#sort`. -/
inductive Cmp where
  | fld (name : String)
  | key1 (f : Bag → Int)
  | cmp2 (f : Bag → Bag → Int)

/-- `BaseCollectionClass` instance state: `seq` is `this.models` (as cids),
`length` the cached `this.length`, `byId` the `_byId` index.  `idAttr` is
`this.model.prototype.idAttribute || 'id'` and `vErr` the record class's
validation result (`model.validationError` after construction); both
describe the external record class. -/
structure Coll where
  seq : List Nat
  length : Int
  byId : List (MKey × Nat)
  comparator : Option Cmp
  idAttr : String
  vErr : Bag → Option String

/-- `modelId(attrs)` (line 452-456): `attrs[idAttribute || 'id']`. -/
def modelIdOf (c : Coll) (b : Bag) : Option Val := bagGet b c.idAttr

/-- Input shapes accepted by `set`/`add`/`remove`/`get`: a raw key value,
a bare attribute bag, or a model reference. -/
inductive Entry where
  | raw (v : Val)
  | bag (b : Bag)
  | mref (cid : Nat)
  deriving DecidableEq, Repr

/-- `get` (line 285-293): `this._byId[obj] || this._byId[id] ||
this._byId[obj.cid]`.  For a raw probe the only possible hit is the raw
value used as an index key; for a bag, its derived domain identifier (a
bag carries no client identity, attribute values and cids being disjoint
spaces in this embedding); for a model, its domain identifier first, then
its client identity. -/
def getC (w : World) (c : Coll) : Entry → Option Nat
  | .raw v => byIdGet c.byId (.idK v)
  | .bag b => (modelIdOf c b).bind (fun v => byIdGet c.byId (.idK v))
  | .mref cid =>
    match ((findModel w cid).bind (fun m => modelIdOf c m.attrs)).bind
        (fun v => byIdGet c.byId (.idK v)) with
    | some r => some r
    | none => byIdGet c.byId (.cid cid)

/-- Notifications observable on the collection's channel.  `rem`/`addE`
carry the `options.index` payload in force when the event fired (`none`
when the shared options object holds no index). -/
inductive Ev where
  | change (cid : Nat)
  | invalid (err : String)
  | rem (cid : Nat) (idx : Option Int)
  | addE (cid : Nat) (idx : Option Int)
  | sortE
  deriving DecidableEq, Repr

/-- One slot of the list returned by `set`: the resolved or manufactured
model, `false` for a validation reject, or the untouched input entry when
nothing matched and `add` was off. -/
inductive Res where
  | mod (cid : Nat)
  | rejected
  | raw (e : Entry)
  deriving DecidableEq, Repr

/-- Fully resolved `set` options, after `_.defaults({}, options,
{add: true, remove: true, merge: true})` (line 32 and 128).  `sortOpt` is
`options.sort !== false`; `parse` is carried for interface fidelity only:
both parse hooks (`Collection#parse`, line 381-385, and the record's) are
pass-through by default, so it has no effect in this embedding. -/
structure SetOpts where
  add : Bool
  merge : Bool
  remove : Bool
  atP : Option Int
  sortOpt : Bool
  silent : Bool
  parse : Bool
  deriving DecidableEq, Repr

/-- A caller-supplied options object: absent fields are `none`. -/
structure OptsIn where
  add : Option Bool := none
  merge : Option Bool := none
  remove : Option Bool := none
  atP : Option Int := none
  sortOpt : Option Bool := none
  silent : Option Bool := none
  parse : Option Bool := none
  deriving DecidableEq, Repr

/-- `_.defaults({}, options, setOptions)`. -/
def resolveSet (o : OptsIn) : SetOpts :=
  ⟨o.add.getD true, o.merge.getD true, o.remove.getD true, o.atP,
   o.sortOpt.getD true, o.silent.getD false, o.parse.getD false⟩

/-- `_.extend({merge: false}, options, addOptions)` (line 79): the caller's
own `merge` survives the first extend; `addOptions = {add: true,
remove: false}` overwrites last. -/
def addExtend (o : OptsIn) : OptsIn :=
  { o with add := some true, remove := some false, merge := some (o.merge.getD false) }

/-- lodash `sortBy` ordering on optional field values (absent values sort
last). -/
def optValLe : Option Val → Option Val → Bool
  | some a, some b => decide (a ≤ b)
  | some _, none => true
  | none, some _ => false
  | none, none => true

/-- The boolean "not after" relation induced by a comparator. -/
def cmpLe (w : World) : Cmp → Nat → Nat → Bool
  | .fld n => fun a b => optValLe (bagGet (attrsOf w a) n) (bagGet (attrsOf w b) n)
  | .key1 f => fun a b => decide (f (attrsOf w a) ≤ f (attrsOf w b))
  | .cmp2 f => fun a b => decide (f (attrsOf w a) (attrsOf w b) ≤ 0)

/-- Stable insertion into an ascending list (new element goes after equal
ones). -/
def insertLe (le : Nat → Nat → Bool) (x : Nat) : List Nat → List Nat
  | [] => [x]
  | y :: ys => if le y x then y :: insertLe le x ys else x :: y :: ys

/-- Stable comparison sort (`_.sortBy` / `Array#sort`). -/
def sortLe (le : Nat → Nat → Bool) (l : List Nat) : List Nat :=
  l.foldl (fun acc x => insertLe le x acc) []

def sortSeq (w : World) (k : Cmp) (l : List Nat) : List Nat :=
  sortLe (cmpLe w k) l

/-- First index of `x`, if present. -/
def idxFrom : List Nat → Nat → Option Nat
  | [], _ => none
  | y :: ys, x => if y = x then some 0 else (idxFrom ys x).map (fun i => i + 1)

/-- `Array#indexOf`: first index, `-1` when absent. -/
def indexOfI (l : List Nat) (x : Nat) : Int :=
  match idxFrom l x with
  | some i => (i : Int)
  | none => -1

/-- `Array#splice(i, 1)` (JS bounds handling: a negative start counts from
the end, an out-of-range start deletes nothing). -/
def spliceOut (l : List Nat) (i : Int) : List Nat :=
  let n : Int := l.length
  let s : Int := if i < 0 then max (n + i) 0 else i
  if s ≥ n then l else l.take s.toNat ++ l.drop (s.toNat + 1)

/-- `Array#splice(i, 0, x)`. -/
def spliceIn (l : List Nat) (i : Int) (x : Nat) : List Nat :=
  let n : Int := l.length
  let s : Int := if i < 0 then max (n + i) 0 else min i n
  l.take s.toNat ++ x :: l.drop s.toNat

/-- The mutable machine state threaded through one `set` call: the heap,
the collection, the event trace, the shared options object's mutated
`index` field, and the algorithm's locals (`toAdd`, `modelMap`, `order`,
`orderChanged`, the `sort` flag, the resolved result array `res`, and the
loop-carried `model` variable). -/
structure RunSt where
  w : World
  c : Coll
  evs : List Ev
  optIdx : Option Int
  toAdd : List Nat
  modelMap : List MKey
  order : Option (List Nat)
  orderChanged : Bool
  sortFlag : Bool
  res : List Res
  lastModel : Option Nat

def initSt (w : World) (c : Coll) : RunSt :=
  ⟨w, c, [], none, [], [], none, false, false, [], none⟩

/-- One iteration of `remove` (line 94-112) on a model already resolved by
`get`: delete both index registrations, splice out of the sequence,
decrement the cached length, fire `remove` (with `options.index` mutated)
unless silenced, then `_removeReference` (sever the back-reference). -/
def removeStep (silent : Bool) (mcid : Nat) (st : RunSt) : RunSt :=
  let m := (findModel st.w mcid).getD ⟨mcid, [], [], false⟩
  let byId1 := match modelIdOf st.c m.attrs with
    | some v => byIdDel st.c.byId (.idK v)
    | none => st.c.byId
  let byId2 := byIdDel byId1 (.cid mcid)
  let idx := indexOfI st.c.seq mcid
  let c' : Coll := { st.c with byId := byId2, seq := spliceOut st.c.seq idx, length := st.c.length - 1 }
  let st' := if silent then { st with c := c' }
             else { st with c := c', optIdx := some idx, evs := st.evs ++ [Ev.rem mcid (some idx)] }
  let w' := storeMap st'.w mcid (fun mm => if mm.collFlag then { mm with collFlag := false } else mm)
  { st' with w := w' }

/-- `remove` (line 89-115): entries `get` cannot resolve are skipped
(`continue`); each model slot of the returned array holds the resolved
model or `undefined`. -/
def removeCore (silent : Bool) : List Entry → RunSt → RunSt × List (Option Nat)
  | [], st => (st, [])
  | e :: rest, st =>
    match getC st.w st.c e with
    | none =>
      let p := removeCore silent rest st
      (p.1, none :: p.2)
    | some mcid =>
      let p := removeCore silent rest (removeStep silent mcid st)
      (p.1, some mcid :: p.2)

/-- `_prepareModel` on a bare attribute bag (line 489-497): construct a
record (allocating a cid), keep it if validation passes, otherwise fire
`invalid` carrying the validation error and yield `false`. -/
def prepNew (b : Bag) (st : RunSt) : Option Nat × RunSt :=
  let cid := st.w.nextCid
  let wOk : World := { store := st.w.store ++ [⟨cid, b, [], true⟩], nextCid := cid + 1 }
  match st.c.vErr b with
  | none =>
    (some cid, { st with w := wOk })
  | some err =>
    (none, { st with w := { st.w with nextCid := cid + 1 }, evs := st.evs ++ [Ev.invalid err] })

/-- `_prepareModel` (line 481-498): an existing model instance is adopted
as-is (claiming it for this collection if unowned, no validation); raw
attributes go through the record constructor.  A non-object input yields a
record with empty attributes. -/
def prepareModel (st : RunSt) : Entry → Option Nat × RunSt
  | .mref cid =>
    let w' := storeMap st.w cid (fun m => if m.collFlag then m else { m with collFlag := true })
    (some cid, { st with w := w' })
  | .bag b => prepNew b st
  | .raw _ => prepNew [] st

/-- `_addReference` (line 506-515): index under the client identity, and
under the domain identifier when present. -/
def addReference (mcid : Nat) (st : RunSt) : RunSt :=
  let byId1 := byIdSet st.c.byId (.cid mcid) mcid
  let byId2 := match modelIdOf st.c (attrsOf st.w mcid) with
    | some v => byIdSet byId1 (.idK v) mcid
    | none => byId1
  { st with c := { st.c with byId := byId2 } }

/-- `modelMap[id]` key for a possibly missing domain identifier. -/
def mkKey : Option Val → MKey
  | some v => .idK v
  | none => .undefK

/-- Trailing part of one classification iteration (line 182-194): compute
the duplicate-suppression identifier from the resolved model's current
attributes, maintain `order`/`orderChanged` when full reordering is being
tracked, and mark `modelMap[id]`. -/
def trailing (origSeq : List Nat) (i : Nat) (mcid : Nat) (st : RunSt) : RunSt :=
  let id := modelIdOf st.c (attrsOf st.w mcid)
  let st1 :=
    match st.order with
    | some ord =>
      if id.isNone || !(st.modelMap.any (fun k => decide (k = mkKey id))) then
        let oc := st.orderChanged ||
          (match origSeq.get? i with
           | none => true
           | some c0 => decide (c0 ≠ mcid))
        { st with order := some (ord ++ [mcid]), orderChanged := oc }
      else st
    | none => st
  { st1 with modelMap := mkKey id :: st1.modelMap, lastModel := some mcid }

/-- Is this input entry literally the resolved model object
(`attrs !== existing`, line 159)? -/
def sameObjB (ecid : Nat) : Entry → Bool
  | .mref c0 => decide (c0 = ecid)
  | _ => false

/-- `isModel(attrs) ? attrs.attributes : attrs` (line 160); constructing
from a non-object reads no attributes. -/
def entryAttrs (w : World) : Entry → Bag
  | .bag bb => bb
  | .mref c0 => attrsOf w c0
  | .raw _ => []

/-- `_onModelEvent`'s identity-index maintenance on a `change`
notification (line 550-561): re-key the domain-identifier registration
when the identifier moved. -/
def idRekey (l : List (MKey × Nat)) (prevId newId : Option Val) (ecid : Nat) :
    List (MKey × Nat) :=
  if prevId ≠ newId then
    let b1 := match prevId with
      | some v => byIdDel l (.idK v)
      | none => l
    match newId with
    | some v => byIdSet b1 (.idK v) ecid
    | none => b1
  else l

/-- Merge of a batch entry into the matching existing record (line
159-168), skipped when the entry is literally the same object: copy the
attributes, raise the pending `sort` flag when the sort key changed, and —
when something changed and the call is not silent — fire `change`, upon
which `_onModelEvent` re-keys the identity index if the domain identifier
moved. -/
def mergeExisting (o : SetOpts) (sortable : Bool) (sortAttr : Option String)
    (ecid : Nat) (e : Entry) (st : RunSt) : RunSt :=
  if o.merge && !(sameObjB ecid e) then
    match findModel st.w ecid with
    | none => st
    | some em =>
      let em' := modelSet em (entryAttrs st.w e)
      let hc := match sortAttr with
        | some a => em'.changed.any (fun k => decide (k = a))
        | none => !em'.changed.isEmpty
      let sf := st.sortFlag || (sortable && !st.sortFlag && hc)
      let w' := storeMap st.w ecid (fun _ => em')
      if !em'.changed.isEmpty && !o.silent then
        let c' : Coll := { st.c with
          byId := idRekey st.c.byId (modelIdOf st.c em.attrs) (modelIdOf st.c em'.attrs) ecid }
        { st with w := w', c := c', sortFlag := sf, evs := st.evs ++ [Ev.change ecid] }
      else { st with w := w', sortFlag := sf }
  else st

/-- One iteration of the classification loop of `set` (line 150-195). -/
def classifyStep (o : SetOpts) (sortable : Bool) (sortAttr : Option String)
    (origSeq : List Nat) (i : Nat) (e : Entry) (st : RunSt) : RunSt :=
  match getC st.w st.c e with
  | some ecid =>
    let st1 := if o.remove then { st with modelMap := MKey.cid ecid :: st.modelMap }
               else st
    let st2 := mergeExisting o sortable sortAttr ecid e st1
    let st3 := { st2 with res := st2.res ++ [Res.mod ecid] }
    trailing origSeq i ecid st3
  | none =>
    if o.add then
      match prepareModel st e with
      | (some mcid, st1) =>
        let st2 := addReference mcid { st1 with toAdd := st1.toAdd ++ [mcid] }
        let st3 := { st2 with res := st2.res ++ [Res.mod mcid] }
        trailing origSeq i mcid st3
      | (none, st1) =>
        { st1 with res := st1.res ++ [Res.rejected], lastModel := none }
    else
      -- No match and `add` disabled: `models[i]` keeps the raw entry and
      -- the loop-carried `model` variable (stale from an earlier
      -- iteration) feeds line 182-194.
      let st1 := { st with res := st.res ++ [Res.raw e] }
      match st1.lastModel with
      | none => st1
      | some lm => trailing origSeq i lm st1

def classifyList (o : SetOpts) (sortable : Bool) (sortAttr : Option String)
    (origSeq : List Nat) : List Entry → Nat → RunSt → RunSt
  | [], _, st => st
  | e :: rest, i, st =>
    classifyList o sortable sortAttr origSeq rest (i + 1)
      (classifyStep o sortable sortAttr origSeq i e st)

/-- Removal pass of `set` (line 197-207): members not marked in
`modelMap` are evicted through `remove` with the same options object. -/
def removePhase (o : SetOpts) (st : RunSt) : RunSt :=
  if o.remove then
    let toRemove := (st.c.seq.take st.c.length.toNat).filter
      (fun cid => !(st.modelMap.any (fun k => decide (k = MKey.cid cid))))
    if toRemove.isEmpty then st
    else (removeCore o.silent (toRemove.map Entry.mref) st).1
  else st

/-- Splice pass of `set` (line 209-228): raise the pending sort flag when
sortable, bump the cached length, then either splice the staged records in
at the explicit position, replace the sequence wholesale with the
recomputed `order`, or append the staged records. -/
def splicePhase (sortable : Bool) (atN : Option Int) (st : RunSt) : RunSt :=
  if !st.toAdd.isEmpty || st.orderChanged then
    let seq' := match atN with
      | some a => (st.toAdd.enum).foldl (fun s p => spliceIn s (a + p.1) p.2) st.c.seq
      | none => (if st.order.isSome then [] else st.c.seq) ++ (st.order.getD st.toAdd)
    let c' : Coll := { st.c with seq := seq', length := st.c.length + st.toAdd.length }
    { st with sortFlag := st.sortFlag || sortable, c := c' }
  else st

/-- Silent re-sort of `set` (line 230-233).  A raised sort flag implies a
configured comparator (`sortable` requires one), so the no-comparator
throw inside `this.sort` is unreachable here. -/
def sortPhase (st : RunSt) : RunSt :=
  if st.sortFlag then
    match st.c.comparator with
    | some k => { st with c := { st.c with seq := sortSeq st.w k st.c.seq } }
    | none => st
  else st

/-- Notification pass of `set` (line 235-247): one `add` per staged
record — carrying `at + i` when an explicit position was given, otherwise
whatever `index` the shared options object holds — then a single `sort`
when sorting happened or the order changed. -/
def emitAddEvs (atN : Option Int) (st : RunSt) : List Ev :=
  match atN with
  | some a => (st.toAdd.enum).map (fun p => Ev.addE p.2 (some (a + p.1)))
  | none => st.toAdd.map (fun cid => Ev.addE cid st.optIdx)

def emitSortEvs (st : RunSt) : List Ev :=
  if st.sortFlag || st.orderChanged then [Ev.sortE] else []

def emitPhase (o : SetOpts) (atN : Option Int) (st : RunSt) : RunSt :=
  if o.silent then st
  else { st with evs := st.evs ++ emitAddEvs atN st ++ emitSortEvs st }

/-- `at` after normalising a negative position against the pre-insertion
length (line 136-138). -/
def atNOf (c : Coll) (o : SetOpts) : Option Int :=
  o.atP.map (fun a => if a < 0 then a + c.length + 1 else a)

/-- `var sortable = this.comparator && (at == null) && options.sort !== false`
(line 139). -/
def sortableOf (c : Coll) (o : SetOpts) : Bool :=
  c.comparator.isSome && o.atP.isNone && o.sortOpt

/-- `var sortAttr = _.isString(this.comparator) ? this.comparator : null`
(line 140). -/
def sortAttrOf (c : Coll) : Option String :=
  match c.comparator with
  | some (.fld n) => some n
  | _ => none

/-- `var order = !sortable && add && remove ? [] : false` (line 143). -/
def order0Of (c : Coll) (o : SetOpts) : Option (List Nat) :=
  if !(sortableOf c o) && o.add && o.remove then some [] else none

/-- The machine state at the top of one `set` call. -/
def st0Of (w : World) (c : Coll) (o : SetOpts) : RunSt :=
  { initSt w c with order := order0Of c o }

/-- `set` (line 126-252) on a list input, with fully resolved options:
classification pass, removal pass, splice-in, silent re-sort, then
`add`/`sort` notifications. -/
def setRun (w : World) (c : Coll) (entries : List Entry) (o : SetOpts) : RunSt :=
  emitPhase o (atNOf c o) (sortPhase (splicePhase (sortableOf c o) (atNOf c o)
    (removePhase o (classifyList o (sortableOf c o) (sortAttrOf c) c.seq entries 0
      (st0Of w c o)))))

/-- `set` with a caller options object. -/
def setL (w : World) (c : Coll) (entries : List Entry) (o : OptsIn) : RunSt :=
  setRun w c entries (resolveSet o)

/-- `add` (line 77-81). -/
def addL (w : World) (c : Coll) (entries : List Entry) (o : OptsIn) : RunSt :=
  setL w c entries (addExtend o)

/-- Public `remove` on a list input. -/
def removeOp (w : World) (c : Coll) (entries : List Entry) (silent : Bool) :
    RunSt × List (Option Nat) :=
  removeCore silent entries (initSt w c)

/-- Public `remove` on a singular input: `return models[0]` (line 113);
an unresolved input yields `undefined`. -/
def remove1 (w : World) (c : Coll) (e : Entry) (silent : Bool) :
    RunSt × Option Nat :=
  let p := removeOp w c [e] silent
  (p.1, p.2.headD none)

/-- `sort` (line 345-360): throws without a comparator, otherwise
re-derives the order and fires `sort` unless silenced. -/
def sortOp (w : World) (c : Coll) (silent : Bool) : Except String (Coll × List Ev) :=
  match c.comparator with
  | none => .error "Cannot sort a set without a comparator"
  | some k => .ok ({ c with seq := sortSeq w k c.seq },
                   if silent then [] else [Ev.sortE])

/-- `toArray` (line 392-396): each member's `toJSON`, i.e. its attribute
bag (record `toJSON` modelled from the spec as the attribute
representation). -/
def toArrayEntries (w : World) (c : Coll) : List Entry :=
  c.seq.map (fun cid => Entry.bag (attrsOf w cid))

/-- Number of records in the sequence whose domain identifier is `v`. -/
def countId (w : World) (c : Coll) (v : Val) : Nat :=
  (c.seq.filter (fun cid => decide (bagGet (attrsOf w cid) c.idAttr = some v))).length

/-! ### Basic lemmas about the index, the heap and array splicing -/

theorem byIdGet_mem {l : List (MKey × Nat)} {k : MKey} {v : Nat}
    (h : byIdGet l k = some v) : (k, v) ∈ l := by
  induction l with
  | nil => simp [byIdGet] at h
  | cons p rest ih =>
    by_cases hp : p.1 = k
    · simp only [byIdGet, if_pos hp] at h
      have : p = (k, v) := by
        cases p
        simp only [Option.some.injEq] at h
        simp_all
      rw [this]
      exact List.mem_cons_self _ _
    · simp only [byIdGet, if_neg hp] at h
      exact List.mem_cons_of_mem _ (ih h)

theorem byIdGet_set_self (l : List (MKey × Nat)) (k : MKey) (v : Nat) :
    byIdGet (byIdSet l k v) k = some v := by
  induction l with
  | nil => simp [byIdSet, byIdGet]
  | cons p rest ih =>
    by_cases hp : p.1 = k
    · simp [byIdSet, byIdGet, hp]
    · simp [byIdSet, byIdGet, hp, ih]

theorem byIdGet_set_ne (l : List (MKey × Nat)) {k k' : MKey} (v : Nat)
    (h : k' ≠ k) : byIdGet (byIdSet l k v) k' = byIdGet l k' := by
  induction l with
  | nil => simp [byIdSet, byIdGet, Ne.symm h]
  | cons p rest ih =>
    by_cases hp : p.1 = k
    · simp only [byIdSet, if_pos hp, byIdGet]
      rw [if_neg (show ¬ ((k, v) : MKey × Nat).1 = k' from fun hh => h hh.symm),
          if_neg (show ¬ p.1 = k' from fun hh => h (hh.symm.trans hp))]
    · by_cases hq : p.1 = k'
      · simp only [byIdSet, if_neg hp, byIdGet, if_pos hq]
      · simp only [byIdSet, if_neg hp, byIdGet, if_neg hq]
        exact ih

theorem mem_byIdSet {l : List (MKey × Nat)} {k : MKey} {v : Nat} {p : MKey × Nat}
    (h : p ∈ byIdSet l k v) : p ∈ l ∨ p = (k, v) := by
  induction l with
  | nil => simpa [byIdSet] using h
  | cons q rest ih =>
    by_cases hq : q.1 = k
    · simp only [byIdSet, if_pos hq, List.mem_cons] at h
      rcases h with h | h
      · right; exact h
      · left; exact List.mem_cons_of_mem _ h
    · simp only [byIdSet, if_neg hq, List.mem_cons] at h
      rcases h with h | h
      · left; simp [h]
      · rcases ih h with h2 | h2
        · left; exact List.mem_cons_of_mem _ h2
        · right; exact h2

theorem mem_byIdDel {l : List (MKey × Nat)} {k : MKey} {p : MKey × Nat} :
    p ∈ byIdDel l k ↔ p ∈ l ∧ p.1 ≠ k := by
  unfold byIdDel
  simp [List.mem_filter]

theorem byIdGet_del_ne (l : List (MKey × Nat)) {k k' : MKey} (h : k' ≠ k) :
    byIdGet (byIdDel l k) k' = byIdGet l k' := by
  induction l with
  | nil => simp [byIdDel]
  | cons p rest ih =>
    by_cases hp : p.1 = k
    · have hpk : ¬ p.1 = k' := fun hh => h (hh.symm.trans hp)
      have hd : (decide (p.1 ≠ k)) = false := by simp [hp]
      rw [show byIdDel (p :: rest) k = byIdDel rest k by
            simp [byIdDel, List.filter_cons, hp]]
      rw [show byIdGet (p :: rest) k' = byIdGet rest k' by
            simp [byIdGet, hpk]]
      exact ih
    · have hd : (decide (p.1 ≠ k)) = true := by simp [hp]
      rw [show byIdDel (p :: rest) k = p :: byIdDel rest k by
            simp [byIdDel, List.filter_cons, hp]]
      by_cases hq : p.1 = k'
      · simp [byIdGet, hq]
      · simp only [byIdGet, if_neg hq]
        exact ih

theorem storeFind_mem {l : List Model} {cid : Nat} {m : Model}
    (h : storeFind l cid = some m) : m ∈ l ∧ m.cid = cid := by
  induction l with
  | nil => simp [storeFind] at h
  | cons x rest ih =>
    by_cases hx : x.cid = cid
    · simp only [storeFind, if_pos hx] at h
      cases h
      exact ⟨List.mem_cons_self _ _, hx⟩
    · simp only [storeFind, if_neg hx] at h
      rcases ih h with ⟨h1, h2⟩
      exact ⟨List.mem_cons_of_mem _ h1, h2⟩

theorem storeFind_append_ne {l : List Model} {m : Model} {cid : Nat}
    (h : m.cid ≠ cid) : storeFind (l ++ [m]) cid = storeFind l cid := by
  induction l with
  | nil => simp [storeFind, h]
  | cons x rest ih =>
    by_cases hx : x.cid = cid
    · simp [storeFind, hx]
    · simp only [List.cons_append, storeFind, if_neg hx]
      exact ih

theorem storeFind_append_self {l : List Model} {m : Model}
    (h : ∀ x ∈ l, x.cid ≠ m.cid) : storeFind (l ++ [m]) m.cid = some m := by
  induction l with
  | nil => simp [storeFind]
  | cons x rest ih =>
    have hx : x.cid ≠ m.cid := h x (List.mem_cons_self _ _)
    simp only [List.cons_append, storeFind, if_neg hx]
    exact ih (fun y hy => h y (List.mem_cons_of_mem _ hy))

theorem storeFind_map {g : Model → Model} (hg : ∀ m, (g m).cid = m.cid) :
    ∀ (l : List Model) (x : Nat), storeFind (l.map g) x = (storeFind l x).map g := by
  intro l
  induction l with
  | nil => intro x; simp [storeFind]
  | cons m rest ih =>
    intro x
    by_cases hx : m.cid = x
    · simp [storeFind, hg, hx]
    · simp only [List.map_cons, storeFind, hg, if_neg hx]
      exact ih x

theorem findModel_storeMap (w : World) (cid : Nat) (f : Model → Model)
    (hf : ∀ m, m.cid = cid → (f m).cid = cid) (x : Nat) :
    findModel (storeMap w cid f) x =
      (findModel w x).map (fun m => if m.cid == cid then f m else m) := by
  unfold findModel storeMap
  exact storeFind_map (fun m => by by_cases h : m.cid = cid <;> simp [h, hf]) w.store x

theorem attrsOf_storeMap_flag (w : World) (cid : Nat) (f : Model → Model)
    (hf : ∀ m, (f m).cid = m.cid ∧ (f m).attrs = m.attrs) (x : Nat) :
    attrsOf (storeMap w cid f) x = attrsOf w x := by
  unfold attrsOf
  rw [findModel_storeMap w cid f (fun m h => by rw [(hf m).1, h])]
  cases findModel w x with
  | none => rfl
  | some m =>
    by_cases h : m.cid = cid <;> simp [h, (hf m).2]

/-! Splicing at the index returned by `indexOf` is `List.erase`. -/

theorem spliceOut_zero {y : Nat} {l : List Nat} : spliceOut (y :: l) 0 = l := by
  unfold spliceOut
  have h1 : ¬ ((0 : Int) < 0) := by omega
  have h2 : ¬ ((0 : Int) ≥ ((y :: l).length : Int)) := by
    simp only [List.length_cons]
    omega
  simp [h1, h2]

theorem spliceOut_succ {y : Nat} {l : List Nat} {i : Nat} (h : i < l.length) :
    spliceOut (y :: l) ((i : Int) + 1) = y :: spliceOut l (i : Int) := by
  unfold spliceOut
  have h1 : ¬ (((i : Int) + 1) < 0) := by omega
  have h2 : ¬ ((i : Int) < 0) := by omega
  have h3 : ¬ (((i : Int) + 1) ≥ ((y :: l).length : Int)) := by
    simp only [List.length_cons]
    omega
  have h4 : ¬ ((i : Int) ≥ (l.length : Int)) := by omega
  simp only [h1, h2, h3, h4, if_false]
  have h5 : ((i : Int) + 1).toNat = i + 1 := by omega
  have h6 : ((i : Int)).toNat = i := by omega
  simp [h5, h6, List.take_succ_cons, List.drop_succ_cons]

theorem idxFrom_lt {l : List Nat} {x : Nat} (h : x ∈ l) :
    ∃ i, idxFrom l x = some i ∧ i < l.length := by
  induction l with
  | nil => simp at h
  | cons y ys ih =>
    by_cases hy : y = x
    · exact ⟨0, by simp [idxFrom, hy], by simp⟩
    · rcases List.mem_cons.mp h with h1 | h1
      · exact absurd h1.symm hy
      · rcases ih h1 with ⟨i, hi, hlt⟩
        exact ⟨i + 1, by simp [idxFrom, hy, hi], by simp; omega⟩

theorem spliceOut_indexOf {l : List Nat} {x : Nat} (h : x ∈ l) :
    spliceOut l (indexOfI l x) = l.erase x := by
  induction l with
  | nil => simp at h
  | cons y ys ih =>
    by_cases hy : y = x
    · simp only [indexOfI, idxFrom, if_pos hy, Int.ofNat_zero]
      rw [spliceOut_zero, List.erase_cons, if_pos (by simp [hy])]
    · have hx : x ∈ ys := by
        rcases List.mem_cons.mp h with h1 | h1
        · exact absurd h1.symm hy
        · exact h1
      rcases idxFrom_lt hx with ⟨i, hi, hlt⟩
      have hidx : indexOfI (y :: ys) x = (i : Int) + 1 := by
        simp [indexOfI, idxFrom, hy, hi]
      rw [hidx, spliceOut_succ hlt, List.erase_cons, if_neg (by simp [hy])]
      have := ih hx
      simp only [indexOfI, hi] at this
      rw [this]

/-! Sorting permutes the sequence. -/

theorem insertLe_perm (le : Nat → Nat → Bool) (x : Nat) (l : List Nat) :
    (insertLe le x l).Perm (x :: l) := by
  induction l with
  | nil => simp [insertLe]
  | cons y ys ih =>
    unfold insertLe
    by_cases hy : le y x = true
    · simp only [hy, if_true]
      exact (List.Perm.cons y ih).trans (List.Perm.swap x y ys)
    · simp [hy]

theorem sortLe_aux_perm (le : Nat → Nat → Bool) :
    ∀ (l acc : List Nat), (l.foldl (fun a x => insertLe le x a) acc).Perm (acc ++ l) := by
  intro l
  induction l with
  | nil => intro acc; simp
  | cons x xs ih =>
    intro acc
    have h1 := ih (insertLe le x acc)
    have h2 : (insertLe le x acc ++ xs).Perm ((x :: acc) ++ xs) :=
      List.Perm.append_right xs (insertLe_perm le x acc)
    have h3 : ((x :: acc) ++ xs).Perm (acc ++ x :: xs) := by
      simpa using (@List.perm_middle _ x acc xs).symm
    have h0 : ((x :: xs).foldl (fun a x => insertLe le x a) acc) =
        xs.foldl (fun a x => insertLe le x a) (insertLe le x acc) := by
      simp [List.foldl_cons]
    rw [h0]
    exact h1.trans (h2.trans h3)

theorem sortLe_perm (le : Nat → Nat → Bool) (l : List Nat) : (sortLe le l).Perm l := by
  simpa using sortLe_aux_perm le l []

theorem sortSeq_perm (w : World) (k : Cmp) (l : List Nat) : (sortSeq w k l).Perm l :=
  sortLe_perm _ l

theorem mem_sortSeq {w : World} {k : Cmp} {l : List Nat} {x : Nat} :
    x ∈ sortSeq w k l ↔ x ∈ l :=
  (sortSeq_perm w k l).mem_iff

/-! ### Consistency invariants of reachable collection states -/

/-- What a `_byId` registration may point at: a client-identity key maps a
member to itself; a domain-identifier key maps to a member whose record
carries that identifier. -/
def keyTargets (w : World) (c : Coll) : MKey × Nat → Prop
  | (.cid k, v) => v = k ∧ k ∈ c.seq
  | (.idK i, v) => v ∈ c.seq ∧ ∃ m ∈ w.store, m.cid = v ∧ bagGet m.attrs c.idAttr = some i
  | (.undefK, _) => False

instance (w : World) (c : Coll) (p : MKey × Nat) : Decidable (keyTargets w c p) :=
  match p with
  | (.cid k, v) => inferInstanceAs (Decidable (v = k ∧ k ∈ c.seq))
  | (.idK i, v) =>
    inferInstanceAs (Decidable (v ∈ c.seq ∧ ∃ m ∈ w.store, m.cid = v ∧ bagGet m.attrs c.idAttr = some i))
  | (.undefK, _) => inferInstanceAs (Decidable False)

/-- Structural consistency of a collection state: every index entry points
at a member (`keyTargets`), members are backed by model objects, the
sequence repeats no client identity, the cid counter dominates every
allocated model, model objects have distinct cids, and the cached length
matches the sequence. -/
structure WF (w : World) (c : Coll) : Prop where
  byId_ok : ∀ p ∈ c.byId, keyTargets w c p
  mem_store : ∀ cid ∈ c.seq, ∃ m ∈ w.store, m.cid = cid
  seq_nodup : c.seq.Nodup
  fresh : ∀ m ∈ w.store, m.cid < w.nextCid
  store_nodup : (w.store.map (fun m => m.cid)).Nodup
  len_ok : c.length = (c.seq.length : Int)

/-- `idEntryOk c cid o` says: if `o` is the domain identifier of member
`cid`, the index resolves it back to `cid`. -/
def idEntryOk (c : Coll) (cid : Nat) : Option Val → Prop
  | none => True
  | some v => byIdGet c.byId (.idK v) = some cid

instance (c : Coll) (cid : Nat) (o : Option Val) : Decidable (idEntryOk c cid o) :=
  match o with
  | none => inferInstanceAs (Decidable True)
  | some v => inferInstanceAs (Decidable (byIdGet c.byId (.idK v) = some cid))

/-- Every member is indexed under its own client identity and (when it has
one) under its own domain identifier — the state `_addReference` leaves
behind. -/
def SelfIndexed (w : World) (c : Coll) : Prop :=
  ∀ cid ∈ c.seq, byIdGet c.byId (.cid cid) = some cid ∧
    ∀ m ∈ w.store, m.cid = cid → idEntryOk c cid (bagGet m.attrs c.idAttr)

/-- Every member record carries a domain identifier. -/
def HasIds (w : World) (c : Coll) : Prop :=
  ∀ cid ∈ c.seq, ∀ m ∈ w.store, m.cid = cid → (bagGet m.attrs c.idAttr).isSome = true

/-- Member attribute bags repeat no key (automatic for real JS objects;
a constraint only on the association-list representation). -/
def CleanKeys (w : World) (c : Coll) : Prop :=
  ∀ cid ∈ c.seq, ∀ m ∈ w.store, m.cid = cid → (m.attrs.map (fun kv => kv.1)).Nodup

/-! ### Shape lemmas for the phases of `set` -/

/-- Events a classification pass may emit. -/
def classifyEv (ev : Ev) : Prop :=
  (∃ cid, ev = Ev.change cid) ∨ (∃ err, ev = Ev.invalid err)

/-- Events a removal pass may emit. -/
def removalEv (ev : Ev) : Prop := ∃ cid idx, ev = Ev.rem cid idx

theorem trailing_keep (origSeq : List Nat) (i mcid : Nat) (st : RunSt) :
    (trailing origSeq i mcid st).w = st.w ∧ (trailing origSeq i mcid st).c = st.c ∧
    (trailing origSeq i mcid st).evs = st.evs ∧
    (trailing origSeq i mcid st).optIdx = st.optIdx ∧
    (trailing origSeq i mcid st).toAdd = st.toAdd ∧
    (trailing origSeq i mcid st).sortFlag = st.sortFlag ∧
    (trailing origSeq i mcid st).res = st.res := by
  unfold trailing
  cases st.order
  · simp
  · dsimp only
    split
    · simp
    · simp

theorem addReference_keep (mcid : Nat) (st : RunSt) :
    (addReference mcid st).w = st.w ∧ (addReference mcid st).c.seq = st.c.seq ∧
    (addReference mcid st).c.length = st.c.length ∧
    (addReference mcid st).evs = st.evs ∧
    (addReference mcid st).optIdx = st.optIdx ∧
    (addReference mcid st).toAdd = st.toAdd ∧
    (addReference mcid st).sortFlag = st.sortFlag ∧
    (addReference mcid st).res = st.res ∧
    (addReference mcid st).orderChanged = st.orderChanged ∧
    (addReference mcid st).order = st.order ∧
    (addReference mcid st).lastModel = st.lastModel ∧
    (addReference mcid st).modelMap = st.modelMap := by
  unfold addReference
  cases modelIdOf st.c (attrsOf st.w mcid) <;> simp

theorem byIdGet_idRekey_cid (l : List (MKey × Nat)) (prevId newId : Option Val)
    (ecid : Nat) (k : Nat) :
    byIdGet (idRekey l prevId newId ecid) (.cid k) = byIdGet l (.cid k) := by
  unfold idRekey
  split
  · cases prevId with
    | none =>
      cases newId with
      | none => rfl
      | some v => exact byIdGet_set_ne _ _ (by simp)
    | some v =>
      cases newId with
      | none => exact byIdGet_del_ne _ (by simp)
      | some v2 => rw [byIdGet_set_ne _ _ (by simp), byIdGet_del_ne _ (by simp)]
  · rfl

theorem mergeExisting_shape (o : SetOpts) (sortable : Bool) (sortAttr : Option String)
    (ecid : Nat) (e : Entry) (st : RunSt) :
    ∃ d, (mergeExisting o sortable sortAttr ecid e st).evs = st.evs ++ d ∧
      (∀ ev ∈ d, ∃ cid, ev = Ev.change cid) ∧
      (mergeExisting o sortable sortAttr ecid e st).c.seq = st.c.seq ∧
      (mergeExisting o sortable sortAttr ecid e st).c.length = st.c.length ∧
      (mergeExisting o sortable sortAttr ecid e st).optIdx = st.optIdx ∧
      (mergeExisting o sortable sortAttr ecid e st).toAdd = st.toAdd ∧
      (mergeExisting o sortable sortAttr ecid e st).res = st.res ∧
      (mergeExisting o sortable sortAttr ecid e st).orderChanged = st.orderChanged ∧
      (mergeExisting o sortable sortAttr ecid e st).order = st.order ∧
      (mergeExisting o sortable sortAttr ecid e st).lastModel = st.lastModel ∧
      (mergeExisting o sortable sortAttr ecid e st).modelMap = st.modelMap ∧
      (mergeExisting o sortable sortAttr ecid e st).w.nextCid = st.w.nextCid ∧
      (∀ k, byIdGet (mergeExisting o sortable sortAttr ecid e st).c.byId (.cid k) =
        byIdGet st.c.byId (.cid k)) := by
  unfold mergeExisting
  split
  · cases hf : findModel st.w ecid with
    | none => exact ⟨[], by simp⟩
    | some em =>
      dsimp only
      split
      · refine ⟨[Ev.change ecid], by simp, ?_, by simp, by simp, rfl, rfl, rfl, rfl, rfl, rfl,
          rfl, by simp [storeMap], ?_⟩
        · intro ev hev
          simp at hev
          exact ⟨ecid, hev⟩
        · intro k
          simp only
          exact byIdGet_idRekey_cid _ _ _ _ _
      · exact ⟨[], by simp [storeMap]⟩
  · exact ⟨[], by simp⟩

theorem prepareModel_shape (st : RunSt) (e : Entry) :
    ∃ d, (prepareModel st e).2.evs = st.evs ++ d ∧ (∀ ev ∈ d, ∃ err, ev = Ev.invalid err) ∧
      (prepareModel st e).2.c = st.c ∧
      (prepareModel st e).2.optIdx = st.optIdx ∧
      (prepareModel st e).2.toAdd = st.toAdd ∧
      (prepareModel st e).2.res = st.res ∧
      (prepareModel st e).2.sortFlag = st.sortFlag ∧
      (prepareModel st e).2.orderChanged = st.orderChanged ∧
      (prepareModel st e).2.order = st.order ∧
      (prepareModel st e).2.modelMap = st.modelMap ∧
      (prepareModel st e).2.lastModel = st.lastModel ∧
      st.w.nextCid ≤ (prepareModel st e).2.w.nextCid := by
  cases e with
  | mref cid => exact ⟨[], by simp [prepareModel, storeMap]⟩
  | bag b =>
    unfold prepareModel prepNew
    cases hv : st.c.vErr b with
    | none => exact ⟨[], by simp [hv]⟩
    | some err =>
      refine ⟨[Ev.invalid err], by simp [hv], ?_, by simp [hv], by simp [hv], by simp [hv],
        by simp [hv], by simp [hv], by simp [hv], by simp [hv], by simp [hv], by simp [hv]⟩
      intro ev hev
      simp at hev
      exact ⟨err, hev⟩
  | raw v =>
    unfold prepareModel prepNew
    cases hv : st.c.vErr [] with
    | none => exact ⟨[], by simp [hv]⟩
    | some err =>
      refine ⟨[Ev.invalid err], by simp [hv], ?_, by simp [hv], by simp [hv], by simp [hv],
        by simp [hv], by simp [hv], by simp [hv], by simp [hv], by simp [hv], by simp [hv]⟩
      intro ev hev
      simp at hev
      exact ⟨err, hev⟩

theorem classifyStep_shape (o : SetOpts) (s : Bool) (sa : Option String)
    (og : List Nat) (i : Nat) (e : Entry) (st : RunSt) :
    ∃ d t, (classifyStep o s sa og i e st).evs = st.evs ++ d ∧
      (∀ ev ∈ d, classifyEv ev) ∧
      (classifyStep o s sa og i e st).toAdd = st.toAdd ++ t ∧
      (classifyStep o s sa og i e st).c.seq = st.c.seq ∧
      (classifyStep o s sa og i e st).c.length = st.c.length ∧
      (classifyStep o s sa og i e st).optIdx = st.optIdx ∧
      st.w.nextCid ≤ (classifyStep o s sa og i e st).w.nextCid := by
  unfold classifyStep
  cases hg : getC st.w st.c e with
  | some ecid =>
    dsimp only
    have hst1 : (if o.remove then { st with modelMap := MKey.cid ecid :: st.modelMap } else st).evs = st.evs ∧
        (if o.remove then { st with modelMap := MKey.cid ecid :: st.modelMap } else st).c = st.c ∧
        (if o.remove then { st with modelMap := MKey.cid ecid :: st.modelMap } else st).toAdd = st.toAdd ∧
        (if o.remove then { st with modelMap := MKey.cid ecid :: st.modelMap } else st).optIdx = st.optIdx ∧
        (if o.remove then { st with modelMap := MKey.cid ecid :: st.modelMap } else st).w = st.w := by
      cases o.remove <;> simp
    obtain ⟨he1, hc1, ht1, ho1, hw1⟩ := hst1
    obtain ⟨d, hevs, hcls, hseq, hlen, hopt, htoAdd, hres, hoc, hord, hlm, hmm, hnext, hcid⟩ :=
      mergeExisting_shape o s sa ecid e
        (if o.remove then { st with modelMap := MKey.cid ecid :: st.modelMap } else st)
    refine ⟨d, [], ?_, fun ev hev => Or.inl (hcls ev hev), ?_, ?_, ?_, ?_, ?_⟩
    · rw [(trailing_keep og i ecid _).2.2.1]
      dsimp only
      rw [hevs, he1]
    · rw [(trailing_keep og i ecid _).2.2.2.2.1]
      dsimp only
      rw [htoAdd, ht1]
      simp
    · rw [(trailing_keep og i ecid _).2.1]
      dsimp only
      rw [hseq, hc1]
    · rw [(trailing_keep og i ecid _).2.1]
      dsimp only
      rw [hlen, hc1]
    · rw [(trailing_keep og i ecid _).2.2.2.1]
      dsimp only
      rw [hopt, ho1]
    · rw [(trailing_keep og i ecid _).1]
      dsimp only
      rw [hnext, hw1]
  | none =>
    by_cases ha : o.add = true
    · simp only [ha, if_true]
      cases hp : prepareModel st e with
      | mk opt st1 =>
        obtain ⟨d, hevs, hinv, hc, hopt2, htoAdd, hres, hsf, hoc, hord, hmm, hlm, hnext⟩ :=
          prepareModel_shape st e
        rw [hp] at hevs hc hopt2 htoAdd hres hsf hoc hord hmm hlm hnext
        dsimp only at hevs hc hopt2 htoAdd hres hsf hoc hord hmm hlm hnext
        cases opt with
        | some mcid =>
          dsimp only
          refine ⟨d, [mcid], ?_, fun ev hev => Or.inr (hinv ev hev), ?_, ?_, ?_, ?_, ?_⟩
          · rw [(trailing_keep og i mcid _).2.2.1]
            dsimp only
            rw [(addReference_keep mcid _).2.2.2.1]
            dsimp only
            exact hevs
          · rw [(trailing_keep og i mcid _).2.2.2.2.1]
            dsimp only
            rw [(addReference_keep mcid _).2.2.2.2.2.1]
            dsimp only
            rw [htoAdd]
          · rw [(trailing_keep og i mcid _).2.1,
              (addReference_keep mcid _).2.1]
            dsimp only
            rw [hc]
          · rw [(trailing_keep og i mcid _).2.1,
              (addReference_keep mcid _).2.2.1]
            dsimp only
            rw [hc]
          · rw [(trailing_keep og i mcid _).2.2.2.1]
            dsimp only
            rw [(addReference_keep mcid _).2.2.2.2.1]
            dsimp only
            exact hopt2
          · rw [(trailing_keep og i mcid _).1]
            dsimp only
            rw [(addReference_keep mcid _).1]
            dsimp only
            exact hnext
        | none =>
          dsimp only
          exact ⟨d, [], by simpa using hevs, fun ev hev => Or.inr (hinv ev hev),
            by simpa using htoAdd, by simp [hc], by simp [hc], by simpa using hopt2,
            by simpa using hnext⟩
    · have ha2 : o.add = false := by
        cases h : o.add
        · rfl
        · exact absurd h ha
      simp only [ha2, Bool.false_eq_true, if_false]
      cases hlm : st.lastModel with
      | none =>
        dsimp only [hlm]
        exact ⟨[], [], by simp, by simp, by simp, by simp, by simp, by simp, by simp⟩
      | some lm =>
        dsimp only [hlm]
        refine ⟨[], [], ?_, by simp, ?_, ?_, ?_, ?_, ?_⟩
        · rw [(trailing_keep og i lm _).2.2.1]
          simp
        · rw [(trailing_keep og i lm _).2.2.2.2.1]
          simp
        · rw [(trailing_keep og i lm _).2.1]
        · rw [(trailing_keep og i lm _).2.1]
        · rw [(trailing_keep og i lm _).2.2.2.1]
        · rw [(trailing_keep og i lm _).1]

theorem classifyList_shape (o : SetOpts) (s : Bool) (sa : Option String) (og : List Nat) :
    ∀ (es : List Entry) (i : Nat) (st : RunSt),
    ∃ d t, (classifyList o s sa og es i st).evs = st.evs ++ d ∧
      (∀ ev ∈ d, classifyEv ev) ∧
      (classifyList o s sa og es i st).toAdd = st.toAdd ++ t ∧
      (classifyList o s sa og es i st).c.seq = st.c.seq ∧
      (classifyList o s sa og es i st).c.length = st.c.length ∧
      (classifyList o s sa og es i st).optIdx = st.optIdx ∧
      st.w.nextCid ≤ (classifyList o s sa og es i st).w.nextCid := by
  intro es
  induction es with
  | nil => intro i st; exact ⟨[], [], by simp [classifyList], by simp, by simp [classifyList],
      by simp [classifyList], by simp [classifyList], by simp [classifyList], by simp [classifyList]⟩
  | cons e rest ih =>
    intro i st
    obtain ⟨d1, t1, h1evs, h1cls, h1toAdd, h1seq, h1len, h1opt, h1next⟩ :=
      classifyStep_shape o s sa og i e st
    obtain ⟨d2, t2, h2evs, h2cls, h2toAdd, h2seq, h2len, h2opt, h2next⟩ :=
      ih (i + 1) (classifyStep o s sa og i e st)
    refine ⟨d1 ++ d2, t1 ++ t2, ?_, ?_, ?_, ?_, ?_, ?_, ?_⟩
    · rw [show classifyList o s sa og (e :: rest) i st =
        classifyList o s sa og rest (i + 1) (classifyStep o s sa og i e st) from rfl]
      rw [h2evs, h1evs, List.append_assoc]
    · intro ev hev
      rcases List.mem_append.mp hev with h | h
      · exact h1cls ev h
      · exact h2cls ev h
    · rw [show classifyList o s sa og (e :: rest) i st =
        classifyList o s sa og rest (i + 1) (classifyStep o s sa og i e st) from rfl]
      rw [h2toAdd, h1toAdd, List.append_assoc]
    · rw [show classifyList o s sa og (e :: rest) i st =
        classifyList o s sa og rest (i + 1) (classifyStep o s sa og i e st) from rfl]
      rw [h2seq, h1seq]
    · rw [show classifyList o s sa og (e :: rest) i st =
        classifyList o s sa og rest (i + 1) (classifyStep o s sa og i e st) from rfl]
      rw [h2len, h1len]
    · rw [show classifyList o s sa og (e :: rest) i st =
        classifyList o s sa og rest (i + 1) (classifyStep o s sa og i e st) from rfl]
      rw [h2opt, h1opt]
    · rw [show classifyList o s sa og (e :: rest) i st =
        classifyList o s sa og rest (i + 1) (classifyStep o s sa og i e st) from rfl]
      exact h1next.trans h2next

theorem removeStep_shape (silent : Bool) (mcid : Nat) (st : RunSt) :
    ∃ d, (removeStep silent mcid st).evs = st.evs ++ d ∧ (∀ ev ∈ d, removalEv ev) ∧
      (removeStep silent mcid st).toAdd = st.toAdd ∧
      (removeStep silent mcid st).order = st.order ∧
      (removeStep silent mcid st).orderChanged = st.orderChanged ∧
      (removeStep silent mcid st).sortFlag = st.sortFlag ∧
      (removeStep silent mcid st).res = st.res ∧
      (removeStep silent mcid st).modelMap = st.modelMap ∧
      (removeStep silent mcid st).w.nextCid = st.w.nextCid := by
  unfold removeStep
  by_cases hs : silent = true
  · exact ⟨[], by simp [hs, storeMap]⟩
  · have hs2 : silent = false := by
      cases h : silent
      · rfl
      · exact absurd h hs
    refine ⟨[Ev.rem mcid (some (indexOfI st.c.seq mcid))], by simp [hs2, storeMap], ?_,
      by simp [hs2, storeMap], by simp [hs2, storeMap], by simp [hs2, storeMap],
      by simp [hs2, storeMap], by simp [hs2, storeMap], by simp [hs2, storeMap],
      by simp [hs2, storeMap]⟩
    intro ev hev
    simp at hev
    exact ⟨mcid, some (indexOfI st.c.seq mcid), hev⟩

theorem removeCore_shape (silent : Bool) : ∀ (es : List Entry) (st : RunSt),
    ∃ d, (removeCore silent es st).1.evs = st.evs ++ d ∧ (∀ ev ∈ d, removalEv ev) ∧
      (removeCore silent es st).1.toAdd = st.toAdd ∧
      (removeCore silent es st).1.order = st.order ∧
      (removeCore silent es st).1.orderChanged = st.orderChanged ∧
      (removeCore silent es st).1.sortFlag = st.sortFlag ∧
      (removeCore silent es st).1.res = st.res ∧
      (removeCore silent es st).1.modelMap = st.modelMap ∧
      (removeCore silent es st).1.w.nextCid = st.w.nextCid ∧
      (removeCore silent es st).2.length = es.length := by
  intro es
  induction es with
  | nil => intro st; exact ⟨[], by simp [removeCore]⟩
  | cons e rest ih =>
    intro st
    unfold removeCore
    cases hg : getC st.w st.c e with
    | none =>
      obtain ⟨d, h1, h2, h3, h4, h5, h6, h7, h8, h9, h10⟩ := ih st
      exact ⟨d, h1, h2, h3, h4, h5, h6, h7, h8, h9, by simpa using h10⟩
    | some mcid =>
      obtain ⟨d1, hs1, hs2, hs3, hs4, hs5, hs6, hs7, hs8, hs9⟩ := removeStep_shape silent mcid st
      obtain ⟨d2, h1, h2, h3, h4, h5, h6, h7, h8, h9, h10⟩ := ih (removeStep silent mcid st)
      refine ⟨d1 ++ d2, ?_, ?_, ?_, ?_, ?_, ?_, ?_, ?_, ?_, ?_⟩
      · dsimp only
        rw [h1, hs1, List.append_assoc]
      · intro ev hev
        rcases List.mem_append.mp hev with h | h
        · exact hs2 ev h
        · exact h2 ev h
      · dsimp only
        rw [h3, hs3]
      · dsimp only
        rw [h4, hs4]
      · dsimp only
        rw [h5, hs5]
      · dsimp only
        rw [h6, hs6]
      · dsimp only
        rw [h7, hs7]
      · dsimp only
        rw [h8, hs8]
      · dsimp only
        rw [h9, hs9]
      · dsimp only
        simpa using h10

theorem removePhase_shape (o : SetOpts) (st : RunSt) :
    ∃ d, (removePhase o st).evs = st.evs ++ d ∧ (∀ ev ∈ d, removalEv ev) ∧
      (removePhase o st).toAdd = st.toAdd ∧
      (removePhase o st).order = st.order ∧
      (removePhase o st).orderChanged = st.orderChanged ∧
      (removePhase o st).sortFlag = st.sortFlag ∧
      (removePhase o st).res = st.res := by
  unfold removePhase
  split
  · dsimp only
    split
    · exact ⟨[], by simp⟩
    · obtain ⟨d, h1, h2, h3, h4, h5, h6, h7, h8, h9, h10⟩ :=
        removeCore_shape o.silent
          (((st.c.seq.take st.c.length.toNat).filter
            (fun cid => !(st.modelMap.any (fun k => decide (k = MKey.cid cid))))).map Entry.mref) st
      exact ⟨d, h1, h2, h3, h4, h5, h6, h7⟩
  · exact ⟨[], by simp⟩

theorem splicePhase_keep (sortable : Bool) (atN : Option Int) (st : RunSt) :
    (splicePhase sortable atN st).evs = st.evs ∧
    (splicePhase sortable atN st).optIdx = st.optIdx ∧
    (splicePhase sortable atN st).toAdd = st.toAdd ∧
    (splicePhase sortable atN st).orderChanged = st.orderChanged ∧
    (splicePhase sortable atN st).w = st.w ∧
    (splicePhase sortable atN st).res = st.res := by
  unfold splicePhase
  split
  · simp
  · simp

theorem sortPhase_keep (st : RunSt) :
    (sortPhase st).evs = st.evs ∧
    (sortPhase st).optIdx = st.optIdx ∧
    (sortPhase st).toAdd = st.toAdd ∧
    (sortPhase st).orderChanged = st.orderChanged ∧
    (sortPhase st).sortFlag = st.sortFlag ∧
    (sortPhase st).w = st.w ∧
    (sortPhase st).res = st.res := by
  unfold sortPhase
  split
  · split
    · simp
    · simp
  · simp

theorem emitPhase_evs (o : SetOpts) (atN : Option Int) (st : RunSt)
    (hs : o.silent = false) :
    (emitPhase o atN st).evs = st.evs ++ emitAddEvs atN st ++ emitSortEvs st := by
  unfold emitPhase
  simp [hs]

theorem mem_emitAddEvs {atN : Option Int} {st : RunSt} {ev : Ev}
    (h : ev ∈ emitAddEvs atN st) : ∃ cid idx, ev = Ev.addE cid idx := by
  unfold emitAddEvs at h
  cases atN with
  | none =>
    simp only [List.mem_map] at h
    obtain ⟨cid, _, h⟩ := h
    exact ⟨cid, _, h.symm⟩
  | some a =>
    simp only [List.mem_map] at h
    obtain ⟨p, _, h⟩ := h
    exact ⟨p.2, _, h.symm⟩

theorem emitSortEvs_cases (st : RunSt) : emitSortEvs st = [] ∨ emitSortEvs st = [Ev.sortE] := by
  unfold emitSortEvs
  split
  · right
    rfl
  · left
    rfl

theorem emitPhase_keep (o : SetOpts) (atN : Option Int) (st : RunSt) :
    (emitPhase o atN st).toAdd = st.toAdd ∧
    (emitPhase o atN st).optIdx = st.optIdx ∧
    (emitPhase o atN st).sortFlag = st.sortFlag ∧
    (emitPhase o atN st).orderChanged = st.orderChanged ∧
    (emitPhase o atN st).c = st.c ∧
    (emitPhase o atN st).w = st.w ∧
    (emitPhase o atN st).res = st.res := by
  unfold emitPhase
  split
  · simp
  · simp

theorem pipeline_order (o : SetOpts) (atN : Option Int) (sortable : Bool) (st1 : RunSt)
    (hs : o.silent = false) (hA : ∀ ev ∈ st1.evs, classifyEv ev) :
    ∃ A B C D,
      (emitPhase o atN (sortPhase (splicePhase sortable atN (removePhase o st1)))).evs
        = A ++ B ++ C ++ D ∧
      (∀ ev ∈ A, classifyEv ev) ∧ (∀ ev ∈ B, removalEv ev) ∧
      (∀ ev ∈ C, ∃ cid idx, ev = Ev.addE cid idx) ∧ (D = [] ∨ D = [Ev.sortE]) := by
  obtain ⟨B, hBevs, hBrem, _⟩ := removePhase_shape o st1
  have h3 := (splicePhase_keep sortable atN (removePhase o st1)).1
  have h4 := (sortPhase_keep (splicePhase sortable atN (removePhase o st1))).1
  have he := emitPhase_evs o atN (sortPhase (splicePhase sortable atN (removePhase o st1))) hs
  rw [h4, h3, hBevs] at he
  refine ⟨st1.evs, B,
    emitAddEvs atN (sortPhase (splicePhase sortable atN (removePhase o st1))),
    emitSortEvs (sortPhase (splicePhase sortable atN (removePhase o st1))),
    ?_, hA, hBrem, ?_, ?_⟩
  · rw [he]
    try simp [List.append_assoc]
  · intro ev hev
    exact mem_emitAddEvs hev
  · exact emitSortEvs_cases _

/-! ### Shared example states for witnesses and counterexamples -/

/-- The empty heap. -/
def exW0 : World := ⟨[], 0⟩

/-- An empty collection with no comparator and a record class that always
validates. -/
def exC0 : Coll := ⟨[], 0, [], none, "id", fun _ => none⟩

/-- A heap holding one unsaved model object (no domain identifier) that
belongs to no collection. -/
def exWU : World := ⟨[⟨0, [("rank", 9)], [], false⟩], 1⟩

/-- A heap holding one saved model object (id 1, rank 1) owned by `exCG`. -/
def exWG : World := ⟨[⟨0, [("id", 1), ("rank", 1)], [], true⟩], 1⟩

/-- A one-member collection indexed consistently with `exWG`. -/
def exCG : Coll := ⟨[0], 1, [(MKey.cid 0, 0), (MKey.idK 1, 0)], none, "id", fun _ => none⟩

/-- Same collection with a field comparator configured. -/
def exCS : Coll := ⟨[0], 1, [(MKey.cid 0, 0), (MKey.idK 1, 0)], some (Cmp.fld "rank"), "id",
  fun _ => none⟩

/-- A record class rejecting any bag whose id is 1. -/
def exCV : Coll := ⟨[], 0, [], none, "id",
  fun b => if bagGet b "id" = some 1 then some "bad" else none⟩

/-! ### Claim theorems -/

/-- C4: within one non-silent `set` call, notifications come in a fixed
order — the classification pass's merge `change` (and `invalid`)
notifications first, then every `remove` notification, then every `add`
notification, then at most one trailing `sort`. -/
theorem C4_set_notification_order (w : World) (c : Coll) (entries : List Entry)
    (o : SetOpts) (hs : o.silent = false) :
    ∃ A B C D, (setRun w c entries o).evs = A ++ B ++ C ++ D ∧
      (∀ ev ∈ A, classifyEv ev) ∧
      (∀ ev ∈ B, removalEv ev) ∧
      (∀ ev ∈ C, ∃ cid idx, ev = Ev.addE cid idx) ∧
      (D = [] ∨ D = [Ev.sortE]) := by
  unfold setRun
  apply pipeline_order _ _ _ _ hs
  obtain ⟨d, t, hevs, hcls, _⟩ := classifyList_shape _ _ _ c.seq entries 0 _
  intro ev hev
  rw [hevs] at hev
  exact hcls ev (by simpa [st0Of, initSt] using hev)

/-- Closed instantiation of `C4_set_notification_order`. -/
theorem C4_set_notification_order_witness :
    ∃ A B C D, (setRun exWG exCG [Entry.bag [("id", 1), ("rank", 2)]] (resolveSet {})).evs
        = A ++ B ++ C ++ D ∧
      (∀ ev ∈ A, classifyEv ev) ∧
      (∀ ev ∈ B, removalEv ev) ∧
      (∀ ev ∈ C, ∃ cid idx, ev = Ev.addE cid idx) ∧
      (D = [] ∨ D = [Ev.sortE]) :=
  C4_set_notification_order exWG exCG [Entry.bag [("id", 1), ("rank", 2)]] (resolveSet {}) rfl

/-- C7 is a code bug: on `set([m, m])` — the same unsaved model instance
twice in one batch — line 187's `model.isNew()` disjunct pushes the model
into `order` twice, the wholesale `this.models = order` splice (line
220-226) then stores it twice, while `this.length += toAdd.length` counts
it once: the cached length ends at 1 with two sequence entries, violating
the spec's `length = sequence.length` invariant (and the no-duplicate
invariant, against line 181's own comment). -/
theorem C7_length_vs_sequence_bug :
    (setL exWU exC0 [Entry.mref 0, Entry.mref 0] {}).c.length = 1 ∧
    (setL exWU exC0 [Entry.mref 0, Entry.mref 0] {}).c.seq = [0, 0] := by
  constructor
  · rfl
  · rfl

/-- C5 counterexample: on an empty collection, `set([{id:1}])` inserts the
new record at index 0 but the `add` notification's options payload carries
no index at all (`options.index` is only written when `at` is given, line
239-241, or by a removal). -/
theorem C5_counterexample :
    (setL exW0 exC0 [Entry.bag [("id", 1)]] {}).c.seq = [0] ∧
    (setL exW0 exC0 [Entry.bag [("id", 1)]] {}).evs = [Ev.addE 0 none, Ev.sortE] := by
  constructor
  · rfl
  · rfl

/-- C6 counterexample: `add` does not fix `merge` to false — the caller's
`merge:true` survives `_.extend({merge:false}, options, addOptions)`
(line 79), so `add({id:1, rank:2}, {merge:true})` updates the existing
record's rank to 2, while `set` with `merge:false` leaves it at 1. -/
theorem C6_counterexample :
    bagGet (attrsOf (addL exWG exCG [Entry.bag [("id", 1), ("rank", 2)]]
      { merge := some true }).w 0) "rank" = some 2 ∧
    bagGet (attrsOf (setL exWG exCG [Entry.bag [("id", 1), ("rank", 2)]]
      { add := some true, remove := some false, merge := some false }).w 0) "rank" = some 1 := by
  constructor
  · rfl
  · rfl

/-- C6 (amended): `add(records, options)` equals `set(records, opts)` with
`add` fixed true, `remove` fixed false, and `merge` defaulting to false
but overridable by the caller's `merge`; the remaining options pass
through with `set`'s own defaults. -/
theorem C6_add_is_set_with_preset (w : World) (c : Coll) (entries : List Entry) (o : OptsIn) :
    addL w c entries o = setRun w c entries
      ⟨true, o.merge.getD false, false, o.atP, o.sortOpt.getD true,
       o.silent.getD false, o.parse.getD false⟩ := rfl

/-- C9: `sort` on a collection without a comparator throws synchronously
("Cannot sort a set without a comparator", line 347); with a comparator it
completes — returning a permutation of the sequence — and emits one `sort`
notification unless silenced. -/
theorem C9_sort_requires_comparator (w : World) (c : Coll) (silent : Bool) :
    (c.comparator = none →
      sortOp w c silent = .error "Cannot sort a set without a comparator") ∧
    (∀ k, c.comparator = some k →
      ∃ seq2, sortOp w c silent = .ok ({ c with seq := seq2 },
        if silent then [] else [Ev.sortE]) ∧ seq2.Perm c.seq) := by
  constructor
  · intro h
    simp [sortOp, h]
  · intro k h
    exact ⟨sortSeq w k c.seq, by simp [sortOp, h], sortSeq_perm w k c.seq⟩

/-- Closed instantiation of `C9_sort_requires_comparator` on both sides:
a comparator-less collection throws, a field-comparator collection sorts
and notifies. -/
theorem C9_sort_requires_comparator_witness :
    sortOp exWG exCG false = .error "Cannot sort a set without a comparator" ∧
    ∃ seq2, sortOp exWG exCS false = .ok ({ exCS with seq := seq2 }, [Ev.sortE]) ∧
      seq2.Perm exCS.seq := by
  constructor
  · exact (C9_sort_requires_comparator exWG exCG false).1 rfl
  · have h := (C9_sort_requires_comparator exWG exCS false).2 (Cmp.fld "rank") rfl
    simpa using h

/-- C8: a batch entry whose manufactured record fails validation is
skipped without an exception: the sequence, index and heap are untouched
(only the cid counter advanced by the discarded construction), the
result slot becomes `false`, one `invalid` notification carrying the
validation error fires on the collection, and classification continues
with the remaining entries. -/
theorem C8_validation_reject_skips (o : SetOpts) (s : Bool) (sa : Option String)
    (og : List Nat) (i : Nat) (b : Bag) (rest : List Entry) (st : RunSt) (err : String)
    (ha : o.add = true) (hg : getC st.w st.c (.bag b) = none)
    (hv : st.c.vErr b = some err) :
    classifyList o s sa og (.bag b :: rest) i st =
      classifyList o s sa og rest (i + 1)
        { st with w := { st.w with nextCid := st.w.nextCid + 1 }, evs := st.evs ++ [Ev.invalid err], res := st.res ++ [Res.rejected], lastModel := none } := by
  have hstep : classifyStep o s sa og i (.bag b) st =
      { st with w := { st.w with nextCid := st.w.nextCid + 1 }, evs := st.evs ++ [Ev.invalid err], res := st.res ++ [Res.rejected], lastModel := none } := by
    unfold classifyStep
    rw [hg]
    simp [ha, prepareModel, prepNew, hv]
  rw [show classifyList o s sa og (.bag b :: rest) i st =
    classifyList o s sa og rest (i + 1) (classifyStep o s sa og i (.bag b) st) from rfl, hstep]

/-- Closed instantiation of `C8_validation_reject_skips`. -/
theorem C8_validation_reject_skips_witness :
    classifyList (resolveSet {}) false none [] [Entry.bag [("id", 1)]] 0 (initSt exW0 exCV) =
      classifyList (resolveSet {}) false none [] [] (0 + 1)
        { initSt exW0 exCV with w := { (initSt exW0 exCV).w with nextCid := (initSt exW0 exCV).w.nextCid + 1 }, evs := (initSt exW0 exCV).evs ++ [Ev.invalid "bad"], res := (initSt exW0 exCV).res ++ [Res.rejected], lastModel := none } :=
  C8_validation_reject_skips (resolveSet {}) false none [] 0 [("id", 1)] [] (initSt exW0 exCV)
    "bad" rfl (by decide) (by decide)

theorem getC_mref_none {w : World} {c : Coll} {m : Nat}
    (h : getC w c (.mref m) = none) : byIdGet c.byId (.cid m) = none := by
  unfold getC at h
  dsimp only at h
  cases hv : ((findModel w m).bind (fun mm => modelIdOf c mm.attrs)).bind
      (fun v => byIdGet c.byId (.idK v)) with
  | some r =>
    rw [hv] at h
    simp at h
  | none =>
    rw [hv] at h
    exact h

theorem classifyStep_inv (o : SetOpts) (s : Bool) (sa : Option String)
    (og : List Nat) (i : Nat) (e : Entry) (st : RunSt)
    (h1 : ∀ x ∈ st.toAdd, x ∉ st.c.seq)
    (h2 : ∀ cid ∈ st.c.seq, cid < st.w.nextCid)
    (h3 : ∀ cid ∈ st.c.seq, byIdGet st.c.byId (.cid cid) = some cid) :
    (classifyStep o s sa og i e st).c.seq = st.c.seq ∧
    (∀ x ∈ (classifyStep o s sa og i e st).toAdd, x ∉ st.c.seq) ∧
    (∀ cid ∈ st.c.seq, cid < (classifyStep o s sa og i e st).w.nextCid) ∧
    (∀ cid ∈ st.c.seq, byIdGet (classifyStep o s sa og i e st).c.byId (.cid cid) = some cid) := by
  obtain ⟨d, t, hevs, hcls, htoAdd, hseq, hlen, hopt, hnext⟩ := classifyStep_shape o s sa og i e st
  refine ⟨hseq, ?_, fun cid hc => lt_of_lt_of_le (h2 cid hc) hnext, ?_⟩
  · -- freshness of the staged records
    unfold classifyStep
    cases hg : getC st.w st.c e with
    | some ecid =>
      dsimp only
      intro x hx
      rw [(trailing_keep og i ecid _).2.2.2.2.1] at hx
      dsimp only at hx
      rw [(mergeExisting_shape o s sa ecid e _).choose_spec.2.2.2.2.2.1] at hx
      have hxx : x ∈ st.toAdd := by
        cases hrem : o.remove
        · simpa [hrem] using hx
        · simpa [hrem] using hx
      exact h1 x hxx
    | none =>
      by_cases ha : o.add = true
      · simp only [ha, if_true]
        cases e with
        | mref m =>
          dsimp only [prepareModel]
          intro x hx
          rw [(trailing_keep og i m _).2.2.2.2.1] at hx
          dsimp only at hx
          rw [(addReference_keep m _).2.2.2.2.2.1] at hx
          dsimp only at hx
          rcases List.mem_append.mp hx with hx | hx
          · exact h1 x hx
          · have hxm : x = m := by simpa using hx
            subst hxm
            intro hmem
            have := h3 x hmem
            rw [getC_mref_none hg] at this
            cases this
        | bag b =>
          dsimp only [prepareModel, prepNew]
          cases hv : st.c.vErr b with
          | none =>
            dsimp only
            intro x hx
            rw [(trailing_keep og i st.w.nextCid _).2.2.2.2.1] at hx
            dsimp only at hx
            rw [(addReference_keep st.w.nextCid _).2.2.2.2.2.1] at hx
            dsimp only at hx
            rcases List.mem_append.mp hx with hx | hx
            · exact h1 x hx
            · have hxm : x = st.w.nextCid := by simpa using hx
              subst hxm
              intro hmem
              exact absurd (h2 _ hmem) (lt_irrefl _)
          | some err =>
            dsimp only
            intro x hx
            exact h1 x hx
        | raw v =>
          dsimp only [prepareModel, prepNew]
          cases hv : st.c.vErr [] with
          | none =>
            dsimp only
            intro x hx
            rw [(trailing_keep og i st.w.nextCid _).2.2.2.2.1] at hx
            dsimp only at hx
            rw [(addReference_keep st.w.nextCid _).2.2.2.2.2.1] at hx
            dsimp only at hx
            rcases List.mem_append.mp hx with hx | hx
            · exact h1 x hx
            · have hxm : x = st.w.nextCid := by simpa using hx
              subst hxm
              intro hmem
              exact absurd (h2 _ hmem) (lt_irrefl _)
          | some err =>
            dsimp only
            intro x hx
            exact h1 x hx
      · have ha2 : o.add = false := by
          cases h : o.add
          · rfl
          · exact absurd h ha
        simp only [ha2, Bool.false_eq_true, if_false]
        cases hlm : st.lastModel with
        | none =>
          dsimp only
          intro x hx
          exact h1 x hx
        | some lm =>
          dsimp only
          intro x hx
          rw [(trailing_keep og i lm _).2.2.2.2.1] at hx
          exact h1 x hx
  · -- members stay indexed under their own client identity
    unfold classifyStep
    cases hg : getC st.w st.c e with
    | some ecid =>
      dsimp only
      intro cid hc
      rw [(trailing_keep og i ecid _).2.1]
      dsimp only
      rw [(mergeExisting_shape o s sa ecid e _).choose_spec.2.2.2.2.2.2.2.2.2.2.2.2 cid]
      have hcc : (if o.remove then { st with modelMap := MKey.cid ecid :: st.modelMap } else st).c
          = st.c := by
        cases o.remove <;> simp
      rw [hcc]
      exact h3 cid hc
    | none =>
      by_cases ha : o.add = true
      · simp only [ha, if_true]
        cases hp : prepareModel st e with
        | mk opt st1 =>
          obtain ⟨d2, _, _, hc, _⟩ := prepareModel_shape st e
          rw [hp] at hc
          dsimp only at hc
          cases opt with
          | some mcid =>
            dsimp only
            intro cid hcm
            rw [(trailing_keep og i mcid _).2.1]
            dsimp only
            unfold addReference
            cases hmid : modelIdOf st1.c (attrsOf st1.w mcid) with
            | none =>
              dsimp only [hmid]
              by_cases hx : cid = mcid
              · subst hx
                rw [hc, byIdGet_set_self]
              · rw [hc, byIdGet_set_ne _ _ (by simp [hx])]
                exact h3 cid hcm
            | some v =>
              dsimp only [hmid]
              rw [byIdGet_set_ne _ _ (by simp)]
              by_cases hx : cid = mcid
              · subst hx
                rw [hc, byIdGet_set_self]
              · rw [hc, byIdGet_set_ne _ _ (by simp [hx])]
                exact h3 cid hcm
          | none =>
            dsimp only
            intro cid hcm
            rw [hc]
            exact h3 cid hcm
      · have ha2 : o.add = false := by
          cases h : o.add
          · rfl
          · exact absurd h ha
        simp only [ha2, Bool.false_eq_true, if_false]
        cases hlm : st.lastModel with
        | none =>
          dsimp only
          intro cid hcm
          exact h3 cid hcm
        | some lm =>
          dsimp only
          intro cid hcm
          rw [(trailing_keep og i lm _).2.1]
          exact h3 cid hcm

theorem classifyList_inv (o : SetOpts) (s : Bool) (sa : Option String) (og : List Nat) :
    ∀ (es : List Entry) (i : Nat) (st : RunSt),
    (∀ x ∈ st.toAdd, x ∉ st.c.seq) →
    (∀ cid ∈ st.c.seq, cid < st.w.nextCid) →
    (∀ cid ∈ st.c.seq, byIdGet st.c.byId (.cid cid) = some cid) →
    (classifyList o s sa og es i st).c.seq = st.c.seq ∧
    (∀ x ∈ (classifyList o s sa og es i st).toAdd, x ∉ st.c.seq) := by
  intro es
  induction es with
  | nil =>
    intro i st h1 h2 h3
    exact ⟨rfl, h1⟩
  | cons e rest ih =>
    intro i st h1 h2 h3
    obtain ⟨hseq1, hfr1, hlt1, hidx1⟩ := classifyStep_inv o s sa og i e st h1 h2 h3
    have h1' : ∀ x ∈ (classifyStep o s sa og i e st).toAdd,
        x ∉ (classifyStep o s sa og i e st).c.seq := by
      rw [hseq1]
      exact hfr1
    have h2' : ∀ cid ∈ (classifyStep o s sa og i e st).c.seq,
        cid < (classifyStep o s sa og i e st).w.nextCid := by
      rw [hseq1]
      exact hlt1
    have h3' : ∀ cid ∈ (classifyStep o s sa og i e st).c.seq,
        byIdGet (classifyStep o s sa og i e st).c.byId (.cid cid) = some cid := by
      rw [hseq1]
      exact hidx1
    obtain ⟨hseq2, hfr2⟩ := ih (i + 1) (classifyStep o s sa og i e st) h1' h2' h3'
    constructor
    · exact hseq2.trans hseq1
    · intro x hx
      have := hfr2 x hx
      rw [hseq1] at this
      exact this

theorem emitAddEvs_congr (atN : Option Int) {s1 s2 : RunSt} (ht : s1.toAdd = s2.toAdd)
    (ho : s1.optIdx = s2.optIdx) : emitAddEvs atN s1 = emitAddEvs atN s2 := by
  unfold emitAddEvs
  cases atN
  · rw [ht, ho]
  · rw [ht]

theorem emitSortEvs_congr {s1 s2 : RunSt} (hf : s1.sortFlag = s2.sortFlag)
    (hoc : s1.orderChanged = s2.orderChanged) : emitSortEvs s1 = emitSortEvs s2 := by
  unfold emitSortEvs
  rw [hf, hoc]

/-- C5 (amended): in every non-silent `set` call the trace ends with
exactly one `add` notification per staged record (in staging order,
payload `at + i` under an explicit position, otherwise the shared options
object's current `index` — which line 236-243 never sets in that case),
followed by one `sort` notification exactly when sorting occurred or the
order changed; no `add` notification fires anywhere else, and on a
consistent collection every staged record is new to the sequence. -/
theorem C5_amended_add_notifications (w : World) (c : Coll) (entries : List Entry)
    (o : SetOpts) (hs : o.silent = false) (hwf : WF w c) (hsi : SelfIndexed w c) :
    ∃ pre, (setRun w c entries o).evs =
        pre ++ emitAddEvs (atNOf c o) (setRun w c entries o)
            ++ emitSortEvs (setRun w c entries o) ∧
      (∀ ev ∈ pre, ∀ cid idx, ev ≠ Ev.addE cid idx) ∧
      (∀ x ∈ (setRun w c entries o).toAdd, x ∉ c.seq) := by
  unfold setRun
  set st1 := classifyList o (sortableOf c o) (sortAttrOf c) c.seq entries 0 (st0Of w c o)
    with hst1
  set st2 := removePhase o st1 with hst2
  set st3 := splicePhase (sortableOf c o) (atNOf c o) st2 with hst3
  set st4 := sortPhase st3 with hst4
  have he := emitPhase_evs o (atNOf c o) st4 hs
  have hek := emitPhase_keep o (atNOf c o) st4
  have haddc : emitAddEvs (atNOf c o) st4 = emitAddEvs (atNOf c o) (emitPhase o (atNOf c o) st4) :=
    emitAddEvs_congr _ hek.1.symm hek.2.1.symm
  have hsrtc : emitSortEvs st4 = emitSortEvs (emitPhase o (atNOf c o) st4) :=
    emitSortEvs_congr hek.2.2.1.symm hek.2.2.2.1.symm
  refine ⟨st4.evs, ?_, ?_, ?_⟩
  · rw [he, haddc, hsrtc]
  · -- the earlier phases emit no add notification
    obtain ⟨A, tA, hAevs, hAcls, _⟩ :=
      classifyList_shape o (sortableOf c o) (sortAttrOf c) c.seq entries 0 (st0Of w c o)
    obtain ⟨B, hBevs, hBrem, _⟩ := removePhase_shape o st1
    have hpre : st4.evs = A ++ B := by
      rw [hst4, (sortPhase_keep st3).1, hst3, (splicePhase_keep _ _ st2).1, hst2, hBevs, hst1,
        hAevs]
      simp [st0Of, initSt]
    rw [hpre]
    intro ev hev cid idx
    rcases List.mem_append.mp hev with h | h
    · rcases hAcls ev h with ⟨c2, rfl⟩ | ⟨err, rfl⟩ <;> simp
    · obtain ⟨c2, i2, rfl⟩ := hBrem ev h
      simp
  · -- staged records are not previous members
    have h1 : ∀ x ∈ (st0Of w c o).toAdd, x ∉ (st0Of w c o).c.seq := by
      intro x hx
      simp [st0Of, initSt] at hx
    have h2 : ∀ cid ∈ (st0Of w c o).c.seq, cid < (st0Of w c o).w.nextCid := by
      intro cid hc
      obtain ⟨m, hm, hmc⟩ := hwf.mem_store cid (by simpa [st0Of, initSt] using hc)
      have := hwf.fresh m hm
      simp only [st0Of, initSt]
      omega
    have h3 : ∀ cid ∈ (st0Of w c o).c.seq,
        byIdGet (st0Of w c o).c.byId (.cid cid) = some cid := by
      intro cid hc
      exact (hsi cid (by simpa [st0Of, initSt] using hc)).1
    obtain ⟨hseq, hfr⟩ :=
      classifyList_inv o (sortableOf c o) (sortAttrOf c) c.seq entries 0 (st0Of w c o) h1 h2 h3
    intro x hx
    rw [hek.1, hst4] at hx
    rw [(sortPhase_keep st3).2.2.1, hst3, (splicePhase_keep _ _ st2).2.2.1, hst2] at hx
    obtain ⟨B, _, _, hBtoAdd, _⟩ := removePhase_shape o st1
    rw [hBtoAdd, hst1] at hx
    have := hfr x hx
    simpa [st0Of, initSt] using this

/-- Closed instantiation of `C5_amended_add_notifications`. -/
theorem C5_amended_add_notifications_witness :
    ∃ pre, (setRun exW0 exC0 [Entry.bag [("id", 1)]] (resolveSet {})).evs =
        pre ++ emitAddEvs (atNOf exC0 (resolveSet {}))
            (setRun exW0 exC0 [Entry.bag [("id", 1)]] (resolveSet {}))
          ++ emitSortEvs (setRun exW0 exC0 [Entry.bag [("id", 1)]] (resolveSet {})) ∧
      (∀ ev ∈ pre, ∀ cid idx, ev ≠ Ev.addE cid idx) ∧
      (∀ x ∈ (setRun exW0 exC0 [Entry.bag [("id", 1)]] (resolveSet {})).toAdd, x ∉ exC0.seq) :=
  C5_amended_add_notifications exW0 exC0 [Entry.bag [("id", 1)]] (resolveSet {}) rfl
    ⟨by decide, by decide, by decide, by decide, by decide, by decide⟩
    (by intro cid hc; simp [exC0] at hc)

/-! ### Removal preserves consistency; removed members leave the sequence -/

theorem storeFind_of_mem {l : List Model} {m : Model} (hm : m ∈ l)
    (hnd : (l.map (fun x => x.cid)).Nodup) : storeFind l m.cid = some m := by
  induction l with
  | nil => simp at hm
  | cons x rest ih =>
    rcases List.mem_cons.mp hm with h | h
    · subst h
      simp [storeFind]
    · have hx : x.cid ≠ m.cid := by
        intro hh
        have : m.cid ∈ rest.map (fun x => x.cid) := List.mem_map_of_mem _ h
        rw [← hh] at this
        exact (List.nodup_cons.mp hnd).1 this
      simp only [storeFind, if_neg hx]
      exact ih h (List.nodup_cons.mp hnd).2

theorem getC_mem {w : World} {c : Coll} {e : Entry} {m : Nat}
    (hok : ∀ p ∈ c.byId, keyTargets w c p) (h : getC w c e = some m) : m ∈ c.seq := by
  cases e with
  | raw v =>
    unfold getC at h
    exact (hok _ (byIdGet_mem h)).1
  | bag b =>
    unfold getC at h
    dsimp only at h
    cases hv : modelIdOf c b with
    | none =>
      rw [hv] at h
      simp at h
    | some v =>
      rw [hv] at h
      exact (hok _ (byIdGet_mem h)).1
  | mref cid =>
    unfold getC at h
    dsimp only at h
    cases hv : ((findModel w cid).bind (fun mm => modelIdOf c mm.attrs)).bind
        (fun v => byIdGet c.byId (.idK v)) with
    | some r =>
      rw [hv] at h
      cases h
      cases hf : (findModel w cid).bind (fun mm => modelIdOf c mm.attrs) with
      | none =>
        rw [hf] at hv
        simp at hv
      | some v =>
        rw [hf] at hv
        exact (hok _ (byIdGet_mem hv)).1
    | none =>
      rw [hv] at h
      have hkt := hok _ (byIdGet_mem h)
      rw [hkt.1]
      exact hkt.2

theorem removeStep_wfr (silent : Bool) (mcid : Nat) (st : RunSt)
    (hok : ∀ p ∈ st.c.byId, keyTargets st.w st.c p)
    (hnd : st.c.seq.Nodup)
    (hsn : (st.w.store.map (fun x => x.cid)).Nodup)
    (hm : mcid ∈ st.c.seq) :
    (removeStep silent mcid st).c.seq = st.c.seq.erase mcid ∧
    (∀ p ∈ (removeStep silent mcid st).c.byId,
      keyTargets (removeStep silent mcid st).w (removeStep silent mcid st).c p) ∧
    (removeStep silent mcid st).c.seq.Nodup ∧
    ((removeStep silent mcid st).w.store.map (fun x => x.cid)).Nodup := by
  have hseq : (removeStep silent mcid st).c.seq = st.c.seq.erase mcid := by
    unfold removeStep
    cases silent <;> dsimp only <;> exact spliceOut_indexOf hm
  have hbyId : (removeStep silent mcid st).c.byId =
      byIdDel (match modelIdOf st.c ((findModel st.w mcid).getD ⟨mcid, [], [], false⟩).attrs with
        | some v => byIdDel st.c.byId (.idK v)
        | none => st.c.byId) (.cid mcid) := by
    unfold removeStep
    cases silent <;> dsimp only <;> rfl
  have hidattr : (removeStep silent mcid st).c.idAttr = st.c.idAttr := by
    unfold removeStep
    cases silent <;> dsimp only <;> rfl
  have hw : (removeStep silent mcid st).w = storeMap st.w mcid
      (fun mm => if mm.collFlag then { mm with collFlag := false } else mm) := by
    unfold removeStep
    cases silent <;> dsimp only <;> rfl
  refine ⟨hseq, ?_, ?_, ?_⟩
  · intro p hp
    rw [hbyId] at hp
    obtain ⟨hp1, hpne⟩ := mem_byIdDel.mp hp
    have hp0 : p ∈ st.c.byId := by
      cases hmid : modelIdOf st.c ((findModel st.w mcid).getD ⟨mcid, [], [], false⟩).attrs with
      | none => rw [hmid] at hp1; exact hp1
      | some v0 => rw [hmid] at hp1; exact (mem_byIdDel.mp hp1).1
    have hkt := hok p hp0
    cases p with
    | mk k2 v2 =>
      cases k2 with
      | undefK => exact hkt.elim
      | cid k =>
        obtain ⟨hv, hkmem⟩ : v2 = k ∧ k ∈ st.c.seq := hkt
        have hkne : k ≠ mcid := by
          intro hh
          subst hh
          exact hpne (by simp)
        exact ⟨hv, by rw [hseq]; exact (List.mem_erase_of_ne hkne).mpr hkmem⟩
      | idK v =>
        obtain ⟨hvmem, m2, hm2s, hm2c, hm2id⟩ :
            v2 ∈ st.c.seq ∧ ∃ m2 ∈ st.w.store, m2.cid = v2 ∧
              bagGet m2.attrs st.c.idAttr = some v := hkt
        have hvne : v2 ≠ mcid := by
          intro hh
          have hfind : findModel st.w mcid = some m2 := by
            unfold findModel
            rw [← hh, ← hm2c]
            exact storeFind_of_mem hm2s hsn
          have hmid : modelIdOf st.c
              ((findModel st.w mcid).getD ⟨mcid, [], [], false⟩).attrs = some v := by
            rw [hfind]
            simpa [modelIdOf] using hm2id
          rw [hmid] at hp1
          exact (mem_byIdDel.mp hp1).2 rfl
        refine ⟨by rw [hseq]; exact (List.mem_erase_of_ne hvne).mpr hvmem, ?_⟩
        have hm2ne : (m2.cid == mcid) = false := by
          simp [hm2c, hvne]
        refine ⟨m2, ?_, hm2c, ?_⟩
        · rw [hw]
          simp only [storeMap]
          exact List.mem_map.mpr ⟨m2, hm2s, by simp [hm2ne]⟩
        · rw [hidattr]
          exact hm2id
  · rw [hseq]
    exact hnd.sublist (List.erase_sublist mcid st.c.seq)
  · rw [hw]
    simp only [storeMap]
    rw [List.map_map]
    have hfun : ((fun x : Model => x.cid) ∘
        (fun m => if m.cid == mcid then
          (fun mm => if mm.collFlag then { mm with collFlag := false } else mm) m else m))
        = fun x : Model => x.cid := by
      funext m
      by_cases h1 : (m.cid == mcid) = true <;> by_cases h2 : m.collFlag <;>
        simp [Function.comp, h1, h2]
    rw [hfun]
    exact hsn

theorem removeCore_track (silent : Bool) : ∀ (es : List Entry) (st : RunSt),
    (∀ p ∈ st.c.byId, keyTargets st.w st.c p) → st.c.seq.Nodup →
    (st.w.store.map (fun x => x.cid)).Nodup →
    (∀ p ∈ (removeCore silent es st).1.c.byId,
      keyTargets (removeCore silent es st).1.w (removeCore silent es st).1.c p) ∧
    (removeCore silent es st).1.c.seq.Nodup ∧
    ((removeCore silent es st).1.w.store.map (fun x => x.cid)).Nodup ∧
    (removeCore silent es st).1.c.seq.Sublist st.c.seq ∧
    (∀ x, some x ∈ (removeCore silent es st).2 → x ∉ (removeCore silent es st).1.c.seq) := by
  intro es
  induction es with
  | nil =>
    intro st hok hnd hsn
    refine ⟨hok, hnd, hsn, List.Sublist.refl _, ?_⟩
    intro x hx
    simp [removeCore] at hx
  | cons e rest ih =>
    intro st hok hnd hsn
    unfold removeCore
    cases hg : getC st.w st.c e with
    | none =>
      obtain ⟨h1, h2, h3, h4, h5⟩ := ih st hok hnd hsn
      refine ⟨h1, h2, h3, h4, ?_⟩
      intro x hx
      dsimp only at hx
      rcases List.mem_cons.mp hx with hx | hx
      · cases hx
      · exact h5 x hx
    | some mcid =>
      have hmem : mcid ∈ st.c.seq := getC_mem hok hg
      obtain ⟨hseq, hok2, hnd2, hsn2⟩ := removeStep_wfr silent mcid st hok hnd hsn hmem
      obtain ⟨h1, h2, h3, h4, h5⟩ := ih (removeStep silent mcid st) hok2 hnd2 hsn2
      have hsub : (removeCore silent rest (removeStep silent mcid st)).1.c.seq.Sublist
          st.c.seq := by
        apply h4.trans
        rw [hseq]
        exact List.erase_sublist mcid st.c.seq
      refine ⟨h1, h2, h3, hsub, ?_⟩
      intro x hx
      dsimp only at hx
      rcases List.mem_cons.mp hx with hx | hx
      · have hxm : x = mcid := by
          injection hx
        subst hxm
        intro hmem2
        have hin : x ∈ (removeStep silent x st).c.seq := h4.subset hmem2
        rw [hseq] at hin
        exact hnd.not_mem_erase hin
      · exact h5 x hx

/-- C10: an entry `get` cannot resolve is skipped — no state change, no
notification, no error, processing continues (first conjunct); the
returned array keeps one slot per input entry (second); on a consistent
collection every entry that did resolve is gone from the sequence when
`remove` returns (third); a singular unresolved input returns `undefined`
with the collection untouched (fourth). -/
theorem C10_remove_skips_unresolved :
    (∀ (silent : Bool) (st : RunSt) (e : Entry) (rest : List Entry),
      getC st.w st.c e = none →
      removeCore silent (e :: rest) st =
        ((removeCore silent rest st).1, none :: (removeCore silent rest st).2)) ∧
    (∀ (w : World) (c : Coll) (es : List Entry) (silent : Bool),
      (removeOp w c es silent).2.length = es.length) ∧
    (∀ (w : World) (c : Coll) (es : List Entry) (silent : Bool), WF w c →
      ∀ x, some x ∈ (removeOp w c es silent).2 →
        x ∉ (removeOp w c es silent).1.c.seq) ∧
    (∀ (w : World) (c : Coll) (e : Entry) (silent : Bool),
      getC w c e = none → remove1 w c e silent = (initSt w c, none)) := by
  refine ⟨?_, ?_, ?_, ?_⟩
  · intro silent st e rest hg
    show (match getC st.w st.c e with
      | none => ((removeCore silent rest st).1, (none : Option Nat) :: (removeCore silent rest st).2)
      | some mcid => ((removeCore silent rest (removeStep silent mcid st)).1,
          some mcid :: (removeCore silent rest (removeStep silent mcid st)).2))
      = ((removeCore silent rest st).1, none :: (removeCore silent rest st).2)
    rw [hg]
  · intro w c es silent
    obtain ⟨d, h⟩ := removeCore_shape silent es (initSt w c)
    exact h.2.2.2.2.2.2.2.2.2
  · intro w c es silent hwf x hx
    have h := removeCore_track silent es (initSt w c) hwf.byId_ok hwf.seq_nodup hwf.store_nodup
    exact h.2.2.2.2 x hx
  · intro w c e silent hg
    unfold remove1 removeOp
    have h1 : removeCore silent [e] (initSt w c) = (initSt w c, [none]) := by
      show (match getC (initSt w c).w (initSt w c).c e with
        | none => ((removeCore silent [] (initSt w c)).1,
            (none : Option Nat) :: (removeCore silent [] (initSt w c)).2)
        | some mcid => ((removeCore silent [] (removeStep silent mcid (initSt w c))).1,
            some mcid :: (removeCore silent [] (removeStep silent mcid (initSt w c))).2))
        = (initSt w c, [none])
      rw [show getC (initSt w c).w (initSt w c).c e = none from hg]
      rfl
    rw [h1]
    rfl

/-- Closed instantiation of `C10_remove_skips_unresolved` on a collection
holding the record with id 1: probing id 5 is skipped with an `undefined`
result, probing id 1 removes the member. -/
theorem C10_remove_skips_unresolved_witness :
    removeCore false (Entry.raw 5 :: [Entry.raw 1]) (initSt exWG exCG) =
      ((removeCore false [Entry.raw 1] (initSt exWG exCG)).1,
        none :: (removeCore false [Entry.raw 1] (initSt exWG exCG)).2) ∧
    (removeOp exWG exCG [Entry.raw 5, Entry.raw 1] false).2.length
      = [Entry.raw 5, Entry.raw 1].length ∧
    (∀ x, some x ∈ (removeOp exWG exCG [Entry.raw 5, Entry.raw 1] false).2 →
      x ∉ (removeOp exWG exCG [Entry.raw 5, Entry.raw 1] false).1.c.seq) ∧
    remove1 exWG exCG (Entry.raw 5) false = (initSt exWG exCG, none) :=
  ⟨C10_remove_skips_unresolved.1 false (initSt exWG exCG) (Entry.raw 5) [Entry.raw 1]
      (by decide),
   C10_remove_skips_unresolved.2.1 exWG exCG [Entry.raw 5, Entry.raw 1] false,
   C10_remove_skips_unresolved.2.2.1 exWG exCG [Entry.raw 5, Entry.raw 1] false
     ⟨by decide, by decide, by decide, by decide, by decide, by decide⟩,
   C10_remove_skips_unresolved.2.2.2 exWG exCG (Entry.raw 5) false (by decide)⟩

/-! ### Adding an unsaved attribute bag stages a fresh record -/

/-- The options `add` resolves to when the caller passes none. -/
def addDefOpts : SetOpts := ⟨true, false, false, none, true, false, false⟩

theorem addL_eq_setRun (w : World) (c : Coll) (es : List Entry) :
    addL w c es {} = setRun w c es addDefOpts := rfl

/-- The world after `_prepareModel` allocates a record for bag `b`. -/
def addNewW (w : World) (b : Bag) : World :=
  ⟨w.store ++ [⟨w.nextCid, b, [], true⟩], w.nextCid + 1⟩

/-- Machine state after the classification pass of a default `add` of one
identifier-less bag. -/
def addNewSt1 (w : World) (c : Coll) (b : Bag) : RunSt :=
  ⟨addNewW w b,
   ⟨c.seq, c.length, byIdSet c.byId (MKey.cid w.nextCid) w.nextCid, c.comparator, c.idAttr, c.vErr⟩,
   [], none, [w.nextCid], [MKey.undefK], none, false, false, [Res.mod w.nextCid], some w.nextCid⟩

/-- Same state after the splice pass appended the staged record. -/
def addNewSt2 (w : World) (c : Coll) (b : Bag) : RunSt :=
  ⟨addNewW w b,
   ⟨c.seq ++ [w.nextCid], c.length + 1, byIdSet c.byId (MKey.cid w.nextCid) w.nextCid, c.comparator, c.idAttr, c.vErr⟩,
   [], none, [w.nextCid], [MKey.undefK], none, false, sortableOf c addDefOpts, [Res.mod w.nextCid], some w.nextCid⟩

theorem addL_new (w : World) (c : Coll) (b : Bag)
    (hid : bagGet b c.idAttr = none) (hv : c.vErr b = none)
    (hfresh : ∀ m ∈ w.store, m.cid < w.nextCid) :
    (addL w c [Entry.bag b] {}).c.seq.Perm (c.seq ++ [w.nextCid]) ∧
    (addL w c [Entry.bag b] {}).c.byId = byIdSet c.byId (.cid w.nextCid) w.nextCid ∧
    (addL w c [Entry.bag b] {}).c.idAttr = c.idAttr ∧
    (addL w c [Entry.bag b] {}).c.vErr = c.vErr ∧
    (addL w c [Entry.bag b] {}).c.comparator = c.comparator ∧
    (addL w c [Entry.bag b] {}).c.length = c.length + 1 ∧
    (addL w c [Entry.bag b] {}).w.store = w.store ++ [⟨w.nextCid, b, [], true⟩] ∧
    (addL w c [Entry.bag b] {}).w.nextCid = w.nextCid + 1 ∧
    (addL w c [Entry.bag b] {}).res = [Res.mod w.nextCid] := by
  rw [addL_eq_setRun]
  have horder : order0Of c addDefOpts = none := by
    simp [order0Of, addDefOpts]
  have hst0 : st0Of w c addDefOpts = initSt w c := by
    unfold st0Of
    rw [horder]
    rfl
  have hget : getC (initSt w c).w (initSt w c).c (Entry.bag b) = none := by
    show getC w c (Entry.bag b) = none
    unfold getC
    dsimp only
    unfold modelIdOf
    rw [hid]
    rfl
  have hfm : findModel (addNewW w b) w.nextCid = some ⟨w.nextCid, b, [], true⟩ := by
    show storeFind (w.store ++ [⟨w.nextCid, b, [], true⟩]) w.nextCid = _
    exact storeFind_append_self (fun x hx hh => absurd (hfresh x hx) (by rw [hh]; exact lt_irrefl _))
  have hattrs : attrsOf (addNewW w b) w.nextCid = b := by
    unfold attrsOf
    rw [hfm]
    rfl
  have hprep : prepareModel (initSt w c) (Entry.bag b)
      = (some w.nextCid, ⟨addNewW w b, c, [], none, [], [], none, false, false, [], none⟩) := by
    unfold prepareModel prepNew
    dsimp only
    rw [show (initSt w c).c.vErr b = none from hv]
    rfl
  have hclass : classifyList addDefOpts (sortableOf c addDefOpts) (sortAttrOf c) c.seq
      [Entry.bag b] 0 (initSt w c) = addNewSt1 w c b := by
    show classifyStep addDefOpts (sortableOf c addDefOpts) (sortAttrOf c) c.seq 0
        (Entry.bag b) (initSt w c) = addNewSt1 w c b
    unfold classifyStep
    rw [hget]
    dsimp only
    rw [if_pos (show addDefOpts.add = true from rfl)]
    rw [hprep]
    dsimp only
    unfold addReference
    dsimp only
    unfold modelIdOf
    rw [hattrs, hid]
    dsimp only
    unfold trailing modelIdOf
    dsimp only
    rw [hattrs, hid]
    rfl
  unfold setRun
  rw [hst0, hclass]
  have hrp : removePhase addDefOpts (addNewSt1 w c b) = addNewSt1 w c b := by
    unfold removePhase
    rw [if_neg (show ¬ (addDefOpts.remove = true) from by simp [addDefOpts])]
  rw [hrp]
  have hsplice : splicePhase (sortableOf c addDefOpts) (atNOf c addDefOpts) (addNewSt1 w c b)
      = addNewSt2 w c b := by
    unfold splicePhase
    rw [if_pos (show (!(addNewSt1 w c b).toAdd.isEmpty || (addNewSt1 w c b).orderChanged)
          = true from rfl)]
    rw [show atNOf c addDefOpts = (none : Option Int) from rfl]
    dsimp only
    simp [addNewSt1, addNewSt2]
  rw [hsplice]
  have hek := emitPhase_keep addDefOpts (atNOf c addDefOpts) (sortPhase (addNewSt2 w c b))
  have hsortc : (sortPhase (addNewSt2 w c b)).c.seq.Perm (addNewSt2 w c b).c.seq ∧
      (sortPhase (addNewSt2 w c b)).c.byId = (addNewSt2 w c b).c.byId ∧
      (sortPhase (addNewSt2 w c b)).c.idAttr = (addNewSt2 w c b).c.idAttr ∧
      (sortPhase (addNewSt2 w c b)).c.vErr = (addNewSt2 w c b).c.vErr ∧
      (sortPhase (addNewSt2 w c b)).c.comparator = (addNewSt2 w c b).c.comparator ∧
      (sortPhase (addNewSt2 w c b)).c.length = (addNewSt2 w c b).c.length ∧
      (sortPhase (addNewSt2 w c b)).w = (addNewSt2 w c b).w ∧
      (sortPhase (addNewSt2 w c b)).res = (addNewSt2 w c b).res := by
    unfold sortPhase
    split
    · split
      · exact ⟨sortSeq_perm _ _ _, rfl, rfl, rfl, rfl, rfl, rfl, rfl⟩
      · exact ⟨List.Perm.refl _, rfl, rfl, rfl, rfl, rfl, rfl, rfl⟩
    · exact ⟨List.Perm.refl _, rfl, rfl, rfl, rfl, rfl, rfl, rfl⟩
  obtain ⟨hp1, hp2, hp3, hp4, hp5, hp6, hp7, hp8⟩ := hsortc
  rw [hek.2.2.2.2.1]
  refine ⟨?_, by rw [hp2]; rfl, by rw [hp3]; rfl, by rw [hp4]; rfl, by rw [hp5]; rfl,
    by rw [hp6]; rfl, ?_, ?_, ?_⟩
  · exact hp1.trans
      (show ((addNewSt2 w c b).c.seq).Perm (c.seq ++ [w.nextCid]) from List.Perm.refl _)
  · rw [show (emitPhase addDefOpts (atNOf c addDefOpts) (sortPhase (addNewSt2 w c b))).w
        = (sortPhase (addNewSt2 w c b)).w from hek.2.2.2.2.2.1, hp7]
    rfl
  · rw [show (emitPhase addDefOpts (atNOf c addDefOpts) (sortPhase (addNewSt2 w c b))).w
        = (sortPhase (addNewSt2 w c b)).w from hek.2.2.2.2.2.1, hp7]
    rfl
  · rw [hek.2.2.2.2.2.2, hp8]
    rfl

/-- C3: adding an identifier-less attribute bag twice manufactures two
distinct records — each call allocates a fresh record, the returned list
names it, and both end up as members of the sequence; no false-duplicate
collapsing occurs for unsaved records. -/
theorem C3_unsaved_add_twice (w : World) (c : Coll) (b : Bag)
    (hid : bagGet b c.idAttr = none) (hv : c.vErr b = none)
    (hfresh : ∀ m ∈ w.store, m.cid < w.nextCid) :
    ∃ n1 n2,
      (addL w c [Entry.bag b] {}).res = [Res.mod n1] ∧
      (addL (addL w c [Entry.bag b] {}).w (addL w c [Entry.bag b] {}).c [Entry.bag b] {}).res
        = [Res.mod n2] ∧
      n1 ≠ n2 ∧
      n1 ∈ (addL (addL w c [Entry.bag b] {}).w (addL w c [Entry.bag b] {}).c
        [Entry.bag b] {}).c.seq ∧
      n2 ∈ (addL (addL w c [Entry.bag b] {}).w (addL w c [Entry.bag b] {}).c
        [Entry.bag b] {}).c.seq ∧
      (addL (addL w c [Entry.bag b] {}).w (addL w c [Entry.bag b] {}).c
        [Entry.bag b] {}).c.length = c.length + 2 := by
  obtain ⟨h1p, h1by, h1id, h1v, h1cmp, h1len, h1st, h1nc, h1res⟩ := addL_new w c b hid hv hfresh
  have hid1 : bagGet b (addL w c [Entry.bag b] {}).c.idAttr = none := by rw [h1id]; exact hid
  have hv1 : (addL w c [Entry.bag b] {}).c.vErr b = none := by rw [h1v]; exact hv
  have hfresh1 : ∀ m ∈ (addL w c [Entry.bag b] {}).w.store,
      m.cid < (addL w c [Entry.bag b] {}).w.nextCid := by
    intro m hm
    rw [h1st] at hm
    rw [h1nc]
    rcases List.mem_append.mp hm with h | h
    · exact lt_trans (hfresh m h) (Nat.lt_succ_self _)
    · simp at h
      rw [h]
      exact Nat.lt_succ_self _
  obtain ⟨h2p, h2by, h2id, h2v, h2cmp, h2len, h2st, h2nc, h2res⟩ :=
    addL_new (addL w c [Entry.bag b] {}).w (addL w c [Entry.bag b] {}).c b hid1 hv1 hfresh1
  refine ⟨w.nextCid, (addL w c [Entry.bag b] {}).w.nextCid, h1res, h2res, ?_, ?_, ?_, ?_⟩
  · rw [h1nc]
    exact Nat.ne_of_lt (Nat.lt_succ_self _)
  · apply h2p.mem_iff.mpr
    apply List.mem_append_left
    exact h1p.mem_iff.mpr (List.mem_append_right _ (List.mem_singleton.mpr rfl))
  · exact h2p.mem_iff.mpr (List.mem_append_right _ (List.mem_singleton.mpr rfl))
  · rw [h2len, h1len]
    ring

/-- The identifier-less bag of the add-twice scenario. -/
def exB3 : Bag := [("rank", 9)]

theorem C3_unsaved_add_twice_witness :
    (bagGet exB3 exC0.idAttr = none) ∧ (exC0.vErr exB3 = none) ∧
    (∀ m ∈ exW0.store, m.cid < exW0.nextCid) ∧
    (∃ n1 n2,
      (addL exW0 exC0 [Entry.bag exB3] {}).res = [Res.mod n1] ∧
      (addL (addL exW0 exC0 [Entry.bag exB3] {}).w (addL exW0 exC0 [Entry.bag exB3] {}).c
        [Entry.bag exB3] {}).res = [Res.mod n2] ∧
      n1 ≠ n2 ∧
      n1 ∈ (addL (addL exW0 exC0 [Entry.bag exB3] {}).w (addL exW0 exC0 [Entry.bag exB3] {}).c
        [Entry.bag exB3] {}).c.seq ∧
      n2 ∈ (addL (addL exW0 exC0 [Entry.bag exB3] {}).w (addL exW0 exC0 [Entry.bag exB3] {}).c
        [Entry.bag exB3] {}).c.seq ∧
      (addL (addL exW0 exC0 [Entry.bag exB3] {}).w (addL exW0 exC0 [Entry.bag exB3] {}).c
        [Entry.bag exB3] {}).c.length = exC0.length + 2) :=
  ⟨by decide, rfl, fun m hm => absurd hm (List.not_mem_nil m),
   C3_unsaved_add_twice exW0 exC0 exB3 (by decide) rfl
     (fun m hm => absurd hm (List.not_mem_nil m))⟩

/-! ### Duplicate domain identifiers in one batch -/

/-- Overwriting a bag property with the value it already holds is the
identity. -/
theorem bagSet_get_self : ∀ {l : Bag} {k : String} {v : Val},
    bagGet l k = some v → bagSet l k v = l := by
  intro l
  induction l with
  | nil => intro k v h; simp [bagGet] at h
  | cons kv rest ih =>
    intro k v h
    by_cases hk : kv.1 = k
    · simp only [bagGet, if_pos hk] at h
      injection h with h
      simp only [bagSet, if_pos hk]
      rw [show ((k, v) : String × Val) = kv from by
        rw [← hk, ← h]]
    · simp only [bagGet, if_neg hk] at h
      simp only [bagSet, if_neg hk]
      rw [ih h]

theorem byIdGet_del_self (l : List (MKey × Nat)) (k : MKey) :
    byIdGet (byIdDel l k) k = none := by
  induction l with
  | nil => rfl
  | cons p rest ih =>
    by_cases hp : p.1 = k
    · rw [show byIdDel (p :: rest) k = byIdDel rest k from by
        simp [byIdDel, List.filter_cons, hp]]
      exact ih
    · rw [show byIdDel (p :: rest) k = p :: byIdDel rest k from by
        simp [byIdDel, List.filter_cons, hp]]
      simp only [byIdGet, if_neg hp]
      exact ih

/-- Merging a one-key bag that repeats the record's current domain
identifier changes nothing: no key is rewritten, so no `change` fires, no
re-keying happens and the pending-sort flag stays put; only the model
object is (idly) rewritten with an empty `changed` list. -/
theorem mergeExisting_sameId (o : SetOpts) (sortable : Bool) (sortAttr : Option String)
    (ecid : Nat) (v : Val) (st : RunSt) (em : Model)
    (hmerge : o.merge = true)
    (hfound : findModel st.w ecid = some em)
    (hid : bagGet em.attrs st.c.idAttr = some v) :
    mergeExisting o sortable sortAttr ecid (Entry.bag [(st.c.idAttr, v)]) st
      = { st with w := storeMap st.w ecid (fun _ => { em with changed := [] }) } := by
  have hms : modelSet em [(st.c.idAttr, v)] = { em with changed := [] } := by
    unfold modelSet
    simp [bagSet_get_self hid, hid]
  unfold mergeExisting
  rw [if_pos (show (o.merge && !(sameObjB ecid (Entry.bag [(st.c.idAttr, v)]))) = true by
    rw [hmerge]; rfl)]
  rw [hfound]
  dsimp only
  rw [show entryAttrs st.w (Entry.bag [(st.c.idAttr, v)]) = [(st.c.idAttr, v)] from rfl]
  rw [hms]
  cases sortAttr with
  | none => simp
  | some a => simp

/-- The member-id read path is blind to store rewrites that keep every
affected model's identity and attributes. -/
theorem idPath_storeMap (w : World) (cid : Nat) (f : Model → Model)
    (hcid : ∀ m, m.cid = cid → (f m).cid = cid)
    (hattrs : ∀ m ∈ w.store, m.cid = cid → (f m).attrs = m.attrs)
    (x : Nat) (a : String) :
    ((findModel (storeMap w cid f) x).bind (fun m => bagGet m.attrs a))
      = (findModel w x).bind (fun m => bagGet m.attrs a) := by
  rw [findModel_storeMap w cid f hcid]
  cases hfm : findModel w x with
  | none => rfl
  | some m =>
    have hmem := storeFind_mem hfm
    by_cases hmc : (m.cid == cid) = true
    · have hc2 : m.cid = cid := by simpa using hmc
      simp [hmc, hc2, hattrs m hmem.1 hc2]
    · have hne : ¬ m.cid = cid := by simpa using hmc
      simp [hmc, hne]

/-- `get` is blind to store rewrites that keep identities and attribute
bags. -/
theorem getC_storeMap (w : World) (cid : Nat) (f : Model → Model) (c : Coll) (e : Entry)
    (hcid : ∀ m, m.cid = cid → (f m).cid = cid)
    (hattrs : ∀ m ∈ w.store, m.cid = cid → (f m).attrs = m.attrs) :
    getC (storeMap w cid f) c e = getC w c e := by
  cases e with
  | raw v => rfl
  | bag b => rfl
  | mref x =>
    unfold getC modelIdOf
    dsimp only
    rw [idPath_storeMap w cid f hcid hattrs x c.idAttr]

theorem removeStep_keep2 (silent : Bool) (mcid : Nat) (st : RunSt) :
    (removeStep silent mcid st).toAdd = st.toAdd ∧
    (removeStep silent mcid st).order = st.order ∧
    (removeStep silent mcid st).orderChanged = st.orderChanged ∧
    (removeStep silent mcid st).sortFlag = st.sortFlag ∧
    (removeStep silent mcid st).res = st.res ∧
    (removeStep silent mcid st).c.idAttr = st.c.idAttr ∧
    (removeStep silent mcid st).c.comparator = st.c.comparator ∧
    (∀ x, attrsOf (removeStep silent mcid st).w x = attrsOf st.w x) := by
  have hw : (removeStep silent mcid st).w = storeMap st.w mcid
      (fun mm => if mm.collFlag then { mm with collFlag := false } else mm) := by
    unfold removeStep
    cases silent <;> dsimp only <;> rfl
  refine ⟨?_, ?_, ?_, ?_, ?_, ?_, ?_, ?_⟩
  · unfold removeStep; cases silent <;> dsimp only <;> rfl
  · unfold removeStep; cases silent <;> dsimp only <;> rfl
  · unfold removeStep; cases silent <;> dsimp only <;> rfl
  · unfold removeStep; cases silent <;> dsimp only <;> rfl
  · unfold removeStep; cases silent <;> dsimp only <;> rfl
  · unfold removeStep; cases silent <;> dsimp only <;> rfl
  · unfold removeStep; cases silent <;> dsimp only <;> rfl
  · intro x
    rw [hw]
    exact attrsOf_storeMap_flag st.w mcid _
      (fun m => by by_cases h : m.collFlag <;> simp [h]) x

/-- The model-reference branch of `get`, stated over plain reads. -/
theorem getC_mref_eq (w : World) (c : Coll) (x : Nat) :
    getC w c (Entry.mref x) =
      (match ((findModel w x).bind (fun m => bagGet m.attrs c.idAttr)) with
       | some v =>
         (match byIdGet c.byId (MKey.idK v) with
          | some res => some res
          | none => byIdGet c.byId (MKey.cid x))
       | none => byIdGet c.byId (MKey.cid x)) := by
  unfold getC modelIdOf
  dsimp only
  cases hFM : findModel w x with
  | none => rfl
  | some m =>
    cases hBG : bagGet m.attrs c.idAttr with
    | none =>
      show (match (some m).bind (fun m => bagGet m.attrs c.idAttr) |>.bind
          (fun v => byIdGet c.byId (MKey.idK v)) with
        | some r => some r
        | none => byIdGet c.byId (MKey.cid x)) = _
      rw [show (some m).bind (fun m => bagGet m.attrs c.idAttr) = none from hBG]
      rfl
    | some v =>
      show (match (some m).bind (fun m => bagGet m.attrs c.idAttr) |>.bind
          (fun v => byIdGet c.byId (MKey.idK v)) with
        | some r => some r
        | none => byIdGet c.byId (MKey.cid x)) = _
      rw [show (some m).bind (fun m => bagGet m.attrs c.idAttr) = some v from hBG]
      cases byIdGet c.byId (MKey.idK v) <;> rfl

/-- Removing one member leaves every other member still resolvable to
itself by `get` (the identity-key registration survives, and if the two
shared a domain identifier the client-identity fallback catches it). -/
theorem removeStep_resolve (silent : Bool) (r r' : Nat) (st : RunSt) (hne : r' ≠ r)
    (hres : getC st.w st.c (Entry.mref r') = some r')
    (hcid : byIdGet st.c.byId (MKey.cid r') = some r') :
    getC (removeStep silent r st).w (removeStep silent r st).c (Entry.mref r') = some r' ∧
    byIdGet (removeStep silent r st).c.byId (MKey.cid r') = some r' := by
  have hbyId : (removeStep silent r st).c.byId =
      byIdDel (match modelIdOf st.c ((findModel st.w r).getD ⟨r, [], [], false⟩).attrs with
        | some v => byIdDel st.c.byId (.idK v)
        | none => st.c.byId) (.cid r) := by
    unfold removeStep
    cases silent <;> dsimp only <;> rfl
  have hidattr : (removeStep silent r st).c.idAttr = st.c.idAttr := by
    unfold removeStep
    cases silent <;> dsimp only <;> rfl
  have hw : (removeStep silent r st).w = storeMap st.w r
      (fun mm => if mm.collFlag then { mm with collFlag := false } else mm) := by
    unfold removeStep
    cases silent <;> dsimp only <;> rfl
  have hcid2 : byIdGet (removeStep silent r st).c.byId (MKey.cid r') = some r' := by
    rw [hbyId, byIdGet_del_ne _ (fun h => hne (MKey.cid.inj h))]
    cases hm : modelIdOf st.c ((findModel st.w r).getD ⟨r, [], [], false⟩).attrs with
    | none => exact hcid
    | some vr =>
      rw [byIdGet_del_ne _ (fun h => MKey.noConfusion h)]
      exact hcid
  refine ⟨?_, hcid2⟩
  rw [getC_mref_eq] at hres ⊢
  rw [hidattr, hw,
    idPath_storeMap st.w r _ (fun m hm => by by_cases hcf : m.collFlag <;> simp [hcf, hm])
      (fun m _ _ => by by_cases hcf : m.collFlag <;> simp [hcf]) r' st.c.idAttr,
    hbyId]
  cases hI : (findModel st.w r').bind (fun m => bagGet m.attrs st.c.idAttr) with
  | none =>
    rw [hI] at hres
    dsimp only at hres ⊢
    rw [byIdGet_del_ne _ (fun h => hne (MKey.cid.inj h))]
    cases hm : modelIdOf st.c ((findModel st.w r).getD ⟨r, [], [], false⟩).attrs with
    | none => exact hres
    | some vr =>
      rw [byIdGet_del_ne _ (fun h => MKey.noConfusion h)]
      exact hres
  | some v' =>
    rw [hI] at hres
    dsimp only at hres ⊢
    cases hm : modelIdOf st.c ((findModel st.w r).getD ⟨r, [], [], false⟩).attrs with
    | none =>
      dsimp only
      rw [byIdGet_del_ne _ (fun h => MKey.noConfusion h),
        byIdGet_del_ne _ (fun h => hne (MKey.cid.inj h))]
      exact hres
    | some vr =>
      dsimp only
      by_cases hv : v' = vr
      · subst hv
        rw [byIdGet_del_ne _ (fun h => MKey.noConfusion h), byIdGet_del_self]
        dsimp only
        rw [byIdGet_del_ne _ (fun h => hne (MKey.cid.inj h)),
          byIdGet_del_ne _ (fun h => MKey.noConfusion h)]
        exact hcid
      · rw [byIdGet_del_ne _ (fun h => MKey.noConfusion h),
          byIdGet_del_ne _ (fun h => hv (MKey.idK.inj h)),
          byIdGet_del_ne _ (fun h => hne (MKey.cid.inj h)),
          byIdGet_del_ne _ (fun h => MKey.noConfusion h)]
        exact hres

theorem filter_eq_singleton_of_nodup {l : List Nat} {e : Nat}
    (hnd : l.Nodup) (he : e ∈ l) :
    l.filter (fun x => decide (x = e)) = [e] := by
  induction l with
  | nil => cases he
  | cons a l ih =>
    rcases List.mem_cons.mp he with h | h
    · subst h
      rw [List.filter_cons_of_pos (by simp)]
      rw [List.filter_eq_nil_iff.mpr (fun x hx => by
        simp only [decide_eq_true_eq]
        intro hxa
        exact (List.nodup_cons.mp hnd).1 (hxa ▸ hx))]
    · have hae : ¬ (a = e) := fun hh => (List.nodup_cons.mp hnd).1 (hh ▸ h)
      rw [List.filter_cons_of_neg (by simp [hae])]
      exact ih (List.nodup_cons.mp hnd).2 h

theorem eq_singleton_of_all {l : List Nat} {e : Nat}
    (hnd : l.Nodup) (he : e ∈ l) (hall : ∀ x ∈ l, x = e) : l = [e] := by
  rw [← filter_eq_singleton_of_nodup hnd he]
  exact (List.filter_eq_self.mpr (fun a ha => by simp [hall a ha])).symm

/-- Removing a duplicate-free list of members that each resolve to
themselves deletes exactly those members from the sequence and nothing
else, touching none of the loop-carried locals and no attribute bag. -/
theorem removeCore_filter (silent : Bool) : ∀ (R : List Nat) (st : RunSt),
    R.Nodup → st.c.seq.Nodup →
    (∀ r ∈ R, r ∈ st.c.seq) →
    (∀ r ∈ R, getC st.w st.c (Entry.mref r) = some r ∧
      byIdGet st.c.byId (MKey.cid r) = some r) →
    (removeCore silent (R.map Entry.mref) st).1.c.seq
        = st.c.seq.filter (fun x => decide (x ∉ R)) ∧
    (removeCore silent (R.map Entry.mref) st).1.c.idAttr = st.c.idAttr ∧
    (removeCore silent (R.map Entry.mref) st).1.c.comparator = st.c.comparator ∧
    (removeCore silent (R.map Entry.mref) st).1.toAdd = st.toAdd ∧
    (removeCore silent (R.map Entry.mref) st).1.order = st.order ∧
    (removeCore silent (R.map Entry.mref) st).1.orderChanged = st.orderChanged ∧
    (removeCore silent (R.map Entry.mref) st).1.sortFlag = st.sortFlag ∧
    (removeCore silent (R.map Entry.mref) st).1.res = st.res ∧
    (∀ x, attrsOf (removeCore silent (R.map Entry.mref) st).1.w x = attrsOf st.w x) := by
  intro R
  induction R with
  | nil =>
    intro st _ _ _ _
    refine ⟨?_, rfl, rfl, rfl, rfl, rfl, rfl, rfl, fun x => rfl⟩
    simp [removeCore]
  | cons r rest ih =>
    intro st hndR hnds hmem hres
    have hr := hres r (List.mem_cons_self r rest)
    have hrm : r ∈ st.c.seq := hmem r (List.mem_cons_self r rest)
    have hstep : removeCore silent ((r :: rest).map Entry.mref) st
        = ((removeCore silent (rest.map Entry.mref) (removeStep silent r st)).1,
           some r :: (removeCore silent (rest.map Entry.mref) (removeStep silent r st)).2) := by
      show (match getC st.w st.c (Entry.mref r) with
        | none =>
          ((removeCore silent (rest.map Entry.mref) st).1,
           none :: (removeCore silent (rest.map Entry.mref) st).2)
        | some mcid =>
          ((removeCore silent (rest.map Entry.mref) (removeStep silent mcid st)).1,
           some mcid :: (removeCore silent (rest.map Entry.mref) (removeStep silent mcid st)).2))
        = _
      rw [hr.1]
    have hseq1 : (removeStep silent r st).c.seq = st.c.seq.erase r := by
      unfold removeStep
      cases silent <;> dsimp only <;> exact spliceOut_indexOf hrm
    have hnd1 : (removeStep silent r st).c.seq.Nodup := by
      rw [hseq1]
      exact hnds.sublist (List.erase_sublist r st.c.seq)
    have hnotr : r ∉ rest := (List.nodup_cons.mp hndR).1
    have hmem1 : ∀ r' ∈ rest, r' ∈ (removeStep silent r st).c.seq := by
      intro r' hr'
      rw [hseq1]
      exact (List.mem_erase_of_ne (fun hh => hnotr (by rw [← hh]; exact hr'))).mpr
        (hmem r' (List.mem_cons_of_mem r hr'))
    have hres1 : ∀ r' ∈ rest, getC (removeStep silent r st).w (removeStep silent r st).c
        (Entry.mref r') = some r' ∧
        byIdGet (removeStep silent r st).c.byId (MKey.cid r') = some r' := by
      intro r' hr'
      have h0 := hres r' (List.mem_cons_of_mem r hr')
      exact removeStep_resolve silent r r' st (fun hh => hnotr (by rw [← hh]; exact hr')) h0.1 h0.2
    obtain ⟨i1, i2, i3, i4, i5, i6, i7, i8, i9⟩ :=
      ih (removeStep silent r st) (List.nodup_cons.mp hndR).2 hnd1 hmem1 hres1
    obtain ⟨k1, k2, k3, k4, k5, k6, k7, k8⟩ := removeStep_keep2 silent r st
    rw [hstep]
    dsimp only
    refine ⟨?_, i2.trans k6, i3.trans k7, i4.trans k1, i5.trans k2, i6.trans k3,
      i7.trans k4, i8.trans k5, fun x => (i9 x).trans (k8 x)⟩
    rw [i1, hseq1, hnds.erase_eq_filter, List.filter_filter]
    apply List.filter_congr
    intro x hx
    by_cases hxr : x = r <;> simp [hxr, List.mem_cons, not_or, Bool.and_comm]

/-- The removal pass of `set` keeps exactly the members marked in
`modelMap` (in order), provided every unmarked member still resolves to
itself; everything else the splice/sort/notify passes read is untouched. -/
theorem removePhase_marks (o : SetOpts) (st : RunSt) (ho : o.remove = true)
    (hlen : st.c.length = (st.c.seq.length : Int)) (hnd : st.c.seq.Nodup)
    (hres : ∀ r ∈ st.c.seq,
      (st.modelMap.any (fun k => decide (k = MKey.cid r))) = false →
      getC st.w st.c (Entry.mref r) = some r ∧ byIdGet st.c.byId (MKey.cid r) = some r) :
    (removePhase o st).c.seq
      = st.c.seq.filter (fun x => st.modelMap.any (fun k => decide (k = MKey.cid x))) ∧
    (removePhase o st).c.idAttr = st.c.idAttr ∧
    (removePhase o st).c.comparator = st.c.comparator ∧
    (removePhase o st).toAdd = st.toAdd ∧
    (removePhase o st).order = st.order ∧
    (removePhase o st).orderChanged = st.orderChanged ∧
    (removePhase o st).sortFlag = st.sortFlag ∧
    (removePhase o st).res = st.res ∧
    (∀ x, attrsOf (removePhase o st).w x = attrsOf st.w x) := by
  have htake : st.c.seq.take st.c.length.toNat = st.c.seq := by
    rw [hlen]
    simp
  unfold removePhase
  rw [if_pos ho]
  dsimp only
  rw [htake]
  by_cases hemp : (st.c.seq.filter
      (fun cid => !(st.modelMap.any (fun k => decide (k = MKey.cid cid))))).isEmpty = true
  · rw [if_pos hemp]
    refine ⟨?_, rfl, rfl, rfl, rfl, rfl, rfl, rfl, fun x => rfl⟩
    have hallm : ∀ x ∈ st.c.seq,
        (st.modelMap.any (fun k => decide (k = MKey.cid x))) = true := by
      intro x hx
      by_contra hfalse
      have hxR : x ∈ st.c.seq.filter
          (fun cid => !(st.modelMap.any (fun k => decide (k = MKey.cid cid)))) :=
        List.mem_filter.mpr ⟨hx, by
          simp only [Bool.not_eq_true] at hfalse
          rw [hfalse]
          rfl⟩
      rw [List.isEmpty_iff.mp hemp] at hxR
      exact List.not_mem_nil x hxR
    exact (List.filter_eq_self.mpr hallm).symm
  · rw [if_neg hemp]
    have hndR : (st.c.seq.filter
        (fun cid => !(st.modelMap.any (fun k => decide (k = MKey.cid cid))))).Nodup :=
      hnd.filter _
    have hmemR : ∀ r ∈ st.c.seq.filter
        (fun cid => !(st.modelMap.any (fun k => decide (k = MKey.cid cid)))),
        r ∈ st.c.seq := fun r hr => (List.mem_filter.mp hr).1
    have hresR : ∀ r ∈ st.c.seq.filter
        (fun cid => !(st.modelMap.any (fun k => decide (k = MKey.cid cid)))),
        getC st.w st.c (Entry.mref r) = some r ∧
        byIdGet st.c.byId (MKey.cid r) = some r := by
      intro r hr
      obtain ⟨h1, h2⟩ := List.mem_filter.mp hr
      exact hres r h1 (by
        cases hb : st.modelMap.any (fun k => decide (k = MKey.cid r)) with
        | false => rfl
        | true => rw [hb] at h2; cases h2)
    obtain ⟨s1, s2, s3, s4, s5, s6, s7, s8, s9⟩ :=
      removeCore_filter o.silent _ st hndR hnd hmemR hresR
    refine ⟨?_, s2, s3, s4, s5, s6, s7, s8, s9⟩
    rw [s1]
    apply List.filter_congr
    intro x hx
    cases hb : st.modelMap.any (fun k => decide (k = MKey.cid x)) with
    | true =>
      have hxnR : x ∉ st.c.seq.filter
          (fun cid => !(st.modelMap.any (fun k => decide (k = MKey.cid cid)))) := by
        intro hxR
        have := (List.mem_filter.mp hxR).2
        rw [hb] at this
        cases this
      simp [hxnR]
    | false =>
      have hxR : x ∈ st.c.seq.filter
          (fun cid => !(st.modelMap.any (fun k => decide (k = MKey.cid cid)))) :=
        List.mem_filter.mpr ⟨hx, by rw [hb]; rfl⟩
      simp [hxR]

/-- The options `set` resolves to when the caller passes none. -/
def setDefOpts : SetOpts := ⟨true, true, true, none, true, false, false⟩

theorem setL_eq_setRun (w : World) (c : Coll) (es : List Entry) :
    setL w c es {} = setRun w c es setDefOpts := rfl

theorem classifyStep_some (o : SetOpts) (sb : Bool) (sa : Option String)
    (origSeq : List Nat) (i : Nat) (e : Entry) (st : RunSt) (ecid : Nat)
    (hg : getC st.w st.c e = some ecid) :
    classifyStep o sb sa origSeq i e st
      = trailing origSeq i ecid
          { mergeExisting o sb sa ecid e
              (if o.remove then { st with modelMap := MKey.cid ecid :: st.modelMap } else st) with
            res := (mergeExisting o sb sa ecid e
              (if o.remove then { st with modelMap := MKey.cid ecid :: st.modelMap } else st)).res
              ++ [Res.mod ecid] } := by
  unfold classifyStep
  rw [hg]

theorem classifyStep_none_add (o : SetOpts) (sb : Bool) (sa : Option String)
    (origSeq : List Nat) (i : Nat) (e : Entry) (st st1 : RunSt) (mcid : Nat)
    (hg : getC st.w st.c e = none) (ho : o.add = true)
    (hp : prepareModel st e = (some mcid, st1)) :
    classifyStep o sb sa origSeq i e st
      = trailing origSeq i mcid
          { addReference mcid { st1 with toAdd := st1.toAdd ++ [mcid] } with
            res := (addReference mcid { st1 with toAdd := st1.toAdd ++ [mcid] }).res
              ++ [Res.mod mcid] } := by
  unfold classifyStep
  rw [hg]
  dsimp only
  rw [if_pos ho, hp]

/-- Classification of `set([{id:v},{id:v}])` when the index already
resolves `v` to member `e`: both entries collapse onto `e` — the first
marks and (idly) merges it, the second is deduplicated by `modelMap` —
and the returned list names `e` twice.  Stated for both shapes of the
`order` tracker. -/
theorem classify_dup_existing (w : World) (c : Coll) (v : Val) (e : Nat) (em : Model)
    (sb : Bool) (sa : Option String) (og : Option (List Nat))
    (hbg : byIdGet c.byId (MKey.idK v) = some e)
    (hfound : findModel w e = some em)
    (hemc : em.cid = e)
    (hid : bagGet em.attrs c.idAttr = some v) :
    classifyList setDefOpts sb sa c.seq
      [Entry.bag [(c.idAttr, v)], Entry.bag [(c.idAttr, v)]] 0
      { initSt w c with order := og }
    = ⟨storeMap (storeMap w e (fun _ => { em with changed := [] })) e
         (fun _ => { em with changed := [] }), c, [], none, [],
       [MKey.idK v, MKey.cid e, MKey.idK v, MKey.cid e],
       (match og with | none => none | some ord => some (ord ++ [e])),
       (match og with
        | none => false
        | some _ => (match c.seq.get? 0 with | none => true | some c0 => decide (c0 ≠ e))),
       false, [Res.mod e, Res.mod e], some e⟩ := by
  have hbag : bagGet [(c.idAttr, v)] c.idAttr = some v := by simp [bagGet]
  have hgetB : ∀ w' : World, getC w' c (Entry.bag [(c.idAttr, v)]) = some e := by
    intro w'
    unfold getC modelIdOf
    dsimp only
    rw [hbag]
    exact hbg
  have hfound1 : findModel (storeMap w e (fun _ => { em with changed := [] })) e
      = some { em with changed := [] } := by
    rw [findModel_storeMap w e (fun _ => { em with changed := [] }) (fun m hm => hemc)]
    rw [hfound]
    simp [hemc]
  have hattr1 : attrsOf (storeMap w e (fun _ => { em with changed := [] })) e = em.attrs := by
    unfold attrsOf
    rw [hfound1]
    rfl
  cases og with
  | none =>
    have hs1 : classifyStep setDefOpts sb sa c.seq 0 (Entry.bag [(c.idAttr, v)]) (initSt w c)
        = ⟨storeMap w e (fun _ => { em with changed := [] }), c, [], none, [],
           [MKey.idK v, MKey.cid e], none, false, false, [Res.mod e], some e⟩ := by
      rw [classifyStep_some setDefOpts sb sa c.seq 0 (Entry.bag [(c.idAttr, v)])
        (initSt w c) e (show getC (initSt w c).w (initSt w c).c
          (Entry.bag [(c.idAttr, v)]) = some e from hgetB w)]
      rw [if_pos (show setDefOpts.remove = true from rfl)]
      have hm1 : mergeExisting setDefOpts sb sa e (Entry.bag [(c.idAttr, v)])
          { initSt w c with modelMap := MKey.cid e :: (initSt w c).modelMap }
          = ⟨storeMap w e (fun _ => { em with changed := [] }), c, [], none, [],
             [MKey.cid e], none, false, false, [], none⟩ := by
        have h0 := mergeExisting_sameId setDefOpts sb sa e v
          { initSt w c with modelMap := MKey.cid e :: (initSt w c).modelMap } em rfl hfound hid
        exact h0
      rw [hm1]
      unfold trailing
      dsimp only
      rw [show modelIdOf c (attrsOf (storeMap w e (fun _ => { em with changed := [] })) e)
        = some v from by unfold modelIdOf; rw [hattr1]; exact hid]
      rfl
    have hs2 : classifyStep setDefOpts sb sa c.seq 1 (Entry.bag [(c.idAttr, v)])
        (⟨storeMap w e (fun _ => { em with changed := [] }), c, [], none, [],
          [MKey.idK v, MKey.cid e], none, false, false, [Res.mod e], some e⟩ : RunSt)
        = ⟨storeMap (storeMap w e (fun _ => { em with changed := [] })) e
             (fun _ => { em with changed := [] }), c, [], none, [],
           [MKey.idK v, MKey.cid e, MKey.idK v, MKey.cid e], none, false, false,
           [Res.mod e, Res.mod e], some e⟩ := by
      rw [classifyStep_some setDefOpts sb sa c.seq 1 (Entry.bag [(c.idAttr, v)])
        (⟨storeMap w e (fun _ => { em with changed := [] }), c, [], none, [],
          [MKey.idK v, MKey.cid e], none, false, false, [Res.mod e], some e⟩ : RunSt) e
        (hgetB (storeMap w e (fun _ => { em with changed := [] })))]
      rw [if_pos (show setDefOpts.remove = true from rfl)]
      have hm2 : mergeExisting setDefOpts sb sa e (Entry.bag [(c.idAttr, v)])
          { (⟨storeMap w e (fun _ => { em with changed := [] }), c, [], none, [],
              [MKey.idK v, MKey.cid e], none, false, false, [Res.mod e], some e⟩ : RunSt) with
            modelMap := MKey.cid e ::
              (⟨storeMap w e (fun _ => { em with changed := [] }), c, [], none, [],
                [MKey.idK v, MKey.cid e], none, false, false, [Res.mod e], some e⟩ : RunSt).modelMap }
          = ⟨storeMap (storeMap w e (fun _ => { em with changed := [] })) e
               (fun _ => { em with changed := [] }), c, [], none, [],
             [MKey.cid e, MKey.idK v, MKey.cid e], none, false, false, [Res.mod e], some e⟩ := by
        have h0 := mergeExisting_sameId setDefOpts sb sa e v
          { (⟨storeMap w e (fun _ => { em with changed := [] }), c, [], none, [],
              [MKey.idK v, MKey.cid e], none, false, false, [Res.mod e], some e⟩ : RunSt) with
            modelMap := MKey.cid e ::
              (⟨storeMap w e (fun _ => { em with changed := [] }), c, [], none, [],
                [MKey.idK v, MKey.cid e], none, false, false, [Res.mod e], some e⟩ : RunSt).modelMap }
          { em with changed := [] } rfl hfound1
          (show bagGet ({ em with changed := [] } : Model).attrs c.idAttr = some v from hid)
        exact h0
      rw [hm2]
      unfold trailing
      dsimp only
      rw [show modelIdOf c (attrsOf (storeMap (storeMap w e
          (fun _ => { em with changed := [] })) e (fun _ => { em with changed := [] })) e)
        = some v from by
          unfold modelIdOf attrsOf
          rw [findModel_storeMap _ e (fun _ => { em with changed := [] }) (fun m hm => hemc), hfound1]
          simpa [hemc] using hid]
      rfl
    show classifyStep setDefOpts sb sa c.seq 1 (Entry.bag [(c.idAttr, v)])
      (classifyStep setDefOpts sb sa c.seq 0 (Entry.bag [(c.idAttr, v)]) (initSt w c)) = _
    rw [hs1, hs2]
  | some ord =>
    have hs1 : classifyStep setDefOpts sb sa c.seq 0 (Entry.bag [(c.idAttr, v)])
        (⟨w, c, [], none, [], [], some ord, false, false, [], none⟩ : RunSt)
        = ⟨storeMap w e (fun _ => { em with changed := [] }), c, [], none, [],
           [MKey.idK v, MKey.cid e], some (ord ++ [e]),
           (match c.seq.get? 0 with | none => true | some c0 => decide (c0 ≠ e)),
           false, [Res.mod e], some e⟩ := by
      rw [classifyStep_some setDefOpts sb sa c.seq 0 (Entry.bag [(c.idAttr, v)])
        (⟨w, c, [], none, [], [], some ord, false, false, [], none⟩ : RunSt) e (hgetB w)]
      rw [if_pos (show setDefOpts.remove = true from rfl)]
      have hm1 : mergeExisting setDefOpts sb sa e (Entry.bag [(c.idAttr, v)])
          { (⟨w, c, [], none, [], [], some ord, false, false, [], none⟩ : RunSt) with
            modelMap := MKey.cid e ::
              (⟨w, c, [], none, [], [], some ord, false, false, [], none⟩ : RunSt).modelMap }
          = ⟨storeMap w e (fun _ => { em with changed := [] }), c, [], none, [],
             [MKey.cid e], some ord, false, false, [], none⟩ := by
        have h0 := mergeExisting_sameId setDefOpts sb sa e v
          { (⟨w, c, [], none, [], [], some ord, false, false, [], none⟩ : RunSt) with
            modelMap := MKey.cid e ::
              (⟨w, c, [], none, [], [], some ord, false, false, [], none⟩ : RunSt).modelMap }
          em rfl hfound hid
        exact h0
      rw [hm1]
      unfold trailing
      dsimp only
      rw [show modelIdOf c (attrsOf (storeMap w e (fun _ => { em with changed := [] })) e)
        = some v from by unfold modelIdOf; rw [hattr1]; exact hid]
      rfl
    have hs2 : classifyStep setDefOpts sb sa c.seq 1 (Entry.bag [(c.idAttr, v)])
        (⟨storeMap w e (fun _ => { em with changed := [] }), c, [], none, [],
          [MKey.idK v, MKey.cid e], some (ord ++ [e]),
          (match c.seq.get? 0 with | none => true | some c0 => decide (c0 ≠ e)),
          false, [Res.mod e], some e⟩ : RunSt)
        = ⟨storeMap (storeMap w e (fun _ => { em with changed := [] })) e
             (fun _ => { em with changed := [] }), c, [], none, [],
           [MKey.idK v, MKey.cid e, MKey.idK v, MKey.cid e], some (ord ++ [e]),
           (match c.seq.get? 0 with | none => true | some c0 => decide (c0 ≠ e)),
           false, [Res.mod e, Res.mod e], some e⟩ := by
      rw [classifyStep_some setDefOpts sb sa c.seq 1 (Entry.bag [(c.idAttr, v)])
        (⟨storeMap w e (fun _ => { em with changed := [] }), c, [], none, [],
          [MKey.idK v, MKey.cid e], some (ord ++ [e]),
          (match c.seq.get? 0 with | none => true | some c0 => decide (c0 ≠ e)),
          false, [Res.mod e], some e⟩ : RunSt) e
        (hgetB (storeMap w e (fun _ => { em with changed := [] })))]
      rw [if_pos (show setDefOpts.remove = true from rfl)]
      have hm2 : mergeExisting setDefOpts sb sa e (Entry.bag [(c.idAttr, v)])
          { (⟨storeMap w e (fun _ => { em with changed := [] }), c, [], none, [],
              [MKey.idK v, MKey.cid e], some (ord ++ [e]),
              (match c.seq.get? 0 with | none => true | some c0 => decide (c0 ≠ e)),
              false, [Res.mod e], some e⟩ : RunSt) with
            modelMap := MKey.cid e ::
              (⟨storeMap w e (fun _ => { em with changed := [] }), c, [], none, [],
                [MKey.idK v, MKey.cid e], some (ord ++ [e]),
                (match c.seq.get? 0 with | none => true | some c0 => decide (c0 ≠ e)),
                false, [Res.mod e], some e⟩ : RunSt).modelMap }
          = ⟨storeMap (storeMap w e (fun _ => { em with changed := [] })) e
               (fun _ => { em with changed := [] }), c, [], none, [],
             [MKey.cid e, MKey.idK v, MKey.cid e], some (ord ++ [e]),
             (match c.seq.get? 0 with | none => true | some c0 => decide (c0 ≠ e)),
             false, [Res.mod e], some e⟩ := by
        have h0 := mergeExisting_sameId setDefOpts sb sa e v
          { (⟨storeMap w e (fun _ => { em with changed := [] }), c, [], none, [],
              [MKey.idK v, MKey.cid e], some (ord ++ [e]),
              (match c.seq.get? 0 with | none => true | some c0 => decide (c0 ≠ e)),
              false, [Res.mod e], some e⟩ : RunSt) with
            modelMap := MKey.cid e ::
              (⟨storeMap w e (fun _ => { em with changed := [] }), c, [], none, [],
                [MKey.idK v, MKey.cid e], some (ord ++ [e]),
                (match c.seq.get? 0 with | none => true | some c0 => decide (c0 ≠ e)),
                false, [Res.mod e], some e⟩ : RunSt).modelMap }
          { em with changed := [] } rfl hfound1
          (show bagGet ({ em with changed := [] } : Model).attrs c.idAttr = some v from hid)
        exact h0
      rw [hm2]
      unfold trailing
      dsimp only
      rw [show modelIdOf c (attrsOf (storeMap (storeMap w e
          (fun _ => { em with changed := [] })) e (fun _ => { em with changed := [] })) e)
        = some v from by
          unfold modelIdOf attrsOf
          rw [findModel_storeMap _ e (fun _ => { em with changed := [] }) (fun m hm => hemc), hfound1]
          simpa [hemc] using hid]
      rw [show ([MKey.cid e, MKey.idK v, MKey.cid e].any
          (fun k => decide (k = mkKey (some v)))) = true from by simp [mkKey]]
      rfl
    show classifyStep setDefOpts sb sa c.seq 1 (Entry.bag [(c.idAttr, v)])
      (classifyStep setDefOpts sb sa c.seq 0 (Entry.bag [(c.idAttr, v)])
        (⟨w, c, [], none, [], [], some ord, false, false, [], none⟩ : RunSt)) = _
    rw [hs1, hs2]

/-- The record manufactured for the bag `{id: v}`. -/
def dupM (w : World) (c : Coll) (v : Val) : Model := ⟨w.nextCid, [(c.idAttr, v)], [], true⟩

/-- The world after that record is constructed. -/
def dupW1 (w : World) (c : Coll) (v : Val) : World := ⟨w.store ++ [dupM w c v], w.nextCid + 1⟩

/-- The world after the idle duplicate merge rewrites the record. -/
def dupW2 (w : World) (c : Coll) (v : Val) : World :=
  storeMap (dupW1 w c v) w.nextCid (fun _ => { dupM w c v with changed := [] })

/-- The collection after `_addReference` registers the fresh record. -/
def dupC (w : World) (c : Coll) (v : Val) : Coll :=
  ⟨c.seq, c.length, byIdSet (byIdSet c.byId (MKey.cid w.nextCid) w.nextCid)
    (MKey.idK v) w.nextCid, c.comparator, c.idAttr, c.vErr⟩

/-- Machine state after entry one of the fresh-duplicate batch. -/
def dupSt1 (w : World) (c : Coll) (v : Val) (ogf : Option (List Nat)) (ocf : Bool) : RunSt :=
  ⟨dupW1 w c v, dupC w c v, [], none, [w.nextCid], [MKey.idK v], ogf, ocf, false,
   [Res.mod w.nextCid], some w.nextCid⟩

/-- Machine state after entry two of the fresh-duplicate batch. -/
def dupSt2 (w : World) (c : Coll) (v : Val) (ogf : Option (List Nat)) (ocf : Bool) : RunSt :=
  ⟨dupW2 w c v, dupC w c v, [], none, [w.nextCid],
   [MKey.idK v, MKey.cid w.nextCid, MKey.idK v], ogf, ocf, false,
   [Res.mod w.nextCid, Res.mod w.nextCid], some w.nextCid⟩

/-- Classification of `set([{id:v},{id:v}])` when the index does not know
`v`: the first entry manufactures and stages a fresh record (registered
under `v` at once by `_addReference`), the second entry then resolves to
that very record through the index and is deduplicated; the returned list
names the fresh record twice. -/
theorem classify_dup_fresh (w : World) (c : Coll) (v : Val)
    (sb : Bool) (sa : Option String) (og : Option (List Nat))
    (hbg : byIdGet c.byId (MKey.idK v) = none)
    (hv : c.vErr [(c.idAttr, v)] = none)
    (hfresh : ∀ m ∈ w.store, m.cid < w.nextCid) :
    classifyList setDefOpts sb sa c.seq
      [Entry.bag [(c.idAttr, v)], Entry.bag [(c.idAttr, v)]] 0
      { initSt w c with order := og }
    = dupSt2 w c v
        (match og with | none => none | some ord => some (ord ++ [w.nextCid]))
        (match og with
         | none => false
         | some _ => (match c.seq.get? 0 with
                      | none => true
                      | some c0 => decide (c0 ≠ w.nextCid))) := by
  have hbag : bagGet [(c.idAttr, v)] c.idAttr = some v := by simp [bagGet]
  have hget1 : getC w c (Entry.bag [(c.idAttr, v)]) = none := by
    unfold getC modelIdOf
    dsimp only
    rw [hbag]
    exact hbg
  have hfoundW1 : findModel (dupW1 w c v) w.nextCid = some (dupM w c v) := by
    show storeFind (w.store ++ [dupM w c v]) w.nextCid = _
    exact storeFind_append_self
      (fun x hx hh => absurd (hfresh x hx) (by rw [hh]; exact lt_irrefl _))
  have hattrW1 : attrsOf (dupW1 w c v) w.nextCid = [(c.idAttr, v)] := by
    unfold attrsOf
    rw [hfoundW1]
    rfl
  have hattrW2 : attrsOf (dupW2 w c v) w.nextCid = [(c.idAttr, v)] := by
    unfold attrsOf dupW2
    rw [findModel_storeMap _ w.nextCid (fun _ => { dupM w c v with changed := [] })
      (fun m hm => rfl), hfoundW1]
    simp [dupM]
  have hgetB2 : ∀ w' : World, getC w' (dupC w c v) (Entry.bag [(c.idAttr, v)])
      = some w.nextCid := by
    intro w'
    unfold getC modelIdOf dupC
    dsimp only
    rw [hbag]
    exact byIdGet_set_self _ _ _
  cases og with
  | none =>
    have hprep : prepareModel (initSt w c) (Entry.bag [(c.idAttr, v)])
        = (some w.nextCid, ⟨dupW1 w c v, c, [], none, [], [], none, false, false, [], none⟩) := by
      unfold prepareModel prepNew
      dsimp only
      rw [show (initSt w c).c.vErr [(c.idAttr, v)] = none from hv]
      rfl
    have hs1 : classifyStep setDefOpts sb sa c.seq 0 (Entry.bag [(c.idAttr, v)]) (initSt w c)
        = dupSt1 w c v none false := by
      rw [classifyStep_none_add setDefOpts sb sa c.seq 0 (Entry.bag [(c.idAttr, v)])
        (initSt w c) _ w.nextCid hget1 rfl hprep]
      unfold addReference
      dsimp only
      unfold modelIdOf
      rw [hattrW1, hbag]
      unfold trailing modelIdOf
      dsimp only
      rw [hattrW1, hbag]
      rfl
    have hs2 : classifyStep setDefOpts sb sa c.seq 1 (Entry.bag [(c.idAttr, v)])
        (dupSt1 w c v none false) = dupSt2 w c v none false := by
      rw [classifyStep_some setDefOpts sb sa c.seq 1 (Entry.bag [(c.idAttr, v)])
        (dupSt1 w c v none false) w.nextCid (hgetB2 _)]
      rw [if_pos (show setDefOpts.remove = true from rfl)]
      have hm2 : mergeExisting setDefOpts sb sa w.nextCid (Entry.bag [(c.idAttr, v)])
          { dupSt1 w c v none false with
            modelMap := MKey.cid w.nextCid :: (dupSt1 w c v none false).modelMap }
          = ⟨dupW2 w c v, dupC w c v, [], none, [w.nextCid],
             [MKey.cid w.nextCid, MKey.idK v], none, false, false,
             [Res.mod w.nextCid], some w.nextCid⟩ := by
        have h0 := mergeExisting_sameId setDefOpts sb sa w.nextCid v
          { dupSt1 w c v none false with
            modelMap := MKey.cid w.nextCid :: (dupSt1 w c v none false).modelMap }
          (dupM w c v) rfl hfoundW1 hbag
        exact h0
      rw [hm2]
      unfold trailing modelIdOf
      dsimp only
      rw [show attrsOf (dupW2 w c v) w.nextCid = [(c.idAttr, v)] from hattrW2,
        show (dupC w c v).idAttr = c.idAttr from rfl, hbag]
      rfl
    show classifyStep setDefOpts sb sa c.seq 1 (Entry.bag [(c.idAttr, v)])
      (classifyStep setDefOpts sb sa c.seq 0 (Entry.bag [(c.idAttr, v)]) (initSt w c)) = _
    rw [hs1, hs2]
  | some ord =>
    have hprep : prepareModel
        (⟨w, c, [], none, [], [], some ord, false, false, [], none⟩ : RunSt)
        (Entry.bag [(c.idAttr, v)])
        = (some w.nextCid,
           ⟨dupW1 w c v, c, [], none, [], [], some ord, false, false, [], none⟩) := by
      unfold prepareModel prepNew
      dsimp only
      rw [show ((⟨w, c, [], none, [], [], some ord, false, false, [], none⟩ : RunSt)).c.vErr
        [(c.idAttr, v)] = none from hv]
      rfl
    have hs1 : classifyStep setDefOpts sb sa c.seq 0 (Entry.bag [(c.idAttr, v)])
        (⟨w, c, [], none, [], [], some ord, false, false, [], none⟩ : RunSt)
        = dupSt1 w c v (some (ord ++ [w.nextCid]))
            (match c.seq.get? 0 with
             | none => true
             | some c0 => decide (c0 ≠ w.nextCid)) := by
      rw [classifyStep_none_add setDefOpts sb sa c.seq 0 (Entry.bag [(c.idAttr, v)])
        (⟨w, c, [], none, [], [], some ord, false, false, [], none⟩ : RunSt) _ w.nextCid
        hget1 rfl hprep]
      unfold addReference
      dsimp only
      unfold modelIdOf
      rw [hattrW1, hbag]
      unfold trailing modelIdOf
      dsimp only
      rw [hattrW1, hbag]
      rfl
    have hs2 : classifyStep setDefOpts sb sa c.seq 1 (Entry.bag [(c.idAttr, v)])
        (dupSt1 w c v (some (ord ++ [w.nextCid]))
          (match c.seq.get? 0 with
           | none => true
           | some c0 => decide (c0 ≠ w.nextCid)))
        = dupSt2 w c v (some (ord ++ [w.nextCid]))
            (match c.seq.get? 0 with
             | none => true
             | some c0 => decide (c0 ≠ w.nextCid)) := by
      rw [classifyStep_some setDefOpts sb sa c.seq 1 (Entry.bag [(c.idAttr, v)])
        (dupSt1 w c v (some (ord ++ [w.nextCid]))
          (match c.seq.get? 0 with
           | none => true
           | some c0 => decide (c0 ≠ w.nextCid))) w.nextCid (hgetB2 _)]
      rw [if_pos (show setDefOpts.remove = true from rfl)]
      have hm2 : mergeExisting setDefOpts sb sa w.nextCid (Entry.bag [(c.idAttr, v)])
          { dupSt1 w c v (some (ord ++ [w.nextCid]))
              (match c.seq.get? 0 with
               | none => true
               | some c0 => decide (c0 ≠ w.nextCid)) with
            modelMap := MKey.cid w.nextCid ::
              (dupSt1 w c v (some (ord ++ [w.nextCid]))
                (match c.seq.get? 0 with
                 | none => true
                 | some c0 => decide (c0 ≠ w.nextCid))).modelMap }
          = ⟨dupW2 w c v, dupC w c v, [], none, [w.nextCid],
             [MKey.cid w.nextCid, MKey.idK v], some (ord ++ [w.nextCid]),
             (match c.seq.get? 0 with
              | none => true
              | some c0 => decide (c0 ≠ w.nextCid)), false,
             [Res.mod w.nextCid], some w.nextCid⟩ := by
        have h0 := mergeExisting_sameId setDefOpts sb sa w.nextCid v
          { dupSt1 w c v (some (ord ++ [w.nextCid]))
              (match c.seq.get? 0 with
               | none => true
               | some c0 => decide (c0 ≠ w.nextCid)) with
            modelMap := MKey.cid w.nextCid ::
              (dupSt1 w c v (some (ord ++ [w.nextCid]))
                (match c.seq.get? 0 with
                 | none => true
                 | some c0 => decide (c0 ≠ w.nextCid))).modelMap }
          (dupM w c v) rfl hfoundW1 hbag
        exact h0
      rw [hm2]
      unfold trailing modelIdOf
      dsimp only
      rw [show attrsOf (dupW2 w c v) w.nextCid = [(c.idAttr, v)] from hattrW2,
        show (dupC w c v).idAttr = c.idAttr from rfl, hbag]
      rw [show ([MKey.cid w.nextCid, MKey.idK v].any
          (fun k => decide (k = mkKey (some v)))) = true from by simp [mkKey]]
      rfl
    show classifyStep setDefOpts sb sa c.seq 1 (Entry.bag [(c.idAttr, v)])
      (classifyStep setDefOpts sb sa c.seq 0 (Entry.bag [(c.idAttr, v)])
        (⟨w, c, [], none, [], [], some ord, false, false, [], none⟩ : RunSt)) = _
    rw [hs1, hs2]

/-- On a consistent, self-indexed collection every member resolves to
itself. -/
theorem getC_self (w : World) (c : Coll) (hwf : WF w c) (hsi : SelfIndexed w c)
    (r : Nat) (hr : r ∈ c.seq) : getC w c (Entry.mref r) = some r := by
  rw [getC_mref_eq]
  obtain ⟨m, hmW, hmc⟩ := hwf.mem_store r hr
  have hfm : findModel w r = some m := by
    unfold findModel
    rw [← hmc]
    exact storeFind_of_mem hmW hwf.store_nodup
  rw [hfm]
  rw [show (some m).bind (fun m => bagGet m.attrs c.idAttr) = bagGet m.attrs c.idAttr from rfl]
  cases hb : bagGet m.attrs c.idAttr with
  | none => exact (hsi r hr).1
  | some vr =>
    have hok := (hsi r hr).2 m hmW hmc
    rw [hb] at hok
    rw [show idEntryOk c r (some vr) = (byIdGet c.byId (.idK vr) = some r) from rfl] at hok
    dsimp only
    rw [hok]

theorem sortSeq_single (w : World) (k : Cmp) (n : Nat) : sortSeq w k [n] = [n] := rfl

/-- A splice pass with nothing staged and no (effective) reorder neither
moves the sequence nor raises the pending sort flag. -/
theorem splicePhase_noop (sb : Bool) (st : RunSt)
    (h1 : st.toAdd = [])
    (h2 : st.order = none ∨ st.order = some st.c.seq)
    (h3 : st.sortFlag = false)
    (h4 : st.orderChanged = false ∨ sb = false) :
    (splicePhase sb none st).c.seq = st.c.seq ∧
    (splicePhase sb none st).c.idAttr = st.c.idAttr ∧
    (splicePhase sb none st).c.comparator = st.c.comparator ∧
    (splicePhase sb none st).res = st.res ∧
    (splicePhase sb none st).w = st.w ∧
    (splicePhase sb none st).sortFlag = false := by
  unfold splicePhase
  rw [h1]
  by_cases hoc : st.orderChanged = true
  · rw [if_pos (by rw [hoc]; rfl)]
    have hsb : sb = false := by
      rcases h4 with h | h
      · rw [h] at hoc; cases hoc
      · exact h
    rcases h2 with h | h
    · refine ⟨?_, rfl, rfl, rfl, rfl, ?_⟩
      · dsimp only
        rw [h]
        simp
      · dsimp only
        rw [h3, hsb]
        rfl
    · refine ⟨?_, rfl, rfl, rfl, rfl, ?_⟩
      · dsimp only
        rw [h]
        simp
      · dsimp only
        rw [h3, hsb]
        rfl
  · rw [if_neg (by
      intro hcontra
      rw [show ((!([] : List Nat).isEmpty || st.orderChanged) = true) =
        (st.orderChanged = true) from by simp] at hcontra
      exact hoc hcontra)]
    exact ⟨rfl, rfl, rfl, rfl, rfl, h3⟩

/-- A splice pass with exactly one freshly staged record and an emptied
sequence appends it: the sequence becomes that one record. -/
theorem splicePhase_add1 (sb : Bool) (st : RunSt) (n : Nat)
    (h1 : st.toAdd = [n]) (h2 : st.c.seq = [])
    (h3 : st.order = none ∨ st.order = some [n])
    (h4 : st.sortFlag = false) :
    (splicePhase sb none st).c.seq = [n] ∧
    (splicePhase sb none st).c.idAttr = st.c.idAttr ∧
    (splicePhase sb none st).c.comparator = st.c.comparator ∧
    (splicePhase sb none st).res = st.res ∧
    (splicePhase sb none st).w = st.w ∧
    (splicePhase sb none st).sortFlag = sb := by
  unfold splicePhase
  rw [h1]
  rw [if_pos (by rfl)]
  rcases h3 with h | h
  · refine ⟨?_, rfl, rfl, rfl, rfl, ?_⟩
    · dsimp only
      rw [h, h2]
      rfl
    · dsimp only
      rw [h4]
      rfl
  · refine ⟨?_, rfl, rfl, rfl, rfl, ?_⟩
    · dsimp only
      rw [h]
      rfl
    · dsimp only
      rw [h4]
      rfl

theorem sortPhase_skip (st : RunSt) (h : st.sortFlag = false) : sortPhase st = st := by
  unfold sortPhase
  rw [if_neg (by rw [h]; exact Bool.false_ne_true)]

/-- Sorting cannot disturb a one-record sequence. -/
theorem sortPhase_single (st : RunSt) (n : Nat) (h : st.c.seq = [n]) :
    (sortPhase st).c.seq = [n] ∧
    (sortPhase st).c.idAttr = st.c.idAttr ∧
    (sortPhase st).res = st.res ∧
    (sortPhase st).w = st.w := by
  unfold sortPhase
  split
  · split
    · rename_i k hk
      refine ⟨?_, rfl, rfl, rfl⟩
      dsimp only
      rw [h]
      exact sortSeq_single _ _ _
    · exact ⟨h, rfl, rfl, rfl⟩
  · exact ⟨h, rfl, rfl, rfl⟩

/-- Machine state after classifying a duplicate pair that hit existing
member `e` (record object `em`). -/
def exSt2 (w : World) (c : Coll) (v : Val) (e : Nat) (em : Model)
    (ogf : Option (List Nat)) (ocf : Bool) : RunSt :=
  ⟨storeMap (storeMap w e (fun _ => { em with changed := [] })) e
     (fun _ => { em with changed := [] }), c, [], none, [],
   [MKey.idK v, MKey.cid e, MKey.idK v, MKey.cid e], ogf, ocf, false,
   [Res.mod e, Res.mod e], some e⟩

theorem classify_dup_existing2 (w : World) (c : Coll) (v : Val) (e : Nat) (em : Model)
    (sb : Bool) (sa : Option String) (og : Option (List Nat))
    (hbg : byIdGet c.byId (MKey.idK v) = some e)
    (hfound : findModel w e = some em)
    (hemc : em.cid = e)
    (hid : bagGet em.attrs c.idAttr = some v) :
    classifyList setDefOpts sb sa c.seq
      [Entry.bag [(c.idAttr, v)], Entry.bag [(c.idAttr, v)]] 0
      { initSt w c with order := og }
    = exSt2 w c v e em
        (match og with | none => none | some ord => some (ord ++ [e]))
        (match og with
         | none => false
         | some _ => (match c.seq.get? 0 with | none => true | some c0 => decide (c0 ≠ e))) := by
  rw [classify_dup_existing w c v e em sb sa og hbg hfound hemc hid]
  cases og <;> rfl

/-- The duplicate merge leaves member `e`'s attribute bag untouched. -/
theorem exW2_attrs (w : World) (e : Nat) (em : Model)
    (hfound : findModel w e = some em) (hemc : em.cid = e) :
    attrsOf (storeMap (storeMap w e (fun _ => { em with changed := [] })) e
      (fun _ => { em with changed := [] })) e = em.attrs := by
  have hfound1 : findModel (storeMap w e (fun _ => { em with changed := [] })) e
      = some { em with changed := [] } := by
    rw [findModel_storeMap w e (fun _ => { em with changed := [] }) (fun m hm => hemc)]
    rw [hfound]
    simp [hemc]
  unfold attrsOf
  rw [findModel_storeMap _ e (fun _ => { em with changed := [] }) (fun m hm => hemc), hfound1]
  simp [hemc]

/-- The fresh record of a fresh-duplicate batch carries exactly the input
bag. -/
theorem dupW2_attrs (w : World) (c : Coll) (v : Val)
    (hfresh : ∀ m ∈ w.store, m.cid < w.nextCid) :
    attrsOf (dupW2 w c v) w.nextCid = [(c.idAttr, v)] := by
  have hfoundW1 : findModel (dupW1 w c v) w.nextCid = some (dupM w c v) := by
    show storeFind (w.store ++ [dupM w c v]) w.nextCid = _
    exact storeFind_append_self
      (fun x hx hh => absurd (hfresh x hx) (by rw [hh]; exact lt_irrefl _))
  unfold attrsOf dupW2
  rw [findModel_storeMap _ w.nextCid (fun _ => { dupM w c v with changed := [] })
    (fun m hm => rfl), hfoundW1]
  simp [dupM]

/-- After the fresh-duplicate classification, every untouched member
still resolves to itself through the rewritten index. -/
theorem dup_fresh_resolve (w : World) (c : Coll) (v : Val)
    (hwf : WF w c) (hsi : SelfIndexed w c)
    (hbg : byIdGet c.byId (MKey.idK v) = none)
    (r : Nat) (hr : r ∈ c.seq) (hrn : r ≠ w.nextCid) :
    getC (dupW2 w c v) (dupC w c v) (Entry.mref r) = some r ∧
    byIdGet (dupC w c v).byId (MKey.cid r) = some r := by
  have hcidr : byIdGet (dupC w c v).byId (MKey.cid r) = some r := by
    show byIdGet (byIdSet (byIdSet c.byId (MKey.cid w.nextCid) w.nextCid)
      (MKey.idK v) w.nextCid) (MKey.cid r) = some r
    rw [byIdGet_set_ne _ _ (fun h => MKey.noConfusion h),
      byIdGet_set_ne _ _ (fun h => hrn (MKey.cid.inj h))]
    exact (hsi r hr).1
  refine ⟨?_, hcidr⟩
  have hW2 : getC (dupW2 w c v) (dupC w c v) (Entry.mref r)
      = getC (dupW1 w c v) (dupC w c v) (Entry.mref r) := by
    unfold dupW2
    refine getC_storeMap _ w.nextCid _ _ _ (fun m hm => rfl) ?_
    intro m hm hmc
    rcases List.mem_append.mp hm with h | h
    · exact absurd (hwf.fresh m h) (by rw [hmc]; exact lt_irrefl _)
    · rw [show m = dupM w c v from by simpa using h]
  rw [hW2]
  rw [getC_mref_eq]
  obtain ⟨m, hmW, hmc⟩ := hwf.mem_store r hr
  have hfm : findModel (dupW1 w c v) r = some m := by
    show storeFind (w.store ++ [dupM w c v]) r = some m
    rw [storeFind_append_ne (show (dupM w c v).cid ≠ r from
      fun h => hrn ((show w.nextCid = r from h).symm))]
    rw [← hmc]
    exact storeFind_of_mem hmW hwf.store_nodup
  rw [hfm]
  rw [show (some m).bind (fun m => bagGet m.attrs (dupC w c v).idAttr)
    = bagGet m.attrs c.idAttr from rfl]
  cases hb : bagGet m.attrs c.idAttr with
  | none => exact hcidr
  | some vr =>
    have hok := (hsi r hr).2 m hmW hmc
    rw [hb] at hok
    rw [show idEntryOk c r (some vr) = (byIdGet c.byId (.idK vr) = some r) from rfl] at hok
    have hvne : vr ≠ v := by
      intro hh
      rw [hh, hbg] at hok
      cases hok
    dsimp only
    rw [show byIdGet (dupC w c v).byId (MKey.idK vr)
      = byIdGet c.byId (MKey.idK vr) from by
        show byIdGet (byIdSet (byIdSet c.byId (MKey.cid w.nextCid) w.nextCid)
          (MKey.idK v) w.nextCid) (MKey.idK vr) = _
        rw [byIdGet_set_ne _ _ (fun h => hvne (MKey.idK.inj h)),
          byIdGet_set_ne _ _ (fun h => MKey.noConfusion h)]]
    rw [hok]

/-- C1: entries of one `set` batch whose domain identifier repeats an
earlier entry collapse onto the single already-resolved record.  After
`set([{id:1},{id:1}])` on any consistent, self-indexed collection whose
validator accepts the bag, the sequence is exactly one record, that
record carries identifier 1 (so exactly one such record is a member), and
the returned list maps both entries to that same record. -/
theorem C1_duplicate_ids_collapse (w : World) (c : Coll)
    (hwf : WF w c) (hsi : SelfIndexed w c) (hida : c.idAttr = "id")
    (hve : c.vErr [("id", 1)] = none) :
    ∃ x,
      (setL w c [Entry.bag [("id", 1)], Entry.bag [("id", 1)]] {}).res
        = [Res.mod x, Res.mod x] ∧
      (setL w c [Entry.bag [("id", 1)], Entry.bag [("id", 1)]] {}).c.seq = [x] ∧
      countId (setL w c [Entry.bag [("id", 1)], Entry.bag [("id", 1)]] {}).w
        (setL w c [Entry.bag [("id", 1)], Entry.bag [("id", 1)]] {}).c 1 = 1 := by
  have hveC : c.vErr [(c.idAttr, (1 : Val))] = none := by rw [hida]; exact hve
  rw [setL_eq_setRun]
  rw [show (Entry.bag [(("id" : String), (1 : Val))]) = Entry.bag [(c.idAttr, (1 : Val))]
    from by rw [hida]]
  unfold setRun
  rw [show atNOf c setDefOpts = (none : Option Int) from rfl]
  cases hcmp : c.comparator with
  | none =>
    have hsb : sortableOf c setDefOpts = false := by
      simp [sortableOf, setDefOpts, hcmp]
    have hord : order0Of c setDefOpts = some [] := by
      unfold order0Of
      rw [hsb]
      rfl
    have hst0 : st0Of w c setDefOpts = { initSt w c with order := some [] } := by
      unfold st0Of
      rw [hord]
    rw [hsb, hst0]
    cases hbg : byIdGet c.byId (MKey.idK (1 : Val)) with
    | some e =>
      obtain ⟨heseq, m2, hm2s, hm2c, hm2id⟩ := hwf.byId_ok _ (byIdGet_mem hbg)
      have hfound : findModel w e = some m2 := by
        unfold findModel
        rw [← hm2c]
        exact storeFind_of_mem hm2s hwf.store_nodup
      rw [classify_dup_existing2 w c 1 e m2 false (sortAttrOf c) (some []) hbg hfound hm2c hm2id]
      rw [show exSt2 w c 1 e m2
          (match (some ([] : List Nat)) with | none => none | some ord => some (ord ++ [e]))
          (match (some ([] : List Nat)) with
           | none => false
           | some _ => (match c.seq.get? 0 with | none => true | some c0 => decide (c0 ≠ e)))
        = exSt2 w c 1 e m2 (some [e])
            (match c.seq.get? 0 with | none => true | some c0 => decide (c0 ≠ e)) from rfl]
      generalize (match c.seq.get? 0 with | none => true | some c0 => decide (c0 ≠ e)) = oc
      have hcidf : ∀ m : Model, m.cid = e →
          ((fun _ : Model => { m2 with changed := [] }) m).cid = e := fun m hm => hm2c
      have hattrf1 : ∀ m ∈ w.store, m.cid = e →
          ((fun _ : Model => { m2 with changed := [] }) m).attrs = m.attrs := by
        intro m hm hce
        have hsf : storeFind w.store m.cid = some m := storeFind_of_mem hm hwf.store_nodup
        rw [hce] at hsf
        have hm2m : m2 = m := by
          have hf2 : storeFind w.store e = some m2 := hfound
          rw [hf2] at hsf
          injection hsf
        rw [← hm2m]
      have hattrf2 : ∀ m ∈ (storeMap w e (fun _ => { m2 with changed := [] })).store,
          m.cid = e → ((fun _ : Model => { m2 with changed := [] }) m).attrs = m.attrs := by
        intro m hm hce
        obtain ⟨m0, hm0, hmap⟩ := List.mem_map.mp hm
        by_cases hbe : (m0.cid == e) = true
        · rw [if_pos hbe] at hmap
          rw [← hmap]
        · rw [if_neg hbe] at hmap
          rw [← hmap] at hce
          exact absurd (by simp [hce]) hbe
      have hresA : ∀ r ∈ (exSt2 w c 1 e m2 (some [e]) oc).c.seq,
          ((exSt2 w c 1 e m2 (some [e]) oc).modelMap.any
            (fun k => decide (k = MKey.cid r))) = false →
          getC (exSt2 w c 1 e m2 (some [e]) oc).w (exSt2 w c 1 e m2 (some [e]) oc).c
            (Entry.mref r) = some r ∧
          byIdGet (exSt2 w c 1 e m2 (some [e]) oc).c.byId (MKey.cid r) = some r := by
        intro r hr hmk
        have hg0 : getC w c (Entry.mref r) = some r := getC_self w c hwf hsi r hr
        have hgs1 := getC_storeMap w e (fun _ => { m2 with changed := [] }) c
          (Entry.mref r) hcidf hattrf1
        have hgs2 := getC_storeMap (storeMap w e (fun _ => { m2 with changed := [] })) e
          (fun _ => { m2 with changed := [] }) c (Entry.mref r) hcidf hattrf2
        exact ⟨hgs2.trans (hgs1.trans hg0), (hsi r hr).1⟩
      obtain ⟨r1, r2, r3, r4, r5, r6, r7, r8, r9⟩ := removePhase_marks setDefOpts
        (exSt2 w c 1 e m2 (some [e]) oc) rfl hwf.len_ok hwf.seq_nodup hresA
      have hseqR : (removePhase setDefOpts (exSt2 w c 1 e m2 (some [e]) oc)).c.seq = [e] := by
        rw [r1]
        have hpt : ∀ x ∈ (exSt2 w c 1 e m2 (some [e]) oc).c.seq,
            ((exSt2 w c 1 e m2 (some [e]) oc).modelMap.any
              (fun k => decide (k = MKey.cid x))) = decide (x = e) := by
          intro x hx
          by_cases hxe : x = e
          · simp [exSt2, hxe]
          · simp [exSt2, hxe]
            exact fun h => hxe h.symm
        rw [List.filter_congr hpt]
        exact filter_eq_singleton_of_nodup hwf.seq_nodup heseq
      obtain ⟨p1, p2, p3, p4, p5, p6⟩ := splicePhase_noop false
        (removePhase setDefOpts (exSt2 w c 1 e m2 (some [e]) oc))
        (r4.trans rfl) (Or.inr (by rw [r5, hseqR]; rfl)) (r7.trans rfl) (Or.inr rfl)
      rw [sortPhase_skip _ p6]
      have hek := emitPhase_keep setDefOpts none (splicePhase false none
        (removePhase setDefOpts (exSt2 w c 1 e m2 (some [e]) oc)))
      have hattrE : attrsOf (removePhase setDefOpts
          (exSt2 w c 1 e m2 (some [e]) oc)).w e = m2.attrs :=
        (r9 e).trans (exW2_attrs w e m2 hfound hm2c)
      refine ⟨e, ?_, ?_, ?_⟩
      · rw [hek.2.2.2.2.2.2, p4, r8]
        rfl
      · rw [hek.2.2.2.2.1, p1, hseqR]
      · unfold countId
        rw [hek.2.2.2.2.1, hek.2.2.2.2.2.1, p1, hseqR, p5, p2, r2,
          show (exSt2 w c 1 e m2 (some [e]) oc).c.idAttr = c.idAttr from rfl]
        simp [List.filter_cons, hattrE, hm2id]
    | none =>
      rw [classify_dup_fresh w c 1 false (sortAttrOf c) (some []) hbg hveC hwf.fresh]
      rw [show dupSt2 w c 1
          (match (some ([] : List Nat)) with
           | none => none | some ord => some (ord ++ [w.nextCid]))
          (match (some ([] : List Nat)) with
           | none => false
           | some _ => (match c.seq.get? 0 with
                        | none => true
                        | some c0 => decide (c0 ≠ w.nextCid)))
        = dupSt2 w c 1 (some [w.nextCid])
            (match c.seq.get? 0 with
             | none => true
             | some c0 => decide (c0 ≠ w.nextCid)) from rfl]
      generalize (match c.seq.get? 0 with
        | none => true
        | some c0 => decide (c0 ≠ w.nextCid)) = oc
      have hresB : ∀ r ∈ (dupSt2 w c 1 (some [w.nextCid]) oc).c.seq,
          ((dupSt2 w c 1 (some [w.nextCid]) oc).modelMap.any
            (fun k => decide (k = MKey.cid r))) = false →
          getC (dupSt2 w c 1 (some [w.nextCid]) oc).w
            (dupSt2 w c 1 (some [w.nextCid]) oc).c (Entry.mref r) = some r ∧
          byIdGet (dupSt2 w c 1 (some [w.nextCid]) oc).c.byId (MKey.cid r) = some r := by
        intro r hr hmk
        have hrseq : r ∈ c.seq := hr
        have hrn : r ≠ w.nextCid := by
          obtain ⟨m0, hm0, hm0c⟩ := hwf.mem_store r hrseq
          have hlt := hwf.fresh m0 hm0
          rw [hm0c] at hlt
          exact Nat.ne_of_lt hlt
        exact dup_fresh_resolve w c 1 hwf hsi hbg r hrseq hrn
      obtain ⟨r1, r2, r3, r4, r5, r6, r7, r8, r9⟩ := removePhase_marks setDefOpts
        (dupSt2 w c 1 (some [w.nextCid]) oc) rfl hwf.len_ok hwf.seq_nodup hresB
      have hseqB : (removePhase setDefOpts (dupSt2 w c 1 (some [w.nextCid]) oc)).c.seq = [] := by
        rw [r1]
        apply List.filter_eq_nil_iff.mpr
        intro x hx
        have hxseq : x ∈ c.seq := hx
        have hxn : x ≠ w.nextCid := by
          obtain ⟨m0, hm0, hm0c⟩ := hwf.mem_store x hxseq
          have hlt := hwf.fresh m0 hm0
          rw [hm0c] at hlt
          exact Nat.ne_of_lt hlt
        simp [dupSt2, Ne.symm hxn]
      obtain ⟨p1, p2, p3, p4, p5, p6⟩ := splicePhase_add1 false
        (removePhase setDefOpts (dupSt2 w c 1 (some [w.nextCid]) oc)) w.nextCid
        (r4.trans rfl) hseqB (Or.inr (r5.trans rfl)) (r7.trans rfl)
      rw [sortPhase_skip _ p6]
      have hek := emitPhase_keep setDefOpts none (splicePhase false none
        (removePhase setDefOpts (dupSt2 w c 1 (some [w.nextCid]) oc)))
      have hattrB : attrsOf (removePhase setDefOpts
          (dupSt2 w c 1 (some [w.nextCid]) oc)).w w.nextCid = [(c.idAttr, 1)] :=
        (r9 _).trans (dupW2_attrs w c 1 hwf.fresh)
      refine ⟨w.nextCid, ?_, ?_, ?_⟩
      · rw [hek.2.2.2.2.2.2, p4, r8]
        rfl
      · rw [hek.2.2.2.2.1, p1]
      · unfold countId
        rw [hek.2.2.2.2.1, hek.2.2.2.2.2.1, p1, p5, p2, r2,
          show (dupSt2 w c 1 (some [w.nextCid]) oc).c.idAttr = c.idAttr from rfl]
        simp [List.filter_cons, hattrB, bagGet]
  | some k =>
    have hsb : sortableOf c setDefOpts = true := by
      simp [sortableOf, setDefOpts, hcmp]
    have hord : order0Of c setDefOpts = none := by
      unfold order0Of
      rw [hsb]
      rfl
    have hst0 : st0Of w c setDefOpts = { initSt w c with order := none } := by
      unfold st0Of
      rw [hord]
    rw [hsb, hst0]
    cases hbg : byIdGet c.byId (MKey.idK (1 : Val)) with
    | some e =>
      obtain ⟨heseq, m2, hm2s, hm2c, hm2id⟩ := hwf.byId_ok _ (byIdGet_mem hbg)
      have hfound : findModel w e = some m2 := by
        unfold findModel
        rw [← hm2c]
        exact storeFind_of_mem hm2s hwf.store_nodup
      rw [classify_dup_existing2 w c 1 e m2 true (sortAttrOf c) none hbg hfound hm2c hm2id]
      rw [show exSt2 w c 1 e m2
          (match (none : Option (List Nat)) with | none => none | some ord => some (ord ++ [e]))
          (match (none : Option (List Nat)) with
           | none => false
           | some _ => (match c.seq.get? 0 with | none => true | some c0 => decide (c0 ≠ e)))
        = exSt2 w c 1 e m2 none false from rfl]
      have hcidf : ∀ m : Model, m.cid = e →
          ((fun _ : Model => { m2 with changed := [] }) m).cid = e := fun m hm => hm2c
      have hattrf1 : ∀ m ∈ w.store, m.cid = e →
          ((fun _ : Model => { m2 with changed := [] }) m).attrs = m.attrs := by
        intro m hm hce
        have hsf : storeFind w.store m.cid = some m := storeFind_of_mem hm hwf.store_nodup
        rw [hce] at hsf
        have hm2m : m2 = m := by
          have hf2 : storeFind w.store e = some m2 := hfound
          rw [hf2] at hsf
          injection hsf
        rw [← hm2m]
      have hattrf2 : ∀ m ∈ (storeMap w e (fun _ => { m2 with changed := [] })).store,
          m.cid = e → ((fun _ : Model => { m2 with changed := [] }) m).attrs = m.attrs := by
        intro m hm hce
        obtain ⟨m0, hm0, hmap⟩ := List.mem_map.mp hm
        by_cases hbe : (m0.cid == e) = true
        · rw [if_pos hbe] at hmap
          rw [← hmap]
        · rw [if_neg hbe] at hmap
          rw [← hmap] at hce
          exact absurd (by simp [hce]) hbe
      have hresA : ∀ r ∈ (exSt2 w c 1 e m2 none false).c.seq,
          ((exSt2 w c 1 e m2 none false).modelMap.any
            (fun k => decide (k = MKey.cid r))) = false →
          getC (exSt2 w c 1 e m2 none false).w (exSt2 w c 1 e m2 none false).c
            (Entry.mref r) = some r ∧
          byIdGet (exSt2 w c 1 e m2 none false).c.byId (MKey.cid r) = some r := by
        intro r hr hmk
        have hg0 : getC w c (Entry.mref r) = some r := getC_self w c hwf hsi r hr
        have hgs1 := getC_storeMap w e (fun _ => { m2 with changed := [] }) c
          (Entry.mref r) hcidf hattrf1
        have hgs2 := getC_storeMap (storeMap w e (fun _ => { m2 with changed := [] })) e
          (fun _ => { m2 with changed := [] }) c (Entry.mref r) hcidf hattrf2
        exact ⟨hgs2.trans (hgs1.trans hg0), (hsi r hr).1⟩
      obtain ⟨r1, r2, r3, r4, r5, r6, r7, r8, r9⟩ := removePhase_marks setDefOpts
        (exSt2 w c 1 e m2 none false) rfl hwf.len_ok hwf.seq_nodup hresA
      have hseqR : (removePhase setDefOpts (exSt2 w c 1 e m2 none false)).c.seq = [e] := by
        rw [r1]
        have hpt : ∀ x ∈ (exSt2 w c 1 e m2 none false).c.seq,
            ((exSt2 w c 1 e m2 none false).modelMap.any
              (fun k => decide (k = MKey.cid x))) = decide (x = e) := by
          intro x hx
          by_cases hxe : x = e
          · simp [exSt2, hxe]
          · simp [exSt2, hxe]
            exact fun h => hxe h.symm
        rw [List.filter_congr hpt]
        exact filter_eq_singleton_of_nodup hwf.seq_nodup heseq
      obtain ⟨p1, p2, p3, p4, p5, p6⟩ := splicePhase_noop true
        (removePhase setDefOpts (exSt2 w c 1 e m2 none false))
        (r4.trans rfl) (Or.inl (r5.trans rfl)) (r7.trans rfl) (Or.inl (r6.trans rfl))
      rw [sortPhase_skip _ p6]
      have hek := emitPhase_keep setDefOpts none (splicePhase true none
        (removePhase setDefOpts (exSt2 w c 1 e m2 none false)))
      have hattrE : attrsOf (removePhase setDefOpts
          (exSt2 w c 1 e m2 none false)).w e = m2.attrs :=
        (r9 e).trans (exW2_attrs w e m2 hfound hm2c)
      refine ⟨e, ?_, ?_, ?_⟩
      · rw [hek.2.2.2.2.2.2, p4, r8]
        rfl
      · rw [hek.2.2.2.2.1, p1, hseqR]
      · unfold countId
        rw [hek.2.2.2.2.1, hek.2.2.2.2.2.1, p1, hseqR, p5, p2, r2,
          show (exSt2 w c 1 e m2 none false).c.idAttr = c.idAttr from rfl]
        simp [List.filter_cons, hattrE, hm2id]
    | none =>
      rw [classify_dup_fresh w c 1 true (sortAttrOf c) none hbg hveC hwf.fresh]
      rw [show dupSt2 w c 1
          (match (none : Option (List Nat)) with
           | none => none | some ord => some (ord ++ [w.nextCid]))
          (match (none : Option (List Nat)) with
           | none => false
           | some _ => (match c.seq.get? 0 with
                        | none => true
                        | some c0 => decide (c0 ≠ w.nextCid)))
        = dupSt2 w c 1 none false from rfl]
      have hresB : ∀ r ∈ (dupSt2 w c 1 none false).c.seq,
          ((dupSt2 w c 1 none false).modelMap.any
            (fun k => decide (k = MKey.cid r))) = false →
          getC (dupSt2 w c 1 none false).w
            (dupSt2 w c 1 none false).c (Entry.mref r) = some r ∧
          byIdGet (dupSt2 w c 1 none false).c.byId (MKey.cid r) = some r := by
        intro r hr hmk
        have hrseq : r ∈ c.seq := hr
        have hrn : r ≠ w.nextCid := by
          obtain ⟨m0, hm0, hm0c⟩ := hwf.mem_store r hrseq
          have hlt := hwf.fresh m0 hm0
          rw [hm0c] at hlt
          exact Nat.ne_of_lt hlt
        exact dup_fresh_resolve w c 1 hwf hsi hbg r hrseq hrn
      obtain ⟨r1, r2, r3, r4, r5, r6, r7, r8, r9⟩ := removePhase_marks setDefOpts
        (dupSt2 w c 1 none false) rfl hwf.len_ok hwf.seq_nodup hresB
      have hseqB : (removePhase setDefOpts (dupSt2 w c 1 none false)).c.seq = [] := by
        rw [r1]
        apply List.filter_eq_nil_iff.mpr
        intro x hx
        have hxseq : x ∈ c.seq := hx
        have hxn : x ≠ w.nextCid := by
          obtain ⟨m0, hm0, hm0c⟩ := hwf.mem_store x hxseq
          have hlt := hwf.fresh m0 hm0
          rw [hm0c] at hlt
          exact Nat.ne_of_lt hlt
        simp [dupSt2, Ne.symm hxn]
      obtain ⟨p1, p2, p3, p4, p5, p6⟩ := splicePhase_add1 true
        (removePhase setDefOpts (dupSt2 w c 1 none false)) w.nextCid
        (r4.trans rfl) hseqB (Or.inl (r5.trans rfl)) (r7.trans rfl)
      obtain ⟨q1, q2, q3, q4⟩ := sortPhase_single (splicePhase true none
        (removePhase setDefOpts (dupSt2 w c 1 none false))) w.nextCid p1
      have hek := emitPhase_keep setDefOpts none (sortPhase (splicePhase true none
        (removePhase setDefOpts (dupSt2 w c 1 none false))))
      have hattrB : attrsOf (removePhase setDefOpts
          (dupSt2 w c 1 none false)).w w.nextCid = [(c.idAttr, 1)] :=
        (r9 _).trans (dupW2_attrs w c 1 hwf.fresh)
      refine ⟨w.nextCid, ?_, ?_, ?_⟩
      · rw [hek.2.2.2.2.2.2, q3, p4, r8]
        rfl
      · rw [hek.2.2.2.2.1, q1]
      · unfold countId
        rw [hek.2.2.2.2.1, hek.2.2.2.2.2.1, q1, q4, q2, p5, p2, r2,
          show (dupSt2 w c 1 none false).c.idAttr = c.idAttr from rfl]
        simp [List.filter_cons, hattrB, bagGet]

theorem C1_duplicate_ids_collapse_witness :
    WF exWG exCG ∧ SelfIndexed exWG exCG ∧ exCG.idAttr = "id" ∧
    exCG.vErr [("id", 1)] = none ∧
    (∃ x,
      (setL exWG exCG [Entry.bag [("id", 1)], Entry.bag [("id", 1)]] {}).res
        = [Res.mod x, Res.mod x] ∧
      (setL exWG exCG [Entry.bag [("id", 1)], Entry.bag [("id", 1)]] {}).c.seq = [x] ∧
      countId (setL exWG exCG [Entry.bag [("id", 1)], Entry.bag [("id", 1)]] {}).w
        (setL exWG exCG [Entry.bag [("id", 1)], Entry.bag [("id", 1)]] {}).c 1 = 1) :=
  ⟨⟨by decide, by decide, by decide, by decide, by decide, by decide⟩,
   by unfold SelfIndexed; decide, rfl, rfl,
   C1_duplicate_ids_collapse exWG exCG
     ⟨by decide, by decide, by decide, by decide, by decide, by decide⟩
     (by unfold SelfIndexed; decide) rfl rfl⟩

/-- A collection owning one unsaved record (no domain identifier). -/
def exWU2 : World := ⟨[⟨0, [("rank", 9)], [], true⟩], 1⟩

/-- Its collection state: the record is a member, indexed by client
identity only. -/
def exCU2 : Coll := ⟨[0], 1, [(MKey.cid 0, 0)], none, "id", fun _ => none⟩

/-- C2 counterexample: on a consistent collection holding an unsaved
record, `set(collection.toArray())` with default options does not leave
the state unchanged — the serialized bag has no identifier, so `get`
misses, a fresh duplicate is manufactured and the original member is
evicted: the sequence changes and `remove`/`add` notifications fire. -/
theorem C2_counterexample :
    WF exWU2 exCU2 ∧ SelfIndexed exWU2 exCU2 ∧
    exCU2.seq = [0] ∧
    (setL exWU2 exCU2 (toArrayEntries exWU2 exCU2) {}).c.seq = [1] ∧
    (setL exWU2 exCU2 (toArrayEntries exWU2 exCU2) {}).evs
      = [Ev.rem 0 (some 0), Ev.addE 1 (some 0), Ev.sortE] :=
  ⟨⟨by decide, by decide, by decide, by decide, by decide, by decide⟩,
   by unfold SelfIndexed; decide, rfl, rfl, rfl⟩

/-- A bag with duplicate-free keys reads back each of its own entries. -/
theorem bagGet_of_mem_nodup : ∀ {l : Bag} {k : String} {v : Val},
    (k, v) ∈ l → (l.map (fun kv => kv.1)).Nodup → bagGet l k = some v := by
  intro l
  induction l with
  | nil => intro k v h _; cases h
  | cons kv rest ih =>
    intro k v h hnd
    rcases List.mem_cons.mp h with h1 | h1
    · rw [← h1]
      simp [bagGet]
    · have hnd2 : (kv.1 :: rest.map (fun kv => kv.1)).Nodup := by simpa using hnd
      have hk : ¬ kv.1 = k := by
        intro hh
        exact (List.nodup_cons.mp hnd2).1
          (hh ▸ List.mem_map.mpr ⟨(k, v), h1, rfl⟩)
      simp only [bagGet, if_neg hk]
      exact ih h1 (List.nodup_cons.mp hnd2).2

theorem foldl_bagSet_self : ∀ (l : Bag) (acc : Bag),
    (∀ kv ∈ l, bagGet acc kv.1 = some kv.2) →
    l.foldl (fun a kv => bagSet a kv.1 kv.2) acc = acc := by
  intro l
  induction l with
  | nil => intro acc _; rfl
  | cons kv rest ih =>
    intro acc h
    show rest.foldl (fun a kv => bagSet a kv.1 kv.2) (bagSet acc kv.1 kv.2) = acc
    rw [bagSet_get_self (h kv (List.mem_cons_self kv rest))]
    exact ih acc (fun kv2 h2 => h kv2 (List.mem_cons_of_mem kv h2))

/-- Writing a record's own attributes back into it changes nothing. -/
theorem modelSet_self (em : Model)
    (hnd : (em.attrs.map (fun kv => kv.1)).Nodup) :
    modelSet em em.attrs = { em with changed := [] } := by
  unfold modelSet
  rw [foldl_bagSet_self em.attrs em.attrs
    (fun kv hkv => bagGet_of_mem_nodup hkv hnd)]
  rw [show (em.attrs.filter (fun kv => bagGet em.attrs kv.1 != some kv.2)) = [] from
    List.filter_eq_nil_iff.mpr (fun kv hkv => by
      rw [bagGet_of_mem_nodup hkv hnd]
      simp)]
  rfl

/-- Merging a record's own serialized bag back into it is a no-op: no
key is rewritten, nothing fires, only the `changed` list is cleared. -/
theorem mergeExisting_selfBag (o : SetOpts) (sb : Bool) (sa : Option String)
    (ecid : Nat) (st : RunSt) (em : Model) (b : Bag)
    (hmerge : o.merge = true)
    (hfound : findModel st.w ecid = some em)
    (hb : b = em.attrs)
    (hnd : (em.attrs.map (fun kv => kv.1)).Nodup) :
    mergeExisting o sb sa ecid (Entry.bag b) st
      = { st with w := storeMap st.w ecid (fun _ => { em with changed := [] }) } := by
  unfold mergeExisting
  rw [if_pos (show (o.merge && !(sameObjB ecid (Entry.bag b))) = true by rw [hmerge]; rfl)]
  rw [hfound]
  dsimp only
  rw [show entryAttrs st.w (Entry.bag b) = b from rfl, hb, modelSet_self em hnd]
  cases sa with
  | none => simp
  | some a => simp

/-- One classification iteration that pushes a new record with a fresh
identifier onto the tracked order: the order grows at the back, the
identifier and nothing else joins `modelMap`, and since the record sits at
exactly its original position, `orderChanged` is not raised. -/
theorem trailing_push (origSeq : List Nat) (i mcid : Nat) (st : RunSt) (v : Val)
    (hid : modelIdOf st.c (attrsOf st.w mcid) = some v)
    (hget : origSeq.get? i = some mcid)
    (hnotin : (st.modelMap.any (fun k => decide (k = MKey.idK v))) = false) :
    (trailing origSeq i mcid st).modelMap = MKey.idK v :: st.modelMap ∧
    (trailing origSeq i mcid st).order =
      (match st.order with | none => none | some ord => some (ord ++ [mcid])) ∧
    (trailing origSeq i mcid st).orderChanged = st.orderChanged := by
  unfold trailing
  dsimp only
  rw [hid]
  cases ho : st.order with
  | none =>
    refine ⟨rfl, ?_, rfl⟩
    show st.order = none
    exact ho
  | some ord =>
    dsimp only
    rw [if_pos (show ((some v).isNone
        || !(st.modelMap.any (fun k => decide (k = mkKey (some v))))) = true from by
      rw [show mkKey (some v) = MKey.idK v from rfl, hnotin]
      rfl)]
    rw [hget]
    refine ⟨rfl, rfl, ?_⟩
    dsimp only
    rw [show (decide (mcid ≠ mcid) : Bool) = false from by simp]
    rw [Bool.or_false]

/-- A splice pass with nothing staged and no effective reorder leaves the
whole collection state and the trace alone. -/
theorem splicePhase_noopC (sb : Bool) (st : RunSt)
    (h1 : st.toAdd = [])
    (h2 : st.order = none ∨ st.order = some st.c.seq)
    (h3 : st.sortFlag = false)
    (h4 : st.orderChanged = false) :
    (splicePhase sb none st).c.seq = st.c.seq ∧
    (splicePhase sb none st).c.length = st.c.length ∧
    (splicePhase sb none st).c.byId = st.c.byId ∧
    (splicePhase sb none st).evs = st.evs ∧
    (splicePhase sb none st).sortFlag = false := by
  unfold splicePhase
  rw [h1]
  rw [if_neg (by
    intro hcontra
    rw [show ((!([] : List Nat).isEmpty || st.orderChanged) = true) =
      (st.orderChanged = true) from by simp] at hcontra
    rw [h4] at hcontra
    cases hcontra)]
  exact ⟨rfl, rfl, rfl, rfl, h3⟩

/-- The notification pass emits nothing when nothing was staged, no sort
is pending and the order did not change. -/
theorem emitPhase_quiet (o : SetOpts) (atN : Option Int) (st : RunSt)
    (h3 : st.evs = []) (h5 : st.toAdd = []) (h6 : st.sortFlag = false)
    (h7 : st.orderChanged = false) :
    (emitPhase o atN st).evs = [] := by
  unfold emitPhase
  split
  · exact h3
  · dsimp only
    rw [h3]
    cases atN with
    | none => simp [emitAddEvs, emitSortEvs, h5, h6, h7]
    | some a => simp [emitAddEvs, emitSortEvs, h5, h6, h7]

/-- Classifying the collection's own serialized members, in order,
against itself: every entry resolves to its own record through the
identifier index, the merge rewrites nothing, every member gets marked,
nothing is staged, the tracked order rebuilds the sequence verbatim and
no notification fires. -/
theorem classify_selfbatch (w : World) (c : Coll)
    (hwf : WF w c) (hsi : SelfIndexed w c) (hids : HasIds w c) (hck : CleanKeys w c)
    (sb : Bool) (sa : Option String) :
    ∀ (rest : List Nat) (i : Nat) (st : RunSt),
    c.seq.drop i = rest →
    st.c = c →
    (∀ x, (findModel st.w x).map (fun m => (m.cid, m.attrs))
        = (findModel w x).map (fun m => (m.cid, m.attrs))) →
    st.evs = [] → st.toAdd = [] → st.sortFlag = false → st.orderChanged = false →
    (st.order = none ∨ st.order = some (c.seq.take i)) →
    (∀ k, k ∈ st.modelMap ↔ ∃ j ∈ c.seq.take i,
      (k = MKey.cid j ∨ ∃ v, modelIdOf c (attrsOf w j) = some v ∧ k = MKey.idK v)) →
    (classifyList setDefOpts sb sa c.seq
        (rest.map (fun cid => Entry.bag (attrsOf w cid))) i st).c = c ∧
    (classifyList setDefOpts sb sa c.seq
        (rest.map (fun cid => Entry.bag (attrsOf w cid))) i st).evs = [] ∧
    (classifyList setDefOpts sb sa c.seq
        (rest.map (fun cid => Entry.bag (attrsOf w cid))) i st).toAdd = [] ∧
    (classifyList setDefOpts sb sa c.seq
        (rest.map (fun cid => Entry.bag (attrsOf w cid))) i st).sortFlag = false ∧
    (classifyList setDefOpts sb sa c.seq
        (rest.map (fun cid => Entry.bag (attrsOf w cid))) i st).orderChanged = false ∧
    ((classifyList setDefOpts sb sa c.seq
        (rest.map (fun cid => Entry.bag (attrsOf w cid))) i st).order = none ∨
     (classifyList setDefOpts sb sa c.seq
        (rest.map (fun cid => Entry.bag (attrsOf w cid))) i st).order = some c.seq) ∧
    (∀ j ∈ c.seq, MKey.cid j ∈ (classifyList setDefOpts sb sa c.seq
        (rest.map (fun cid => Entry.bag (attrsOf w cid))) i st).modelMap) := by
  intro rest
  induction rest with
  | nil =>
    intro i st hdrop hc hw hevs htoAdd hsf hoc horder hmm
    have hile : c.seq.length ≤ i := List.drop_eq_nil_iff.mp hdrop
    have htake : c.seq.take i = c.seq := List.take_of_length_le hile
    refine ⟨hc, hevs, htoAdd, hsf, hoc, ?_, ?_⟩
    · rcases horder with h | h
      · exact Or.inl h
      · right
        show st.order = some c.seq
        rw [h, htake]
    · intro j hj
      exact (hmm (MKey.cid j)).mpr ⟨j, by rw [htake]; exact hj, Or.inl rfl⟩
  | cons r rest' ih =>
    intro i st hdrop hc hw hevs htoAdd hsf hoc horder hmm
    have hgetE : c.seq[i]? = some r := by
      have h0 := List.getElem?_drop c.seq i 0
      rw [hdrop] at h0
      simpa using h0.symm
    have hget : c.seq.get? i = some r := by
      rw [List.get?_eq_getElem?]
      exact hgetE
    have hrseq : r ∈ c.seq := List.get?_mem hget
    have hdrop' : c.seq.drop (i + 1) = rest' := by
      have h1 : (c.seq.drop i).tail = rest' := by
        rw [hdrop]
        rfl
      rw [List.tail_drop] at h1
      exact h1
    have hrtake : r ∉ c.seq.take i := by
      have hnd2 : (c.seq.take i ++ c.seq.drop i).Nodup := by
        rw [List.take_append_drop]
        exact hwf.seq_nodup
      rw [hdrop] at hnd2
      intro hmem
      exact (List.disjoint_of_nodup_append hnd2) hmem (List.mem_cons_self r rest')
    have htakes : c.seq.take (i + 1) = c.seq.take i ++ [r] := by
      rw [List.take_succ, hgetE]
      rfl
    obtain ⟨mr, hmrW, hmrc⟩ := hwf.mem_store r hrseq
    have hfmw : findModel w r = some mr := by
      unfold findModel
      rw [← hmrc]
      exact storeFind_of_mem hmrW hwf.store_nodup
    have hattrw : attrsOf w r = mr.attrs := by
      unfold attrsOf
      rw [hfmw]
      rfl
    obtain ⟨vr, hvr⟩ : ∃ v, bagGet mr.attrs c.idAttr = some v :=
      Option.isSome_iff_exists.mp (hids r hrseq mr hmrW hmrc)
    have hvIdx : modelIdOf c (attrsOf w r) = some vr := by
      unfold modelIdOf
      rw [hattrw]
      exact hvr
    have hidr : byIdGet c.byId (MKey.idK vr) = some r := by
      have hok := (hsi r hrseq).2 mr hmrW hmrc
      rw [hvr] at hok
      exact hok
    have hgete : getC st.w st.c (Entry.bag (attrsOf w r)) = some r := by
      rw [hc]
      unfold getC
      dsimp only
      rw [hvIdx]
      exact hidr
    obtain ⟨em, hfst, hemc, hema⟩ : ∃ em, findModel st.w r = some em ∧ em.cid = r ∧
        em.attrs = mr.attrs := by
      have h2 := hw r
      rw [hfmw] at h2
      cases hfx : findModel st.w r with
      | none =>
        rw [hfx] at h2
        simp at h2
      | some em =>
        rw [hfx] at h2
        simp at h2
        exact ⟨em, rfl, h2.1.trans hmrc, h2.2⟩
    have hb : attrsOf w r = em.attrs := hattrw.trans hema.symm
    have hndem : (em.attrs.map (fun kv => kv.1)).Nodup := by
      rw [hema]
      exact hck r hrseq mr hmrW hmrc
    have hbig : classifyStep setDefOpts sb sa c.seq i (Entry.bag (attrsOf w r)) st
        = trailing c.seq i r
          ⟨storeMap st.w r (fun _ => { em with changed := [] }), st.c, st.evs, st.optIdx,
           st.toAdd, MKey.cid r :: st.modelMap, st.order, st.orderChanged, st.sortFlag,
           st.res ++ [Res.mod r], st.lastModel⟩ := by
      rw [classifyStep_some setDefOpts sb sa c.seq i (Entry.bag (attrsOf w r)) st r hgete]
      rw [if_pos (show setDefOpts.remove = true from rfl)]
      rw [mergeExisting_selfBag setDefOpts sb sa r
        { st with modelMap := MKey.cid r :: st.modelMap } em (attrsOf w r) rfl
        (show findModel ({ st with modelMap := MKey.cid r :: st.modelMap } : RunSt).w r
          = some em from hfst) hb hndem]
    have hattr3 : attrsOf (storeMap st.w r (fun _ => { em with changed := [] })) r
        = mr.attrs := by
      unfold attrsOf
      rw [findModel_storeMap st.w r (fun _ => { em with changed := [] })
        (fun m hm => hemc), hfst]
      simp [hemc, hema]
    have hnost : (st.modelMap.any (fun k => decide (k = MKey.idK vr))) = false := by
      cases hb2 : st.modelMap.any (fun k => decide (k = MKey.idK vr)) with
      | false => rfl
      | true =>
        exfalso
        obtain ⟨k, hkmem, hkd⟩ := List.any_eq_true.mp hb2
        have hkk : k = MKey.idK vr := of_decide_eq_true hkd
        subst hkk
        obtain ⟨j, hjt, hj⟩ := (hmm _).mp hkmem
        rcases hj with hj | ⟨v, hv, hkv⟩
        · exact MKey.noConfusion hj
        · have hvv : vr = v := MKey.idK.inj hkv
          subst hvv
          have hjseq : j ∈ c.seq := (List.take_subset i c.seq) hjt
          obtain ⟨mj, hmjW, hmjc⟩ := hwf.mem_store j hjseq
          have hfmj : findModel w j = some mj := by
            unfold findModel
            rw [← hmjc]
            exact storeFind_of_mem hmjW hwf.store_nodup
          have hbgj : bagGet mj.attrs c.idAttr = some vr := by
            unfold modelIdOf attrsOf at hv
            rw [hfmj] at hv
            exact hv
          have hokj := (hsi j hjseq).2 mj hmjW hmjc
          rw [hbgj] at hokj
          have hjr : j = r := by
            have h1 : byIdGet c.byId (MKey.idK vr) = some j := hokj
            rw [hidr] at h1
            injection h1 with h1
            exact h1.symm
          subst hjr
          exact hrtake hjt
    have hnotin3 : ((MKey.cid r :: st.modelMap).any
        (fun k => decide (k = MKey.idK vr))) = false := by
      rw [List.any_cons]
      rw [show (decide (MKey.cid r = MKey.idK vr) : Bool) = false from rfl, hnost]
      rfl
    obtain ⟨t1, t2, t3⟩ := trailing_push c.seq i r
      ⟨storeMap st.w r (fun _ => { em with changed := [] }), st.c, st.evs, st.optIdx,
       st.toAdd, MKey.cid r :: st.modelMap, st.order, st.orderChanged, st.sortFlag,
       st.res ++ [Res.mod r], st.lastModel⟩ vr
      (show modelIdOf st.c
        (attrsOf (storeMap st.w r (fun _ => { em with changed := [] })) r) = some vr from by
        rw [hc]
        unfold modelIdOf
        rw [hattr3]
        exact hvr)
      hget hnotin3
    have hkeeps := trailing_keep c.seq i r
      ⟨storeMap st.w r (fun _ => { em with changed := [] }), st.c, st.evs, st.optIdx,
       st.toAdd, MKey.cid r :: st.modelMap, st.order, st.orderChanged, st.sortFlag,
       st.res ++ [Res.mod r], st.lastModel⟩
    have hunfold : classifyList setDefOpts sb sa c.seq
        ((r :: rest').map (fun cid => Entry.bag (attrsOf w cid))) i st
      = classifyList setDefOpts sb sa c.seq
        (rest'.map (fun cid => Entry.bag (attrsOf w cid))) (i + 1)
        (classifyStep setDefOpts sb sa c.seq i (Entry.bag (attrsOf w r)) st) := rfl
    rw [hunfold, hbig]
    refine ih (i + 1) _ hdrop' (hkeeps.2.1.trans hc) ?_ (hkeeps.2.2.1.trans hevs)
      (hkeeps.2.2.2.2.1.trans htoAdd) (hkeeps.2.2.2.2.2.1.trans hsf) (t3.trans hoc)
      ?_ ?_
    · intro x
      rw [hkeeps.1]
      show (findModel (storeMap st.w r (fun _ => { em with changed := [] })) x).map
          (fun m => (m.cid, m.attrs)) = (findModel w x).map (fun m => (m.cid, m.attrs))
      rw [findModel_storeMap st.w r (fun _ => { em with changed := [] }) (fun m hm => hemc)]
      cases hfx : findModel st.w x with
      | none =>
        have h2 := hw x
        rw [hfx] at h2
        exact h2
      | some m =>
        have h2 := hw x
        rw [hfx] at h2
        by_cases hbe : (m.cid == r) = true
        · have hmr2 : m.cid = r := by simpa using hbe
          have hmcid : m.cid = x :=
            (storeFind_mem (show storeFind st.w.store x = some m from hfx)).2
          have hxr : x = r := by rw [← hmcid, hmr2]
          subst hxr
          rw [hfst] at hfx
          injection hfx with hem
          subst hem
          rw [← h2]
          simp [hmr2]
        · have hne : m.cid ≠ r := by simpa using hbe
          rw [← h2]
          simp [hne]
    · rcases horder with h | h
      · left
        rw [t2]
        dsimp only
        rw [h]
      · right
        rw [t2]
        dsimp only
        rw [h, htakes]
    · intro k
      rw [t1]
      dsimp only
      constructor
      · intro hk
        rcases List.mem_cons.mp hk with h1 | hk2
        · exact ⟨r, by rw [htakes]; exact List.mem_append_right _ (List.mem_singleton.mpr rfl),
            Or.inr ⟨vr, hvIdx, h1⟩⟩
        · rcases List.mem_cons.mp hk2 with h1 | hk3
          · exact ⟨r, by rw [htakes]; exact List.mem_append_right _ (List.mem_singleton.mpr rfl),
              Or.inl h1⟩
          · obtain ⟨j, hjt, hj⟩ := (hmm k).mp hk3
            exact ⟨j, by rw [htakes]; exact List.mem_append_left _ hjt, hj⟩
      · intro hex
        obtain ⟨j, hjt, hj⟩ := hex
        rw [htakes] at hjt
        rcases List.mem_append.mp hjt with h1 | h1
        · exact List.mem_cons_of_mem _ (List.mem_cons_of_mem _ ((hmm k).mpr ⟨j, h1, hj⟩))
        · have hjr : j = r := List.mem_singleton.mp h1
          subst hjr
          rcases hj with hj | ⟨v, hv, hkv⟩
          · rw [hj]
            exact List.mem_cons_of_mem _ (List.mem_cons_self _ _)
          · have hvv : v = vr := by
              rw [hvIdx] at hv
              injection hv with hv
              exact hv.symm
            subst hvv
            rw [hkv]
            exact List.mem_cons_self _ _

/-- The removal pass is the identity when every current member is marked
as seen. -/
theorem removePhase_skip (o : SetOpts) (st : RunSt)
    (h : ∀ cid ∈ st.c.seq, MKey.cid cid ∈ st.modelMap) :
    removePhase o st = st := by
  unfold removePhase
  split
  · have hnil : (st.c.seq.take st.c.length.toNat).filter
        (fun cid => !(st.modelMap.any (fun k => decide (k = MKey.cid cid)))) = [] := by
      rw [List.filter_eq_nil_iff]
      intro a ha
      have hmk : MKey.cid a ∈ st.modelMap := h a ((List.take_subset _ _) ha)
      have hany : st.modelMap.any (fun k => decide (k = MKey.cid a)) = true :=
        List.any_eq_true.mpr ⟨MKey.cid a, hmk, by simp⟩
      simp [hany]
    simp only [hnil]
    rfl
  · rfl

/-- The splice pass is the identity when nothing is staged and the order
did not change. -/
theorem splicePhase_id (sb : Bool) (atN : Option Int) (st : RunSt)
    (h1 : st.toAdd = []) (h4 : st.orderChanged = false) :
    splicePhase sb atN st = st := by
  unfold splicePhase
  rw [if_neg (by
    intro hcontra
    rw [show ((!st.toAdd.isEmpty || st.orderChanged) = true) =
      ((!st.toAdd.isEmpty || false) = true) from by rw [h4]] at hcontra
    rw [h1] at hcontra
    cases hcontra)]

/-- C2 (amended): `set(collection.toArray())` with default options leaves
the collection state unchanged and fires no notification, provided every
member record carries a domain identifier: each serialized bag then
resolves through the identifier index to the record it came from, the
merge writes back the identical attributes, nothing is staged, removed or
reordered.  (Without identifiers the round trip is not the identity:
`C2_counterexample`.) -/
theorem C2_amended_idempotence (w : World) (c : Coll)
    (hwf : WF w c) (hsi : SelfIndexed w c) (hids : HasIds w c) (hck : CleanKeys w c) :
    (setL w c (toArrayEntries w c) {}).c = c ∧
    (setL w c (toArrayEntries w c) {}).evs = [] := by
  rw [setL_eq_setRun w c (toArrayEntries w c)]
  unfold setRun
  rw [show atNOf c setDefOpts = none from rfl]
  rw [show toArrayEntries w c = List.map (fun cid => Entry.bag (attrsOf w cid)) c.seq
    from rfl]
  have horder : (st0Of w c setDefOpts).order = none ∨
      (st0Of w c setDefOpts).order = some (c.seq.take 0) := by
    cases hsv : sortableOf c setDefOpts with
    | true =>
      left
      show order0Of c setDefOpts = none
      unfold order0Of
      rw [hsv]
      rfl
    | false =>
      right
      show order0Of c setDefOpts = some (c.seq.take 0)
      unfold order0Of
      rw [hsv]
      rfl
  have hmm0 : ∀ k, k ∈ (st0Of w c setDefOpts).modelMap ↔ ∃ j ∈ c.seq.take 0,
      (k = MKey.cid j ∨ ∃ v, modelIdOf c (attrsOf w j) = some v ∧ k = MKey.idK v) := by
    intro k
    constructor
    · intro h
      exact absurd h (List.not_mem_nil k)
    · rintro ⟨j, hj, _⟩
      exact absurd hj (List.not_mem_nil j)
  obtain ⟨g1, g2, g3, g4, g5, g6, g7⟩ :=
    classify_selfbatch w c hwf hsi hids hck (sortableOf c setDefOpts) (sortAttrOf c)
      c.seq 0 (st0Of w c setDefOpts) rfl rfl (fun x => rfl) rfl rfl rfl rfl horder hmm0
  set CL := classifyList setDefOpts (sortableOf c setDefOpts) (sortAttrOf c) c.seq
    (List.map (fun cid => Entry.bag (attrsOf w cid)) c.seq) 0 (st0Of w c setDefOpts) with hCL
  rw [removePhase_skip setDefOpts CL (by
    intro cid hc2
    rw [g1] at hc2
    exact g7 cid hc2)]
  rw [splicePhase_id (sortableOf c setDefOpts) none CL g3 g5]
  rw [sortPhase_skip CL g4]
  exact ⟨((emitPhase_keep setDefOpts none CL).2.2.2.2.1).trans g1,
    emitPhase_quiet setDefOpts none CL g2 g3 g4 g5⟩

/-- The amended C2 theorem applied to a concrete consistent one-member
collection whose record is saved. -/
theorem C2_amended_idempotence_witness :
    (WF exWG exCG ∧ SelfIndexed exWG exCG ∧ HasIds exWG exCG ∧ CleanKeys exWG exCG) ∧
    ((setL exWG exCG (toArrayEntries exWG exCG) {}).c = exCG ∧
     (setL exWG exCG (toArrayEntries exWG exCG) {}).evs = []) :=
  ⟨⟨⟨by decide, by decide, by decide, by decide, by decide, by decide⟩,
    by unfold SelfIndexed; decide, by unfold HasIds; decide, by unfold CleanKeys; decide⟩,
   C2_amended_idempotence exWG exCG
     ⟨by decide, by decide, by decide, by decide, by decide, by decide⟩
     (by unfold SelfIndexed; decide) (by unfold HasIds; decide)
     (by unfold CleanKeys; decide)⟩
